import Mathlib

/-!
Verification of the two operational scripts of this repository against their
specification:

* `netbox/scripts/netbox_init.py` — the idempotent seed ("Reconciler") tool
  that populates an asset-management store (groups, permissions,
  manufacturers, roles, device types, sites, prefixes, devices, interfaces,
  IP addresses) through a REST API, plus its pure helper functions
  (`min_hash_value_by_value`, `is_ip_address`, …).

* `sensor-raspi/generate-recipe.py` — the static templating tool with its
  `align_replace` block-replacement helper and the final blank/empty-item
  line filter.

The embedding is shallow: texts are lists of characters, Python dicts are
association lists with Python's insert/replace semantics, and the remote
store is a record of collections with store-assigned sequential identifiers.
Per the specification's collaborator contract, a `create` call raises a
distinguishable request-rejected error when the entity's identity key is
already present; rejected creations leave the store unchanged and the
script logs and continues.  Modelled line boundaries for `str.splitlines`
are `\n`, `\r\n` and `\r`.
-/

namespace MalcolmX

/-! ### Python character/string primitives -/

/-- Python's `\s` character class (ASCII range), as used by `re` on the
texts this tool processes. -/
def pyIsSpace (c : Char) : Bool :=
  c = ' ' ∨ c = '\t' ∨ c = '\n' ∨ c = '\x0b' ∨ c = '\x0c' ∨ c = '\r'

/-- Python `str.lower` on a single ASCII character. -/
def pyLowerChar (c : Char) : Char :=
  if 'A' ≤ c ∧ c ≤ 'Z' then Char.ofNat (c.toNat + 32) else c

/-- Python `str.lower`. -/
def pyLower (l : List Char) : List Char := l.map pyLowerChar

/-- Python `str.split(sep)` for a one-character separator: keeps empty
parts, always returns at least one part. -/
def pySplit (sep : Char) : List Char → List (List Char)
  | [] => [[]]
  | c :: rest =>
    if c = sep then [] :: pySplit sep rest
    else
      match pySplit sep rest with
      | [] => [[c]]
      | p :: ps => (c :: p) :: ps

/-- Accumulator loop of Python `str.splitlines` (line boundaries modelled:
`\n`, `\r\n`, `\r`); the final fragment is emitted only when non-empty. -/
def pySplitGo : List Char → List Char → List (List Char)
  | [], acc => if acc.isEmpty then [] else [acc.reverse]
  | '\r' :: '\n' :: rest, acc => acc.reverse :: pySplitGo rest []
  | '\r' :: rest, acc => acc.reverse :: pySplitGo rest []
  | '\n' :: rest, acc => acc.reverse :: pySplitGo rest []
  | c :: rest, acc => pySplitGo rest (c :: acc)

/-- Python `str.splitlines`. -/
def pySplitLinesList (l : List Char) : List (List Char) := pySplitGo l []

/-- `'\n'.join(lines)`. -/
def joinNL : List (List Char) → List Char
  | [] => []
  | [l] => l
  | l :: ls => l ++ '\n' :: joinNL ls

/-! ### generate-recipe.py: `align_replace` and the output filter -/

/-- `re.match(r'^(\s+)PAT', line)` for a literal placeholder `PAT` whose
first character is not whitespace: the line starts with a non-empty run of
whitespace followed immediately by the placeholder (the rest of the line is
unconstrained, since the pattern is not end-anchored). -/
def matchesPlaceholder (pat : List Char) (l : List Char) : Bool :=
  (l.takeWhile pyIsSpace) ≠ [] ∧ pat.isPrefixOf (l.dropWhile pyIsSpace)

/-- The indentation captured by the `(\s+)` group. -/
def lineIndent (l : List Char) : List Char := l.takeWhile pyIsSpace

/-- The line-level loop of `align_replace` (generate-recipe.py:158-167):
find the first line whose leading whitespace is followed by the pattern,
delete it, and insert one copy of each replacement line prefixed with the
captured indentation; all other lines pass through unchanged. -/
def alignReplaceLines (pat : List Char) (repl : List (List Char)) :
    List (List Char) → List (List Char)
  | [] => []
  | l :: ls =>
    if matchesPlaceholder pat l then
      (repl.map (fun r => lineIndent l ++ r)) ++ ls
    else
      l :: alignReplaceLines pat repl ls

/-- `align_replace(text, pattern, replacement)` (generate-recipe.py:152-168):
split into lines, run the replacement loop, re-join with a trailing
newline. -/
def align_replace (text : List Char) (pat : List Char)
    (repl : List (List Char)) : List Char :=
  joinNL (alignReplaceLines pat repl (pySplitLinesList text)) ++ ['\n']

/-- `re.match(r'^\s+$', x)`: one or more whitespace characters and nothing
else.  Note that the empty line does not match. -/
def pyMatchBlank (l : List Char) : Bool := l ≠ [] ∧ l.all pyIsSpace

/-- `re.match(r'^\s+-\s*$', x)`: one or more whitespace characters, a dash,
then optional whitespace. -/
def pyMatchEmptyItem (l : List Char) : Bool :=
  !(l.takeWhile pyIsSpace).isEmpty &&
    match l.dropWhile pyIsSpace with
    | '-' :: rest => rest.all pyIsSpace
    | _ => false

/-- Filter of generate-recipe.py:196: keep a line unless it matches the
blank pattern or the empty-list-item pattern. -/
def keepLine (l : List Char) : Bool := ¬ pyMatchBlank l ∧ ¬ pyMatchEmptyItem l

/-- The written output (generate-recipe.py:196-197): filter the substituted
text's lines and join with a trailing newline. -/
def finalOutput (text : List Char) : List Char :=
  joinNL ((pySplitLinesList text).filter keepLine) ++ ['\n']

/-- A line that is blank in the sense of the specification: it consists
only of (possibly zero) whitespace characters. -/
def isBlankLine (l : List Char) : Bool := l.all pyIsSpace

/-! ### netbox_init.py: Python `sorted` and `min_hash_value_by_value` -/

/-- Insert an element into a sorted list, after every element strictly
smaller: the structural core of a stable sort. -/
def pyInsort (lt : α → α → Bool) (a : α) : List α → List α
  | [] => [a]
  | b :: l => if lt b a then b :: pyInsort lt a l else a :: b :: l

/-- Python's `sorted` with a key function is the stable sort by that key;
the output of a stable sort is unique, so this structurally recursive
insertion sort is extensionally the same function. -/
def pySorted (lt : α → α → Bool) : List α → List α
  | [] => []
  | a :: l => pyInsort lt a (pySorted lt l)

/-- `sorted(x.items(), key=lambda item: item[1])` followed by taking the
first value (netbox_init.py:78-83 builds a dict from the sorted items and
takes `next(iter(values), None)`; for a mapping the rebuild preserves the
sorted order).  The generic version sorts the dict's values by a numeric
measure. -/
def min_hash_value_by_sort (val : β → Nat) (d : List (α × β)) : Option β :=
  ((pySorted (fun p q => val p.2 < val q.2) d).map (fun p => p.2)).head?

/-- `min_hash_value_by_value` (netbox_init.py:78-83) on a mapping from
names to numeric identifiers. -/
def min_hash_value_by_value (d : List (String × Nat)) : Option Nat :=
  min_hash_value_by_sort id d

/-! ### netbox_init.py: `ipaddress` parsing (is_ip_address & co.)

The script's classification helpers delegate to Python's `ipaddress`
module; the grammar below follows CPython's `IPv4Address._ip_int_from_string`
and `IPv6Address._ip_int_from_string` on string inputs (decimal octets with
no leading zeros; hextets of at most four hex digits; at most one `::`;
optional embedded IPv4 in the last group; optional non-empty scope id after
`%`; `/` always rejected by the address classes). -/

def pyIsDigit (c : Char) : Bool := '0' ≤ c ∧ c ≤ '9'

def pyIsHexDigit (c : Char) : Bool :=
  pyIsDigit c ∨ ('a' ≤ c ∧ c ≤ 'f') ∨ ('A' ≤ c ∧ c ≤ 'F')

def hexDigitVal (c : Char) : Nat :=
  if pyIsDigit c then c.toNat - '0'.toNat
  else if 'a' ≤ c ∧ c ≤ 'f' then c.toNat - 'a'.toNat + 10
  else c.toNat - 'A'.toNat + 10

/-- `IPv4Address._parse_octet`: 1-3 decimal digits, no leading zero unless
the octet is exactly "0", value at most 255. -/
def parseOctet (p : List Char) : Option Nat :=
  if p.isEmpty then none
  else if ¬ p.all pyIsDigit then none
  else if p.length > 3 then none
  else if p.length > 1 ∧ p.headD '0' = '0' then none
  else
    let v := p.foldl (fun acc c => acc * 10 + (c.toNat - '0'.toNat)) 0
    if v ≤ 255 then some v else none

/-- `IPv4Address._ip_int_from_string`: exactly four dot-separated octets
(also rejects `/`, which is not a digit). -/
def pyIPv4Val (l : List Char) : Option Nat :=
  if l.isEmpty then none
  else
    match pySplit '.' l with
    | [a, b, c, d] =>
      match parseOctet a, parseOctet b, parseOctet c, parseOctet d with
      | some va, some vb, some vc, some vd =>
        some (((va * 256 + vb) * 256 + vc) * 256 + vd)
      | _, _, _, _ => none
    | _ => none

/-- `IPv6Address._parse_hextet`: only hex digits, at most four of them,
non-empty (`int('', 16)` raises). -/
def parseHextet (p : List Char) : Option Nat :=
  if p.isEmpty then none
  else if ¬ p.all pyIsHexDigit then none
  else if p.length > 4 then none
  else some (p.foldl (fun acc c => acc * 16 + hexDigitVal c) 0)

/-- `'%x' % n`: lowercase hex rendering used when an embedded IPv4 address
is rewritten into two hextets. -/
def hexChars (n : Nat) : List Char := Nat.toDigits 16 n

/-- Fold a run of hextets into the accumulated 128-bit value. -/
def foldHextets (ps : List (List Char)) (acc : Nat) : Option Nat :=
  ps.foldl (fun a p => match a, parseHextet p with
    | some v, some h => some (v * 65536 + h)
    | _, _ => none) (some acc)

/-- `IPv6Address._ip_int_from_string` after scope-id splitting: the parts
come from splitting on `:`; an embedded IPv4 address may replace the last
part; at most one empty inner part (the `::`), with boundary empties only
adjacent to it; without `::` exactly eight parts are required. -/
def ipv6Core (addr : List Char) : Option Nat :=
  if addr.isEmpty then none
  else
    let parts := pySplit ':' addr
    if parts.length < 3 then none
    else
      let lastPart := parts.getLastD []
      let parts2 :=
        if lastPart.contains '.' then
          match pyIPv4Val lastPart with
          | none => none
          | some v => some (parts.dropLast ++ [hexChars (v / 65536), hexChars (v % 65536)])
        else some parts
      match parts2 with
      | none => none
      | some parts2 =>
        if parts2.length > 9 then none
        else
          let inner := (parts2.drop 1).dropLast
          let emptyCount := inner.countP (fun p => p.isEmpty)
          if emptyCount > 1 then none
          else if emptyCount = 1 then
            match inner.findIdx? (fun p => p.isEmpty) with
            | none => none
            | some i =>
              let skipIndex := i + 1
              let partsHi := skipIndex
              let partsLo := parts2.length - skipIndex - 1
              let partsHi := if (parts2.headD []).isEmpty then partsHi - 1 else partsHi
              if (parts2.headD []).isEmpty ∧ partsHi ≠ 0 then none
              else
                let partsLo := if (parts2.getLastD []).isEmpty then partsLo - 1 else partsLo
                if (parts2.getLastD []).isEmpty ∧ partsLo ≠ 0 then none
                else if partsHi + partsLo + 1 > 8 then none
                else
                  match foldHextets (parts2.take partsHi) 0 with
                  | none => none
                  | some hi =>
                    match foldHextets (parts2.drop (parts2.length - partsLo)) 0 with
                    | none => none
                    | some lo =>
                      some (hi * 2 ^ (16 * (8 - partsHi)) + lo)
          else
            if parts2.length ≠ 8 then none
            else if (parts2.headD []).isEmpty then none
            else if (parts2.getLastD []).isEmpty then none
            else foldHextets parts2 0

/-- `IPv6Address.__init__` on a string: reject `/`, split an optional
`%scope` (non-empty, no further `%`), then parse the address part. -/
def pyIPv6Val (l : List Char) : Option Nat :=
  if l.contains '/' then none
  else if l.contains '%' then
    let addr := l.takeWhile (fun c => c ≠ '%')
    let scope := (l.dropWhile (fun c => c ≠ '%')).drop 1
    if scope.isEmpty ∨ scope.contains '%' then none
    else ipv6Core addr
  else ipv6Core l

/-- `is_ip_address` (netbox_init.py:46-51): `ipaddress.ip_address` tries
IPv4 and then IPv6. -/
def is_ip_address (x : String) : Bool :=
  (pyIPv4Val x.data).isSome || (pyIPv6Val x.data).isSome

/-- `is_ip_v4_address` (netbox_init.py:54-59). -/
def is_ip_v4_address (x : String) : Bool := (pyIPv4Val x.data).isSome

/-- `is_ip_v6_address` (netbox_init.py:62-67). -/
def is_ip_v6_address (x : String) : Bool := (pyIPv6Val x.data).isSome

/-- `IPv4Network`: address part, optional prefix written either as a
decimal length of at most 32, or as a dotted netmask/hostmask; `strict`
requires the host bits to be zero. -/
def pyIPv4NetworkValid (l : List Char) : Bool :=
  let parts := pySplit '/' l
  match parts with
  | [a] =>
    (pyIPv4Val a).isSome
  | [a, p] =>
    match pyIPv4Val a with
    | none => false
    | some v =>
      let plen : Option Nat :=
        if ¬ p.isEmpty ∧ p.all pyIsDigit then
          let n := p.foldl (fun acc c => acc * 10 + (c.toNat - '0'.toNat)) 0
          if n ≤ 32 then some n else none
        else
          match pyIPv4Val p with
          | none => none
          | some m =>
            (List.range 33).findSome? (fun k =>
              if m = (2 ^ 32 - 2 ^ (32 - k)) ∨ m = 2 ^ (32 - k) - 1 then some k else none)
      match plen with
      | none => false
      | some k => v % 2 ^ (32 - k) = 0
  | _ => false

/-- `IPv6Network`: address part and an optional decimal prefix length of at
most 128; `strict` requires the host bits to be zero. -/
def pyIPv6NetworkValid (l : List Char) : Bool :=
  let parts := pySplit '/' l
  match parts with
  | [a] => (pyIPv6Val a).isSome
  | [a, p] =>
    match pyIPv6Val a with
    | none => false
    | some v =>
      if ¬ p.isEmpty ∧ p.all pyIsDigit then
        let n := p.foldl (fun acc c => acc * 10 + (c.toNat - '0'.toNat)) 0
        if n ≤ 128 then decide (v % 2 ^ (128 - n) = 0) else false
      else false
  | _ => false

/-- `is_ip_network` (netbox_init.py:70-75): `ipaddress.ip_network` with
`strict=True`, trying IPv4 and then IPv6. -/
def is_ip_network (x : String) : Bool :=
  pyIPv4NetworkValid x.data || pyIPv6NetworkValid x.data

/-! ### netbox_init.py: the MAC pattern of line 770 -/

/-- A lowercase hex digit, i.e. the `[0-9a-f]` class of the pattern. -/
def isHexLower (c : Char) : Bool := pyIsDigit c ∨ ('a' ≤ c ∧ c ≤ 'f')

/-- `n+1` repetitions of `[0-9a-f]{2}[:-]` followed by a final
`[0-9a-f]{2}`. -/
def macCoreAux : Nat → List Char → Bool
  | 0, [a, b] => isHexLower a ∧ isHexLower b
  | n + 1, a :: b :: s :: rest =>
    isHexLower a ∧ isHexLower b ∧ (s = ':' ∨ s = '-') ∧ macCoreAux n rest
  | _, _ => false

/-- The body of `^([0-9a-f]{2}[:-]){5}([0-9a-f]{2})$`. -/
def macCore (l : List Char) : Bool := macCoreAux 5 l

/-- `re.match(r'^([0-9a-f]{2}[:-]){5}([0-9a-f]{2})$', s)`: in Python `$`
also matches just before one trailing newline. -/
def matchesMacPattern (l : List Char) : Bool :=
  if l.getLastD ' ' = '\n' then macCore l.dropLast else macCore l

/-- The shape, before lowercasing, of a string whose lowercased form
matches the repeated `[0-9a-f]{2}[:-]` groups: hex digits of either case
with exact `:` or `-` separators. -/
def macShapeAux : Nat → List Char → Bool
  | 0, [a, b] => pyIsHexDigit a ∧ pyIsHexDigit b
  | n + 1, a :: b :: s :: rest =>
    pyIsHexDigit a ∧ pyIsHexDigit b ∧ (s = ':' ∨ s = '-') ∧ macShapeAux n rest
  | _, _ => false

/-! ### Python dicts as association lists

Dict comprehensions such as `{x.name: x for x in collection}` insert in
iteration order; a repeated key keeps its original position and takes the
latest value. -/

/-- Python dict insertion. -/
def pyDictInsert [DecidableEq α] (d : List (α × β)) (k : α) (v : β) :
    List (α × β) :=
  if d.any (fun p => p.1 = k) then
    d.map (fun p => if p.1 = k then (k, v) else p)
  else d ++ [(k, v)]

/-- `{key(x): x for x in l}`. -/
def pyDictOf [DecidableEq α] (key : β → α) (l : List β) : List (α × β) :=
  l.foldl (fun d r => pyDictInsert d (key r) r) []

/-- `k in d`. -/
def hasKey [DecidableEq α] (d : List (α × β)) (k : α) : Bool :=
  d.any (fun p => p.1 = k)

/-- `d[k]`, as an option (a `None` result models the `KeyError`). -/
def pyGet [DecidableEq α] (d : List (α × β)) (k : α) : Option β :=
  (d.find? (fun p => p.1 = k)).map (fun p => p.2)

/-! ### The store (the remote NetBox instance behind `pynetbox`)

Records carry the store-assigned identifier and the fields the script
reads back.  Per the specification's Store-client contract, `create`
raises a request-rejected error when the record's identity key (§3 of the
spec) is already taken; the script catches it, logs, and continues, so a
rejected creation is modelled as returning the store unchanged.  A created
IP address is read back with its full-length prefix appended
(`address/32` or `address/128`), which is the normalization the script's
own `hostKey` of line 802 relies on. -/

structure GroupRec where
  id : Nat
  name : String
deriving DecidableEq

structure PermRec where
  id : Nat
  name : String
  enabled : Bool
  groups : List Nat
  actions : List String
  objectTypes : List String
deriving DecidableEq

structure ManufacturerRec where
  id : Nat
  name : String
  slug : String
deriving DecidableEq

structure RoleRec where
  id : Nat
  name : String
  slug : String
  vmRole : Bool
  color : Nat
deriving DecidableEq

structure DeviceTypeRec where
  id : Nat
  model : String
  slug : String
  manufacturer : Option Nat
deriving DecidableEq

structure SiteRec where
  id : Nat
  name : String
  slug : String
deriving DecidableEq

/-- `cidr` holds the record's prefix string (the CIDR identity key). -/
structure PrefixRec where
  id : Nat
  cidr : String
  site : Option Nat
  description : String
  vrf : Option String
deriving DecidableEq

structure DeviceRec where
  id : Nat
  name : String
  site : Option Nat
  deviceType : Option Nat
  role : Option Nat
  primaryIp4 : Option Nat
  primaryIp : Option Nat
deriving DecidableEq

/-- `ifType` holds the interface's `type` field. -/
structure InterfaceRec where
  id : Nat
  device : Nat
  name : String
  ifType : String
  macAddress : Option String
deriving DecidableEq

structure IPRec where
  id : Nat
  address : String
  assignedObjectId : Nat
deriving DecidableEq

structure Store where
  groups : List GroupRec
  permissions : List PermRec
  manufacturers : List ManufacturerRec
  roles : List RoleRec
  deviceTypes : List DeviceTypeRec
  sites : List SiteRec
  prefixes : List PrefixRec
  devices : List DeviceRec
  interfaces : List InterfaceRec
  ipAddresses : List IPRec
  /-- The read-only `extras.content_types` collection. -/
  contentTypes : List String
  /-- Next store-assigned identifier. -/
  nextId : Nat
deriving DecidableEq

/-- The configuration drawn from the command line / environment.
`colorOf` stands in for the per-creation pseudo-random role color (spec:
"color chosen pseudo-randomly per creation"); it is applied to the
identifier counter at creation time. -/
structure Config where
  staffGroupName : String
  defaultGroupName : String
  manufacturers : List String
  roles : List String
  deviceTypes : List String
  netboxSites : List String
  colorOf : Nat → Nat

/-- `slugify`: stand-in for the external slug library (ASCII lowercase,
non-alphanumeric runs become single dashes); no claim depends on the
exact slug text. -/
def slugify (s : String) : String :=
  let mapped := s.data.map (fun c =>
    if pyIsDigit c ∨ ('a' ≤ c ∧ c ≤ 'z') then c
    else if 'A' ≤ c ∧ c ≤ 'Z' then pyLowerChar c
    else '-')
  String.mk mapped

/-! ### Identity-key membership per collection -/

def hasGroup (st : Store) (n : String) : Bool := st.groups.any (fun r => r.name = n)
def hasPerm (st : Store) (n : String) : Bool := st.permissions.any (fun r => r.name = n)
def hasManufacturer (st : Store) (n : String) : Bool := st.manufacturers.any (fun r => r.name = n)
def hasRole (st : Store) (n : String) : Bool := st.roles.any (fun r => r.name = n)
def hasDeviceType (st : Store) (m : String) : Bool := st.deviceTypes.any (fun r => r.model = m)
def hasSite (st : Store) (n : String) : Bool := st.sites.any (fun r => r.name = n)
def hasPrefixKey (st : Store) (p : String) : Bool := st.prefixes.any (fun r => r.cidr = p)
def hasDevice (st : Store) (n : String) : Bool := st.devices.any (fun r => r.name = n)
def hasIPKey (st : Store) (a : String) : Bool := st.ipAddresses.any (fun r => r.address = a)

/-! ### Creation operations (store side) -/

def createGroup (st : Store) (n : String) : Store :=
  if hasGroup st n then st
  else { st with groups := st.groups ++ [⟨st.nextId, n⟩], nextId := st.nextId + 1 }

def createPermission (st : Store) (n : String) (enabled : Bool)
    (gids : List Nat) (actions : List String) (objectTypes : List String) : Store :=
  if hasPerm st n then st
  else { st with
    permissions := st.permissions ++ [⟨st.nextId, n, enabled, gids, actions, objectTypes⟩],
    nextId := st.nextId + 1 }

def createManufacturer (st : Store) (n : String) : Store :=
  if hasManufacturer st n then st
  else { st with
    manufacturers := st.manufacturers ++ [⟨st.nextId, n, slugify n⟩],
    nextId := st.nextId + 1 }

def createRole (st : Store) (cfg : Config) (n : String) : Store :=
  if hasRole st n then st
  else { st with
    roles := st.roles ++ [⟨st.nextId, n, slugify n, true, cfg.colorOf st.nextId⟩],
    nextId := st.nextId + 1 }

def createDeviceType (st : Store) (m : String) (manuf : Option Nat) : Store :=
  if hasDeviceType st m then st
  else { st with
    deviceTypes := st.deviceTypes ++ [⟨st.nextId, m, slugify m, manuf⟩],
    nextId := st.nextId + 1 }

def createSite (st : Store) (n : String) : Store :=
  if hasSite st n then st
  else { st with
    sites := st.sites ++ [⟨st.nextId, n, slugify n⟩],
    nextId := st.nextId + 1 }

def createPrefixRec (st : Store) (cidr : String) (site : Option Nat)
    (desc : String) : Store :=
  if hasPrefixKey st cidr then st
  else { st with
    prefixes := st.prefixes ++ [⟨st.nextId, cidr, site, desc, none⟩],
    nextId := st.nextId + 1 }

/-- `nb.dcim.devices.create`: returns the created record, or `none` on a
request-rejected error (duplicate name). -/
def createDevice (st : Store) (n : String) (site dtype role : Option Nat) :
    Option (Store × DeviceRec) :=
  if hasDevice st n then none
  else
    let d : DeviceRec := ⟨st.nextId, n, site, dtype, role, none, none⟩
    some ({ st with devices := st.devices ++ [d], nextId := st.nextId + 1 }, d)

def createInterface (st : Store) (dev : Nat) (mac : Option String) : Store :=
  if st.interfaces.any (fun r => r.device = dev) then st
  else { st with
    interfaces := st.interfaces ++ [⟨st.nextId, dev, "default", "other", mac⟩],
    nextId := st.nextId + 1 }

/-- The store reads the created address back with its full-length prefix. -/
def normalizeIPKey (a : String) : String :=
  a ++ (if is_ip_v4_address a then "/32" else "/128")

/-- `nb.ipam.ip_addresses.create`: `none` on a request-rejected error
(duplicate address). -/
def createIPAddress (st : Store) (a : String) (ifaceId : Nat) :
    Option (Store × Nat) :=
  let key := normalizeIPKey a
  if hasIPKey st key then none
  else
    some ({ st with
      ipAddresses := st.ipAddresses ++ [⟨st.nextId, key, ifaceId⟩],
      nextId := st.nextId + 1 }, st.nextId)

/-- `deviceForIp.primary_ip4 = ip; deviceForIp.save()` (or `primary_ip`
for v6). -/
def setDevicePrimary (st : Store) (devId ipId : Nat) (v4 : Bool) : Store :=
  { st with devices := st.devices.map (fun d =>
      if d.id = devId then
        (if v4 then { d with primaryIp4 := some ipId }
         else { d with primaryIp := some ipId })
      else d) }

/-! ### The network-map input (net-map.json)

Each record of the JSON list is recognized only when it is a mapping with
`type`, `name` and (for admission) `address` fields; other values are
ignored.  String field values are modelled; absent fields are `none`, and
Python's truthiness test on a string is `≠ ""`. -/

inductive NetMapItem where
  | obj (typ : Option String) (name : Option String) (address : Option String)
  | nonDict
deriving DecidableEq

structure Segment where
  name : String
  address : String
deriving DecidableEq

structure HostEntry where
  name : String
  address : String
deriving DecidableEq

/-- The `hostKey` computed at netbox_init.py:802; it coincides with the
store's normalized form, which is exactly what the pre-existence test of
line 803 relies on. -/
def hostKeyOf (h : HostEntry) : String :=
  h.address ++ (if is_ip_v4_address h.address then "/32" else "/128")

/-- The segment comprehension of netbox_init.py:710-717: a dict with
`type == "segment"`, a truthy `name`, and an `is_ip_network` address.
Note: unlike every other stage, this list is *not* filtered against
`prefixesPreExisting`. -/
def admittedSegments (nm : List NetMapItem) : List Segment :=
  nm.filterMap (fun it =>
    match it with
    | .obj (some t) (some n) (some a) =>
      if t = "segment" ∧ n ≠ "" ∧ is_ip_network a then some ⟨n, a⟩ else none
    | _ => none)

/-- The host comprehension of netbox_init.py:739-747 before the
`devicesPreExisting` membership test: a dict with `type == "host"` and
truthy `name` and `address`. -/
def admittedHosts (nm : List NetMapItem) : List HostEntry :=
  nm.filterMap (fun it =>
    match it with
    | .obj (some t) (some n) (some a) =>
      if t = "host" ∧ n ≠ "" ∧ a ≠ "" then some ⟨n, a⟩ else none
    | _ => none)

/-- The host comprehension of netbox_init.py:792-800 before the
`x['name'] in devices` membership test: a dict with `type == "host"`, a
truthy `name`, and an address that parses as an IP. -/
def ipAdmittedHosts (nm : List NetMapItem) : List HostEntry :=
  nm.filterMap (fun it =>
    match it with
    | .obj (some t) (some n) (some a) =>
      if t = "host" ∧ n ≠ "" ∧ is_ip_address a then some ⟨n, a⟩ else none
    | _ => none)

/-! ### Stages (netbox_init.py:488-841)

Each stage fetches its collection, indexes it by identity key, creates the
missing entries (request-rejected errors are logged and skipped), and the
refetched index is threaded to later stages exactly as the script's
module-level dict variables are.  A `KeyError` escapes the per-item
handler (which only catches `pynetbox.RequestError`) and aborts the
enclosing stage, keeping all effects so far. -/

/-- GROUPS (lines 517-537). -/
def groupsStage (cfg : Config) (st : Store) : Store :=
  let pre := pyDictOf GroupRec.name st.groups
  let missing := [cfg.staffGroupName, cfg.defaultGroupName].filter
    (fun n => ¬ hasKey pre n)
  missing.foldl createGroup st

/-- A `DEFAULT_PERMISSIONS` entry before the in-place rewrites of
lines 590-594. -/
structure PermCfg where
  name : String
  enabled : Bool
  groups : List String
  actions : List String
  excludeObjects : List String
deriving DecidableEq

def staffPermCfg (cfg : Config) : PermCfg :=
  ⟨cfg.staffGroupName ++ "_permission", true, [cfg.staffGroupName],
    ["view", "add", "change", "delete"], []⟩

def defaultPermCfg (cfg : Config) : PermCfg :=
  ⟨cfg.defaultGroupName ++ "_permission", true, [cfg.defaultGroupName],
    ["view", "add", "change", "delete"],
    ["admin.logentry", "auth.group", "auth.permission", "auth.user",
     "users.admingroup", "users.adminuser", "users.objectpermission",
     "users.token", "users.userconfig"]⟩

/-- `DEFAULT_PERMISSIONS` (lines 540-575): a dict literal keyed by the two
permission names (if the group names coincide the second entry wins). -/
def defaultPermissionsDict (cfg : Config) : List (String × PermCfg) :=
  pyDictInsert (pyDictInsert [] (staffPermCfg cfg).name (staffPermCfg cfg))
    (defaultPermCfg cfg).name (defaultPermCfg cfg)

/-- The creation loop of lines 585-598; `groups[x]` raising `KeyError`
aborts the whole permissions stage. -/
def permLoop (groupsD : List (String × GroupRec)) (cts : List String) :
    List PermCfg → Store → Store
  | [], st => st
  | pc :: rest, st =>
    match pc.groups.mapM (fun g => (pyGet groupsD g).map GroupRec.id) with
    | none => st
    | some gids =>
      let objTypes := cts.filter (fun ct => ¬ pc.excludeObjects.contains ct)
      permLoop groupsD cts rest
        (createPermission st pc.name pc.enabled gids pc.actions objTypes)

/-- PERMISSIONS (lines 539-603). -/
def permissionsStage (cfg : Config) (groupsD : List (String × GroupRec))
    (st : Store) : Store :=
  let pre := pyDictOf PermRec.name st.permissions
  let missing := (defaultPermissionsDict cfg).filter
    (fun p => p.2.name ≠ "" ∧ ¬ hasKey pre p.2.name)
  permLoop groupsD st.contentTypes (missing.map (fun p => p.2)) st

/-- The manufacturer names missing from the pre-fetched index
(line 611). -/
def missingManufacturers (cfg : Config) (st : Store) : List String :=
  cfg.manufacturers.filter
    (fun n => ¬ hasKey (pyDictOf ManufacturerRec.name st.manufacturers) n)

/-- MANUFACTURERS (lines 605-625), with an explicit request-rejection
oracle standing for per-item store failures: a rejected creation is
logged and skipped, the loop continues. -/
def manufacturersStageF (reject : String → Bool) (cfg : Config)
    (st : Store) : Store :=
  (missingManufacturers cfg st).foldl
    (fun s n => if reject n then s else createManufacturer s n) st

def manufacturersStage (cfg : Config) (st : Store) : Store :=
  manufacturersStageF (fun _ => false) cfg st

/-- ROLES (lines 627-649). -/
def rolesStage (cfg : Config) (st : Store) : Store :=
  let pre := pyDictOf RoleRec.name st.roles
  let missing := cfg.roles.filter (fun n => ¬ hasKey pre n)
  missing.foldl (fun s n => createRole s cfg n) st

/-- DEVICE TYPES (lines 651-673); the manufacturer filler is the
lowest-identifier entry of the manufacturers index fetched at line 622. -/
def deviceTypesStage (cfg : Config)
    (manufacturersD : List (String × ManufacturerRec)) (st : Store) : Store :=
  let pre := pyDictOf DeviceTypeRec.model st.deviceTypes
  let missing := cfg.deviceTypes.filter (fun m => ¬ hasKey pre m)
  missing.foldl (fun s m =>
    let manuf := min_hash_value_by_sort ManufacturerRec.id manufacturersD
    createDeviceType s m (manuf.map ManufacturerRec.id)) st

/-- SITES (lines 675-695). -/
def sitesStage (cfg : Config) (st : Store) : Store :=
  let pre := pyDictOf SiteRec.name st.sites
  let missing := cfg.netboxSites.filter (fun n => ¬ hasKey pre n)
  missing.foldl createSite st

/-- The prefix-creation loop (lines 710-731): every admitted segment is
attempted, with a filler site and the segment name as description. -/
def prefixLoop (sitesD : List (String × SiteRec)) (segs : List Segment)
    (st : Store) : Store :=
  segs.foldl (fun s seg =>
    let site := min_hash_value_by_sort SiteRec.id sitesD
    createPrefixRec s seg.address (site.map SiteRec.id) seg.name) st

/-- The body of the device-creation loop (lines 748-781): create the
device with filler site/type/role; if creation succeeded, create one
interface — address-type-agnostic when the address parses as an IP,
MAC-carrying when the lowercased address matches the MAC pattern, and no
interface otherwise.  `reject` is the request-rejection oracle for the
device creation. -/
def deviceStep (reject : String → Bool) (sitesD : List (String × SiteRec))
    (dtypesD : List (String × DeviceTypeRec)) (rolesD : List (String × RoleRec))
    (st : Store) (h : HostEntry) : Store :=
  if reject h.name then st
  else
    let site := min_hash_value_by_sort SiteRec.id sitesD
    let dtype := min_hash_value_by_sort DeviceTypeRec.id dtypesD
    let role := min_hash_value_by_sort RoleRec.id rolesD
    match createDevice st h.name (site.map SiteRec.id)
        (dtype.map DeviceTypeRec.id) (role.map RoleRec.id) with
    | none => st
    | some (st1, dev) =>
      if is_ip_address h.address then
        createInterface st1 dev.id none
      else if matchesMacPattern (pyLower h.address.data) then
        createInterface st1 dev.id (some (String.mk (pyLower h.address.data)))
      else st1

/-- The device-creation loop over the hosts missing from
`devicesPreExisting`. -/
def deviceLoopF (reject : String → Bool) (sitesD : List (String × SiteRec))
    (dtypesD : List (String × DeviceTypeRec)) (rolesD : List (String × RoleRec))
    (hosts : List HostEntry) (st : Store) : Store :=
  hosts.foldl (deviceStep reject sitesD dtypesD rolesD) st

/-- The IP-address association loop (lines 788-825).  For each admitted
host whose key is not in the pre-fetched address index, the assigned
interface is looked up in the interfaces index keyed by device id — a
missing entry is the `KeyError` of line 808, which escapes the per-item
handler and aborts the rest of the loop (effects so far are kept).  A
successful creation is followed by promoting the address to the device's
primary (v4 or v6) field. -/
def ipLoop (devD : List (String × DeviceRec)) (ifD : List (Nat × InterfaceRec))
    (ipPre : List (String × IPRec)) : List HostEntry → Store → Store
  | [], st => st
  | h :: rest, st =>
    if hasKey ipPre (hostKeyOf h) then ipLoop devD ifD ipPre rest st
    else
      match pyGet devD h.name with
      | none => st
      | some dev =>
        match pyGet ifD dev.id with
        | none => st
        | some iface =>
          match createIPAddress st h.address iface.id with
          | none => ipLoop devD ifD ipPre rest st
          | some (st1, ipId) =>
            match st1.devices.find? (fun d => d.id = dev.id) with
            | none => ipLoop devD ifD ipPre rest st1
            | some _ =>
              let st2 :=
                if is_ip_v4_address h.address then
                  setDevicePrimary st1 dev.id ipId true
                else if is_ip_v6_address h.address then
                  setDevicePrimary st1 dev.id ipId false
                else st1
              ipLoop devD ifD ipPre rest st2

/-- The Net Map stage (lines 697-825): prefixes, then devices with their
interfaces, then IP addresses; `sites`, `deviceTypes` and `roles` are the
indexes fetched at the end of the corresponding earlier stages. -/
def netMapStage (sitesD : List (String × SiteRec))
    (dtypesD : List (String × DeviceTypeRec)) (rolesD : List (String × RoleRec))
    (nm : List NetMapItem) (st : Store) : Store :=
  let st1 := prefixLoop sitesD (admittedSegments nm) st
  let devicesPre := pyDictOf DeviceRec.name st1.devices
  let hostsToCreate := (admittedHosts nm).filter (fun h => ¬ hasKey devicesPre h.name)
  let st2 := deviceLoopF (fun _ => false) sitesD dtypesD rolesD hostsToCreate st1
  let devicesD := pyDictOf DeviceRec.name st2.devices
  let interfacesD := pyDictOf InterfaceRec.device st2.interfaces
  let ipPre := pyDictOf IPRec.address st2.ipAddresses
  let ipHosts := (ipAdmittedHosts nm).filter (fun h => hasKey devicesD h.name)
  ipLoop devicesD interfacesD ipPre ipHosts st2

/-- The prefix-description migration stage (lines 830-841): every prefix
with an empty description and a legacy VRF reference gets the VRF's name
as its description. -/
def vrfMigrationStage (st : Store) : Store :=
  { st with prefixes := st.prefixes.map (fun p =>
      if p.description = "" ∧ p.vrf.isSome then
        { p with description := p.vrf.getD "" }
      else p) }

/-- The API-population path of `main` (netbox_init.py:488-841): the stages
in dependency order, with each collection re-fetched at the end of its
stage for use by later ones.  `nm = none` models an absent or unreadable
net-map file (that stage is skipped). -/
def reconcile (cfg : Config) (nm : Option (List NetMapItem)) (st0 : Store) : Store :=
  let st1 := groupsStage cfg st0
  let groupsD := pyDictOf GroupRec.name st1.groups
  let st2 := permissionsStage cfg groupsD st1
  let st3 := manufacturersStage cfg st2
  let manufacturersD := pyDictOf ManufacturerRec.name st3.manufacturers
  let st4 := rolesStage cfg st3
  let rolesD := pyDictOf RoleRec.name st4.roles
  let st5 := deviceTypesStage cfg manufacturersD st4
  let dtypesD := pyDictOf DeviceTypeRec.model st5.deviceTypes
  let st6 := sitesStage cfg st5
  let sitesD := pyDictOf SiteRec.name st6.sites
  let st7 :=
    match nm with
    | none => st6
    | some items => netMapStage sitesD dtypesD rolesD items st6
  vrfMigrationStage st7

/-! ### Entity-key sets and counts, for the idempotence property -/

/-- The identity-key lists of every collection. -/
def keySets (st : Store) :
    List String × List String × List String × List String × List String ×
    List String × List String × List String × List Nat × List String :=
  (st.groups.map GroupRec.name, st.permissions.map PermRec.name,
   st.manufacturers.map ManufacturerRec.name, st.roles.map RoleRec.name,
   st.deviceTypes.map DeviceTypeRec.model, st.sites.map SiteRec.name,
   st.prefixes.map PrefixRec.cidr, st.devices.map DeviceRec.name,
   st.interfaces.map InterfaceRec.device, st.ipAddresses.map IPRec.address)

/-- The number of entities of each kind. -/
def entityCounts (st : Store) :
    Nat × Nat × Nat × Nat × Nat × Nat × Nat × Nat × Nat × Nat :=
  (st.groups.length, st.permissions.length, st.manufacturers.length,
   st.roles.length, st.deviceTypes.length, st.sites.length,
   st.prefixes.length, st.devices.length, st.interfaces.length,
   st.ipAddresses.length)

/-- The address strings of the net map's IP-valid host records (used by
the amended idempotence statement). -/
def ipHostAddresses (nm : Option (List NetMapItem)) : List String :=
  (ipAdmittedHosts (nm.getD [])).map HostEntry.address

/-- No two entries of the list are equal (the hypothesis of the amended
idempotence statement: the net map carries pairwise-distinct IP-host
addresses). -/
def allDistinctStr : List String → Bool
  | [] => true
  | a :: r => r.all (fun b => a ≠ b) && allDistinctStr r

/-!
## Lemmas: the templating tool
-/

theorem pySplitGo_cons_other (c : Char) (rest acc : List Char)
    (h1 : ¬ c = '\n') (h2 : ¬ c = '\r') :
    pySplitGo (c :: rest) acc = pySplitGo rest (c :: acc) := by
  conv_lhs => rw [pySplitGo.eq_def]
  split <;> simp_all [List.cons.injEq]

theorem pySplitGo_cons_cr (rest acc : List Char)
    (hne : ∀ r2, rest ≠ '\n' :: r2) :
    pySplitGo ('\r' :: rest) acc = acc.reverse :: pySplitGo rest [] := by
  conv_lhs => rw [pySplitGo.eq_def]
  split <;> simp_all [List.cons.injEq, eq_comm]

theorem pySplitGo_nosep (l : List Char)
    (hl : ∀ c ∈ l, ¬ (c = '\n' ∨ c = '\r')) :
    ∀ rest acc, pySplitGo (l ++ '\n' :: rest) acc
      = (acc.reverse ++ l) :: pySplitGo rest [] := by
  induction l with
  | nil => intro rest acc; simp [pySplitGo]
  | cons c l ih =>
    intro rest acc
    have hc := hl c (by simp)
    rw [List.cons_append, pySplitGo_cons_other c _ acc
      (fun h => hc (Or.inl h)) (fun h => hc (Or.inr h))]
    rw [ih (fun d hd => hl d (by simp [hd])) rest (c :: acc)]
    simp

theorem joinNL_cons_cons (l l2 : List Char) (ls : List (List Char)) :
    joinNL (l :: l2 :: ls) = l ++ '\n' :: joinNL (l2 :: ls) := rfl

/-- Re-splitting the written output recovers the filtered lines, as long as
none of them contains a line boundary. -/
theorem splitLines_join (ls : List (List Char))
    (h : ∀ l ∈ ls, ∀ c ∈ l, ¬ (c = '\n' ∨ c = '\r')) (hne : ls ≠ []) :
    pySplitLinesList (joinNL ls ++ ['\n']) = ls := by
  induction ls with
  | nil => exact absurd rfl hne
  | cons l ls ih =>
    cases ls with
    | nil =>
      show pySplitGo (l ++ '\n' :: []) [] = [l]
      rw [pySplitGo_nosep l (h l (by simp)) [] []]
      rfl
    | cons l2 ls2 =>
      have hstep : joinNL (l :: l2 :: ls2) ++ ['\n']
          = l ++ '\n' :: (joinNL (l2 :: ls2) ++ ['\n']) := by
        rw [joinNL_cons_cons]; simp
      show pySplitLinesList (joinNL (l :: l2 :: ls2) ++ ['\n']) = _
      rw [pySplitLinesList, hstep, pySplitGo_nosep l (h l (by simp)) _ []]
      have hih := ih (fun m hm => h m (by simp [hm])) (by simp)
      rw [pySplitLinesList] at hih
      rw [hih]
      simp

theorem pySplitGo_mem_nosep :
    ∀ (cs acc : List Char), (∀ c ∈ acc, ¬ (c = '\n' ∨ c = '\r')) →
      ∀ l ∈ pySplitGo cs acc, ∀ c ∈ l, ¬ (c = '\n' ∨ c = '\r') := by
  intro cs acc
  induction cs, acc using pySplitGo.induct with
  | case1 acc hacc0 =>
    intro hacc l hl c hc
    simp [pySplitGo, hacc0] at hl
  | case2 acc hacc0 =>
    intro hacc l hl c hc
    rw [show pySplitGo [] acc = if acc.isEmpty then [] else [acc.reverse] from rfl] at hl
    simp [hacc0] at hl
    subst hl
    exact fun hor => hacc c (by simpa using hc) hor
  | case3 rest acc ih =>
    intro hacc l hl c hc
    rw [show pySplitGo ('\r' :: '\n' :: rest) acc
      = acc.reverse :: pySplitGo rest [] from rfl] at hl
    rcases List.mem_cons.mp hl with hl | hl
    · subst hl; exact fun hor => hacc c (by simpa using hc) hor
    · exact ih (by simp) l hl c hc
  | case4 rest acc hne ih =>
    intro hacc l hl c hc
    rw [pySplitGo_cons_cr rest acc (fun r2 he => hne r2 he)] at hl
    rcases List.mem_cons.mp hl with hl | hl
    · subst hl; exact fun hor => hacc c (by simpa using hc) hor
    · exact ih (by simp) l hl c hc
  | case5 rest acc ih =>
    intro hacc l hl c hc
    rw [show pySplitGo ('\n' :: rest) acc
      = acc.reverse :: pySplitGo rest [] from rfl] at hl
    rcases List.mem_cons.mp hl with hl | hl
    · subst hl; exact fun hor => hacc c (by simpa using hc) hor
    · exact ih (by simp) l hl c hc
  | case6 d rest acc h1 h2 h3 ih =>
    intro hacc l hl c hc
    rw [pySplitGo_cons_other d rest acc (fun he => h3 he) (fun he => h2 he)] at hl
    refine ih ?_ l hl c hc
    intro e he
    rcases List.mem_cons.mp he with he | he
    · subst he
      intro hor
      rcases hor with hor | hor
      · exact h3 hor
      · exact h2 hor
    · exact hacc e he

theorem mem_splitLines_nosep (text : List Char) :
    ∀ l ∈ pySplitLinesList text, ∀ c ∈ l, ¬ (c = '\n' ∨ c = '\r') :=
  pySplitGo_mem_nosep text [] (by simp)

theorem alignReplaceLines_append (pat : List Char) (repl : List (List Char))
    (pre post : List (List Char)) (l : List Char)
    (hpre : ∀ p ∈ pre, matchesPlaceholder pat p = false)
    (hl : matchesPlaceholder pat l = true) :
    alignReplaceLines pat repl (pre ++ l :: post)
      = pre ++ (repl.map (fun r => lineIndent l ++ r)) ++ post := by
  induction pre with
  | nil => simp [alignReplaceLines, hl]
  | cons p pre ih =>
    have hp := hpre p (by simp)
    simp only [List.cons_append, alignReplaceLines, hp]
    simp only [Bool.false_eq_true, if_false]
    rw [show pre.append (l :: post) = pre ++ l :: post from rfl]
    rw [ih (fun q hq => hpre q (by simp [hq]))]

theorem alignReplaceLines_no_match (pat : List Char) (repl : List (List Char))
    (ls : List (List Char))
    (h : ∀ l ∈ ls, matchesPlaceholder pat l = false) :
    alignReplaceLines pat repl ls = ls := by
  induction ls with
  | nil => rfl
  | cons l ls ih =>
    have hl := h l (by simp)
    simp only [alignReplaceLines, hl, Bool.false_eq_true, if_false]
    rw [ih (fun q hq => h q (by simp [hq]))]

theorem matchesPlaceholder_no_indent (pat rest : List Char)
    (hpat : pat ≠ []) (hh : pyIsSpace (pat.headD ' ') = false) :
    matchesPlaceholder pat (pat ++ rest) = false := by
  cases pat with
  | nil => exact absurd rfl hpat
  | cons c pat' =>
    simp only [List.headD_cons] at hh
    simp [matchesPlaceholder, List.takeWhile, hh]

/-!
## Lemmas: the stable sort model of Python `sorted`
-/

theorem mem_pyInsort (lt : α → α → Bool) (a : α) (l : List α) (x : α) :
    x ∈ pyInsort lt a l ↔ x = a ∨ x ∈ l := by
  induction l with
  | nil => simp [pyInsort]
  | cons b l ih =>
    by_cases h : lt b a <;> simp [pyInsort, h, ih]
    tauto

theorem mem_pySorted (lt : α → α → Bool) (l : List α) (x : α) :
    x ∈ pySorted lt l ↔ x ∈ l := by
  induction l with
  | nil => simp [pySorted]
  | cons a l ih => simp [pySorted, mem_pyInsort, ih]

theorem pySorted_head_min (f : α → Nat) :
    ∀ (l : List α) (h : α) (rest : List α),
      pySorted (fun a b => f a < f b) l = h :: rest → ∀ x ∈ l, f h ≤ f x := by
  intro l
  induction l with
  | nil => intro h rest heq; simp [pySorted] at heq
  | cons a l ih =>
    intro h rest heq x hx
    rw [show pySorted (fun a b => f a < f b) (a :: l)
      = pyInsort (fun a b => f a < f b) a (pySorted (fun a b => f a < f b) l)
      from rfl] at heq
    rcases hsl : pySorted (fun a b => f a < f b) l with _ | ⟨b, r⟩
    · rw [hsl] at heq
      simp [pyInsort] at heq
      rcases List.mem_cons.mp hx with hx | hx
      · subst hx; exact Nat.le_of_eq (by rw [heq.1])
      · exact absurd ((mem_pySorted (fun a b => f a < f b) l x).mpr hx) (by simp [hsl])
    · rw [hsl] at heq
      by_cases hba : f b < f a
      · simp [pyInsort, hba] at heq
        rcases List.mem_cons.mp hx with hx | hx
        · subst hx
          exact heq.1 ▸ Nat.le_of_lt hba
        · exact heq.1 ▸ ih b r hsl x hx
      · simp [pyInsort, hba] at heq
        rcases List.mem_cons.mp hx with hx | hx
        · subst hx; exact Nat.le_of_eq (by rw [heq.1])
        · have hab : f a ≤ f b := Nat.le_of_not_lt hba
          have hbx : f b ≤ f x := ih b r hsl x hx
          exact heq.1 ▸ Nat.le_trans hab hbx

theorem min_hash_value_by_sort_mem (val : β → Nat) (d : List (α × β)) (v : β)
    (h : min_hash_value_by_sort val d = some v) :
    (∃ p ∈ d, p.2 = v) ∧ ∀ p ∈ d, val v ≤ val p.2 := by
  unfold min_hash_value_by_sort at h
  rcases hs : pySorted (fun p q => val p.2 < val q.2) d with _ | ⟨q, r⟩
  · rw [hs] at h; simp at h
  · rw [hs] at h
    simp at h
    constructor
    · exact ⟨q, (mem_pySorted (fun p q : α × β => val p.2 < val q.2) d q).mp (by simp [hs]), h⟩
    · intro p hp
      have := pySorted_head_min (fun p : α × β => val p.2) d q r hs p hp
      simpa [h] using this

theorem min_hash_value_by_sort_ne_nil (val : β → Nat) (d : List (α × β))
    (hd : d ≠ []) : (min_hash_value_by_sort val d).isSome := by
  unfold min_hash_value_by_sort
  rcases hs : pySorted (fun p q => val p.2 < val q.2) d with _ | ⟨q, r⟩
  · rcases d with _ | ⟨p, d'⟩
    · exact absurd rfl hd
    · have : p ∈ pySorted (fun p q => val p.2 < val q.2) (p :: d') :=
        (mem_pySorted _ _ p).mpr (by simp)
      rw [hs] at this
      simp at this
  · simp [hs]


/-!
## Claim theorems: templating tool and filler selection
-/

/-- C8: for an input document containing the line
`"   __EXTRA_ROOT_SHELL_CMDS__"` (and no earlier line carrying an
indented placeholder), the templating tool produces, in place of that line
and in order, the two lines `"   cmd1"` and `"   cmd2"`, each indented
identically to the original placeholder line. -/
theorem align_replace_indent_example (pre post : List (List Char))
    (hpre : ∀ p ∈ pre,
      matchesPlaceholder "__EXTRA_ROOT_SHELL_CMDS__".data p = false) :
    alignReplaceLines "__EXTRA_ROOT_SHELL_CMDS__".data
        ["cmd1".data, "cmd2".data]
        (pre ++ "   __EXTRA_ROOT_SHELL_CMDS__".data :: post)
      = pre ++ "   cmd1".data :: "   cmd2".data :: post := by
  rw [alignReplaceLines_append _ _ pre post _ hpre (by decide)]
  have hmap : (["cmd1".data, "cmd2".data]).map
      (fun r => lineIndent "   __EXTRA_ROOT_SHELL_CMDS__".data ++ r)
      = ["   cmd1".data, "   cmd2".data] := by decide
  rw [hmap]
  simp

/-- Witness for C8 at the one-line document. -/
theorem align_replace_indent_example_witness :
    (∀ p ∈ ([] : List (List Char)),
      matchesPlaceholder "__EXTRA_ROOT_SHELL_CMDS__".data p = false) ∧
    alignReplaceLines "__EXTRA_ROOT_SHELL_CMDS__".data
        ["cmd1".data, "cmd2".data]
        ([] ++ "   __EXTRA_ROOT_SHELL_CMDS__".data :: [])
      = [] ++ "   cmd1".data :: "   cmd2".data :: [] :=
  ⟨by simp, align_replace_indent_example [] [] (by simp)⟩

/-- C10 (implicit): the block-replacement helper replaces exactly the
first line on which the placeholder is preceded by a non-empty run of
whitespace; lines after it — including further placeholder occurrences —
pass through unchanged; a list with no such line is returned unchanged;
and a placeholder at the start of a line, with no leading whitespace,
never matches. -/
theorem align_replace_first_match_only :
    (∀ (pat : List Char) (repl : List (List Char)) (pre post : List (List Char))
        (l : List Char),
      (∀ p ∈ pre, matchesPlaceholder pat p = false) →
      matchesPlaceholder pat l = true →
      alignReplaceLines pat repl (pre ++ l :: post)
        = pre ++ (repl.map (fun r => lineIndent l ++ r)) ++ post) ∧
    (∀ (pat : List Char) (repl : List (List Char)) (ls : List (List Char)),
      (∀ l ∈ ls, matchesPlaceholder pat l = false) →
      alignReplaceLines pat repl ls = ls) ∧
    (∀ (pat rest : List Char), pat ≠ [] → pyIsSpace (pat.headD ' ') = false →
      matchesPlaceholder pat (pat ++ rest) = false) :=
  ⟨alignReplaceLines_append, alignReplaceLines_no_match,
    matchesPlaceholder_no_indent⟩

/-- Witness for C10 at concrete inputs: a matching line surrounded by
non-matching ones is replaced in place, a later occurrence is untouched,
and an unindented placeholder line does not match. -/
theorem align_replace_first_match_only_witness :
    alignReplaceLines "__X__".data ["y".data]
        (["a".data] ++ " __X__".data :: [" __X__".data])
      = ["a".data] ++ ([" y".data]) ++ [" __X__".data] ∧
    matchesPlaceholder "__X__".data ("__X__".data ++ "tail".data) = false := by
  constructor
  · have h := align_replace_first_match_only.1 "__X__".data ["y".data]
      ["a".data] [" __X__".data] " __X__".data (by decide) (by decide)
    rw [h]
    decide
  · exact align_replace_first_match_only.2.2 "__X__".data "tail".data
      (by decide) (by decide)

/-- C9 counterexample: the claim says the final output contains no blank
line, with a blank line read as one consisting only of (possibly zero)
whitespace.  The drop-patterns `^\s+$` and `^\s+-\s*$` both require at
least one whitespace character, so a fully empty line of the substituted
text survives the filter: the output written for `"a\n\nb\n"` still
contains the empty line. -/
theorem output_filter_blank_line_counterexample :
    ([] : List Char) ∈ pySplitLinesList (finalOutput "a\n\nb\n".data) ∧
      isBlankLine [] = true := by
  constructor
  · decide
  · decide

/-- C9 (amended): the final output contains no line matching the dropped
patterns — no line made of one or more whitespace characters only, and no
line made of one or more whitespace characters, a dash and optional
trailing whitespace; every such line of the substituted text is dropped
before writing.  (Fully empty lines are kept.) -/
theorem output_filter_amended (text : List Char) :
    ∀ l ∈ pySplitLinesList (finalOutput text),
      pyMatchBlank l = false ∧ pyMatchEmptyItem l = false := by
  intro l hl
  unfold finalOutput at hl
  rcases hfil : (pySplitLinesList text).filter keepLine with _ | ⟨m, ms⟩
  · rw [hfil] at hl
    have : pySplitLinesList (joinNL [] ++ ['\n']) = [[]] := by decide
    rw [this] at hl
    simp at hl
    subst hl
    exact ⟨by decide, by decide⟩
  · rw [hfil] at hl
    rw [splitLines_join (m :: ms) ?hsep (by simp)] at hl
    case hsep =>
      intro q hq
      have hq2 : q ∈ (pySplitLinesList text).filter keepLine := by
        rw [hfil]; exact hq
      exact mem_splitLines_nosep text q (List.mem_of_mem_filter hq2)
    have hl2 : l ∈ (pySplitLinesList text).filter keepLine := by
      rw [hfil]; exact hl
    have hkeep : keepLine l = true := List.of_mem_filter hl2
    unfold keepLine at hkeep
    constructor
    · by_cases h : pyMatchBlank l = true
      · rw [h] at hkeep; simp at hkeep
      · simpa using h
    · by_cases h : pyMatchEmptyItem l = true
      · rw [h] at hkeep; simp at hkeep
      · simpa using h

/-- Witness for C9's amended statement at a concrete substituted text. -/
theorem output_filter_amended_witness :
    pyMatchBlank "a".data = false ∧ pyMatchEmptyItem "a".data = false := by
  have h := output_filter_amended "a\n  \n".data "a".data (by decide)
  exact h

/-- C3: on a non-empty mapping from names to numeric identifiers the
filler-selection function returns an entry value that occurs in the
mapping and is numerically least among all entries, and on the empty
mapping it returns none. -/
theorem min_hash_value_by_value_min :
    min_hash_value_by_value [] = none ∧
    ∀ d : List (String × Nat), d ≠ [] →
      ∃ v, min_hash_value_by_value d = some v ∧
        (∃ p ∈ d, p.2 = v) ∧ ∀ p ∈ d, v ≤ p.2 := by
  constructor
  · rfl
  · intro d hd
    have hsome := min_hash_value_by_sort_ne_nil id d hd
    rcases hv : min_hash_value_by_sort id d with _ | v
    · rw [hv] at hsome; simp at hsome
    · have hmem := min_hash_value_by_sort_mem id d v hv
      exact ⟨v, by unfold min_hash_value_by_value; rw [hv], hmem.1,
        fun p hp => hmem.2 p hp⟩

/-- Witness for C3 at a concrete mapping. -/
theorem min_hash_value_by_value_min_witness :
    ([("a", 5), ("b", 2), ("c", 9)] : List (String × Nat)) ≠ [] ∧
    ∃ v, min_hash_value_by_value [("a", 5), ("b", 2), ("c", 9)] = some v ∧
      (∃ p ∈ ([("a", 5), ("b", 2), ("c", 9)] : List (String × Nat)), p.2 = v) ∧
      ∀ p ∈ ([("a", 5), ("b", 2), ("c", 9)] : List (String × Nat)), v ≤ p.2 :=
  ⟨by decide, min_hash_value_by_value_min.2 _ (by decide)⟩

/-!
## Lemmas: characters and the MAC/IP disjointness
-/

theorem char_toNat_inj {c d : Char} (h : c.toNat = d.toNat) : c = d :=
  Char.ext (UInt32.ext h)

theorem char_toNat_ofNat (n : Nat) (hv : n < 55296) :
    (Char.ofNat n).toNat = n := by
  unfold Char.ofNat
  rw [dif_pos ?_]
  · rfl
  · unfold Nat.isValidChar
    left
    exact hv

theorem pyLowerChar_toNat (c : Char) :
    (pyLowerChar c).toNat
      = if 65 ≤ c.toNat ∧ c.toNat ≤ 90 then c.toNat + 32 else c.toNat := by
  unfold pyLowerChar
  by_cases h : 'A' ≤ c ∧ c ≤ 'Z'
  · have h65 : 65 ≤ c.toNat := h.1
    have h90 : c.toNat ≤ 90 := h.2
    rw [if_pos (by simpa using h), char_toNat_ofNat _ (by omega),
      if_pos ⟨h65, h90⟩]
  · rw [if_neg (by simpa using h), if_neg ?_]
    rintro ⟨h1, h2⟩
    exact h ⟨h1, h2⟩

theorem pyIsDigit_iff (c : Char) :
    pyIsDigit c = true ↔ 48 ≤ c.toNat ∧ c.toNat ≤ 57 := by
  unfold pyIsDigit
  simp only [decide_eq_true_eq]
  exact ⟨fun h => ⟨h.1, h.2⟩, fun h => ⟨h.1, h.2⟩⟩

theorem pyIsHexDigit_iff (c : Char) :
    pyIsHexDigit c = true ↔
      (48 ≤ c.toNat ∧ c.toNat ≤ 57) ∨ (97 ≤ c.toNat ∧ c.toNat ≤ 102) ∨
        (65 ≤ c.toNat ∧ c.toNat ≤ 70) := by
  unfold pyIsHexDigit
  simp only [decide_eq_true_eq, pyIsDigit_iff]
  constructor
  · rintro (h | ⟨h1, h2⟩ | ⟨h1, h2⟩)
    · exact Or.inl h
    · exact Or.inr (Or.inl ⟨h1, h2⟩)
    · exact Or.inr (Or.inr ⟨h1, h2⟩)
  · rintro (h | ⟨h1, h2⟩ | ⟨h1, h2⟩)
    · exact Or.inl h
    · exact Or.inr (Or.inl ⟨h1, h2⟩)
    · exact Or.inr (Or.inr ⟨h1, h2⟩)

theorem isHexLower_iff (c : Char) :
    isHexLower c = true ↔
      (48 ≤ c.toNat ∧ c.toNat ≤ 57) ∨ (97 ≤ c.toNat ∧ c.toNat ≤ 102) := by
  unfold isHexLower
  simp only [decide_eq_true_eq, pyIsDigit_iff]
  constructor
  · rintro (h | ⟨h1, h2⟩)
    · exact Or.inl h
    · exact Or.inr ⟨h1, h2⟩
  · rintro (h | ⟨h1, h2⟩)
    · exact Or.inl h
    · exact Or.inr ⟨h1, h2⟩

theorem isHexLower_pyLower (c : Char)
    (h : isHexLower (pyLowerChar c) = true) : pyIsHexDigit c = true := by
  rw [isHexLower_iff, pyLowerChar_toNat] at h
  rw [pyIsHexDigit_iff]
  split at h <;> omega

theorem pyLowerChar_eq_low {d : Char}
    (hd : d.toNat < 65 ∨ (90 < d.toNat ∧ d.toNat < 97) ∨ 122 < d.toNat)
    (c : Char) : pyLowerChar c = d ↔ c = d := by
  constructor
  · intro h
    have h2 := congrArg Char.toNat h
    rw [pyLowerChar_toNat] at h2
    split at h2
    · exfalso; omega
    · exact char_toNat_inj h2
  · intro h
    subst h
    unfold pyLowerChar
    rw [if_neg ?_]
    rintro ⟨h1, h2⟩
    have hn1 : 65 ≤ c.toNat := h1
    have hn2 : c.toNat ≤ 90 := h2
    omega

theorem pyIsHexDigit_ne (c : Char) (h : pyIsHexDigit c = true) :
    ¬ c = ':' ∧ ¬ c = '-' ∧ ¬ c = '.' ∧ ¬ c = '%' ∧ ¬ c = '/' ∧ ¬ c = '\n' := by
  rw [pyIsHexDigit_iff] at h
  refine ⟨?_, ?_, ?_, ?_, ?_, ?_⟩ <;>
    · intro he
      subst he
      revert h
      decide

theorem macCoreAux_shape :
    ∀ (n : Nat) (s : List Char), macCoreAux n (pyLower s) = true →
      macShapeAux n s = true := by
  intro n
  induction n with
  | zero =>
    intro s h
    rcases s with _ | ⟨x, _ | ⟨y, _ | ⟨z, rest⟩⟩⟩
    · simp [pyLower, macCoreAux] at h
    · simp [pyLower, macCoreAux] at h
    · simp only [pyLower, List.map_cons, List.map_nil, macCoreAux,
        decide_eq_true_eq] at h
      simp only [macShapeAux, decide_eq_true_eq]
      exact ⟨isHexLower_pyLower x (by simpa using h.1),
             isHexLower_pyLower y (by simpa using h.2)⟩
    · simp [pyLower, macCoreAux] at h
  | succ n ih =>
    intro s h
    rcases s with _ | ⟨x, _ | ⟨y, _ | ⟨z, rest⟩⟩⟩
    · simp [pyLower, macCoreAux] at h
    · simp [pyLower, macCoreAux] at h
    · simp [pyLower, macCoreAux] at h
    · simp only [pyLower, List.map_cons, macCoreAux, Bool.and_eq_true,
        decide_eq_true_eq] at h
      obtain ⟨h1, h2, h3, h4⟩ := h
      simp only [macShapeAux, Bool.and_eq_true, decide_eq_true_eq]
      refine ⟨isHexLower_pyLower x (by simpa using h1),
              isHexLower_pyLower y (by simpa using h2), ?_, ih rest ?_⟩
      · rcases h3 with h3 | h3
        · exact Or.inl ((pyLowerChar_eq_low (by decide) z).mp h3)
        · exact Or.inr ((pyLowerChar_eq_low (by decide) z).mp h3)
      · simpa [pyLower] using h4

theorem macShapeAux_chars :
    ∀ (n : Nat) (s : List Char), macShapeAux n s = true →
      ∀ c ∈ s, pyIsHexDigit c = true ∨ c = ':' ∨ c = '-' := by
  intro n
  induction n with
  | zero =>
    intro s h c hc
    rcases s with _ | ⟨x, _ | ⟨y, _ | ⟨z, rest⟩⟩⟩ <;> simp [macShapeAux] at h
    rcases List.mem_cons.mp hc with hc | hc
    · subst hc; exact Or.inl h.1
    · rcases List.mem_cons.mp hc with hc | hc
      · subst hc; exact Or.inl h.2
      · simp at hc
  | succ n ih =>
    intro s h c hc
    rcases s with _ | ⟨x, _ | ⟨y, _ | ⟨z, rest⟩⟩⟩ <;> simp [macShapeAux] at h
    obtain ⟨h1, h2, h3, h4⟩ := h
    rcases List.mem_cons.mp hc with hc | hc
    · subst hc; exact Or.inl h1
    rcases List.mem_cons.mp hc with hc | hc
    · subst hc; exact Or.inl h2
    rcases List.mem_cons.mp hc with hc | hc
    · subst hc
      rcases h3 with h3 | h3
      · exact Or.inr (Or.inl h3)
      · exact Or.inr (Or.inr h3)
    · exact ih rest h4 c hc


theorem pySplit_ne_nil (sep : Char) (l : List Char) : pySplit sep l ≠ [] := by
  cases l with
  | nil => simp [pySplit]
  | cons c rest =>
    by_cases h : c = sep
    · simp [pySplit, h]
    · rcases hs : pySplit sep rest with _ | ⟨p, ps⟩ <;> simp [pySplit, h, hs]

theorem pySplit_cons_sep (sep : Char) (rest : List Char) :
    pySplit sep (sep :: rest) = [] :: pySplit sep rest := by
  simp [pySplit]

theorem pySplit_cons_nosep (sep c : Char) (hc : ¬ c = sep) (rest : List Char)
    (p : List Char) (ps : List (List Char)) (h : pySplit sep rest = p :: ps) :
    pySplit sep (c :: rest) = (c :: p) :: ps := by
  simp [pySplit, hc, h]

theorem pySplit_append_nosep (sep : Char) :
    ∀ (g : List Char), (∀ c ∈ g, ¬ c = sep) →
      ∀ (rest p : List Char) (ps : List (List Char)),
        pySplit sep rest = p :: ps →
        pySplit sep (g ++ rest) = (g ++ p) :: ps := by
  intro g
  induction g with
  | nil => intro _ rest p ps h; simpa using h
  | cons c g ih =>
    intro hg rest p ps h
    have hc := hg c (by simp)
    have hrec := ih (fun d hd => hg d (by simp [hd])) rest p ps h
    rw [List.cons_append]
    rw [pySplit_cons_nosep sep c hc (g ++ rest) (g ++ p) ps hrec]
    simp

theorem mem_pySplit_mem (sep : Char) :
    ∀ (l p : List Char), p ∈ pySplit sep l → ∀ c ∈ p, c ∈ l := by
  intro l
  induction l with
  | nil =>
    intro p hp c hc
    simp [pySplit] at hp
    subst hp
    simp at hc
  | cons d rest ih =>
    intro p hp c hc
    by_cases hd : d = sep
    · subst hd
      rw [pySplit_cons_sep] at hp
      rcases List.mem_cons.mp hp with hp | hp
      · subst hp; simp at hc
      · exact List.mem_cons_of_mem _ (ih p hp c hc)
    · rcases hq : pySplit sep rest with _ | ⟨q, qs⟩
      · exact absurd hq (pySplit_ne_nil sep rest)
      · rw [pySplit_cons_nosep sep d hd rest q qs hq] at hp
        rcases List.mem_cons.mp hp with hp | hp
        · subst hp
          rcases List.mem_cons.mp hc with hc | hc
          · subst hc; simp
          · exact List.mem_cons_of_mem _ (ih q (by simp [hq]) c hc)
        · exact List.mem_cons_of_mem _ (ih p (by simp [hq, hp]) c hc)

theorem macShapeAux_split :
    ∀ (n : Nat) (s t : List Char), macShapeAux n s = true →
      (∀ c ∈ t, ¬ c = ':') →
      (pySplit ':' (s ++ t)).length ≤ n + 1 ∧
        ∀ p ∈ pySplit ':' (s ++ t), p ≠ [] := by
  intro n
  induction n with
  | zero =>
    intro s t h ht
    rcases s with _ | ⟨x, _ | ⟨y, _ | ⟨z, rest⟩⟩⟩ <;> simp [macShapeAux] at h
    have hg : ∀ c ∈ ([x, y] ++ t), ¬ c = ':' := by
      intro c hc
      rcases List.mem_cons.mp hc with hc | hc
      · subst hc; exact (pyIsHexDigit_ne _ h.1).1
      rcases List.mem_cons.mp hc with hc | hc
      · subst hc; exact (pyIsHexDigit_ne _ h.2).1
      · exact ht c hc
    have hsplit := pySplit_append_nosep ':' ([x, y] ++ t) hg [] [] []
      (by simp [pySplit])
    simp only [List.append_nil] at hsplit
    rw [hsplit]
    constructor
    · simp
    · intro p hp
      simp only [List.mem_singleton] at hp
      subst hp
      simp
  | succ n ih =>
    intro s t h ht
    rcases s with _ | ⟨x, _ | ⟨y, _ | ⟨z, rest⟩⟩⟩ <;> simp [macShapeAux] at h
    obtain ⟨h1, h2, h3, h4⟩ := h
    obtain ⟨ihl, ihp⟩ := ih rest t h4 ht
    rcases hq : pySplit ':' (rest ++ t) with _ | ⟨q, qs⟩
    · exact absurd hq (pySplit_ne_nil ':' (rest ++ t))
    rcases h3 with h3 | h3
    · subst h3
      have hg : ∀ c ∈ [x, y], ¬ c = ':' := by
        intro c hc
        rcases List.mem_cons.mp hc with hc | hc
        · subst hc; exact (pyIsHexDigit_ne _ h1).1
        · simp only [List.mem_singleton] at hc
          subst hc; exact (pyIsHexDigit_ne _ h2).1
      have hsplit := pySplit_append_nosep ':' [x, y] hg (':' :: (rest ++ t))
        [] (pySplit ':' (rest ++ t)) (pySplit_cons_sep ':' (rest ++ t))
      simp only [List.cons_append, List.nil_append, List.append_nil]
        at hsplit ⊢
      rw [hsplit]
      constructor
      · rw [hq]
        rw [hq] at ihl
        simp only [List.length_cons] at ihl ⊢
        omega
      · intro p hp
        rcases List.mem_cons.mp hp with hp | hp
        · subst hp; simp
        · exact ihp p hp
    · subst h3
      have hg : ∀ c ∈ [x, y, '-'], ¬ c = ':' := by
        intro c hc
        rcases List.mem_cons.mp hc with hc | hc
        · subst hc; exact (pyIsHexDigit_ne _ h1).1
        rcases List.mem_cons.mp hc with hc | hc
        · subst hc; exact (pyIsHexDigit_ne _ h2).1
        · simp only [List.mem_singleton] at hc
          subst hc; decide
      have hsplit := pySplit_append_nosep ':' [x, y, '-'] hg (rest ++ t) q qs hq
      simp only [List.cons_append, List.nil_append] at hsplit ⊢
      rw [hsplit]
      constructor
      · rw [hq] at ihl
        simp only [List.length_cons] at ihl ⊢
        omega
      · intro p hp
        rcases List.mem_cons.mp hp with hp | hp
        · subst hp; simp
        · exact ihp p (by simp [hq, hp])

theorem pyIPv4Val_none_nodot (l : List Char) (h : ¬ '.' ∈ l) :
    pyIPv4Val l = none := by
  unfold pyIPv4Val
  by_cases hnil : l.isEmpty
  · rw [if_pos hnil]
  · rw [if_neg hnil]
    have hsplit := pySplit_append_nosep '.' l
      (fun c hc he => h (he ▸ hc)) [] [] [] (by simp [pySplit])
    simp only [List.append_nil] at hsplit
    rw [hsplit]

theorem listGetLastD_mem {α : Type} (l : List α) (d : α) (h : l ≠ []) :
    l.getLastD d ∈ l := by
  induction l with
  | nil => exact absurd rfl h
  | cons a l ih =>
    cases l with
    | nil => simp [List.getLastD]
    | cons b t =>
      have h2 : (a :: b :: t).getLastD d = (b :: t).getLastD d := by
        simp [List.getLastD]
      rw [h2]
      exact List.mem_cons_of_mem a (ih (by simp))

theorem charList_contains_eq_false {a : Char} {l : List Char} (h : a ∉ l) :
    l.contains a = false := by
  simp [List.contains]
  simpa using h

theorem ipv6Core_short (s : List Char) (hne : ¬ s.isEmpty)
    (hlen : (pySplit ':' s).length ≤ 6)
    (hparts : ∀ p ∈ pySplit ':' s, p ≠ [])
    (hdot : ¬ '.' ∈ s) : ipv6Core s = none := by
  unfold ipv6Core
  rw [if_neg hne]
  by_cases h3 : (pySplit ':' s).length < 3
  · rw [if_pos h3]
  · rw [if_neg h3]
    have hlast : ((pySplit ':' s).getLastD []).contains '.' = false := by
      have hmem : (pySplit ':' s).getLastD [] ∈ pySplit ':' s :=
        listGetLastD_mem _ _ (pySplit_ne_nil ':' s)
      refine charList_contains_eq_false ?_
      intro hc
      exact hdot (mem_pySplit_mem ':' s _ hmem '.' hc)
    simp only [hlast, Bool.false_eq_true, if_false]
    have hcount : ((pySplit ':' s).drop 1).dropLast.countP
        (fun p => p.isEmpty) = 0 := by
      rw [List.countP_eq_zero]
      intro p hp
      have hmem : p ∈ pySplit ':' s :=
        List.mem_of_mem_drop (List.dropLast_subset _ hp)
      simpa using hparts p hmem
    rw [hcount]
    simp only [Nat.zero_lt_one, if_neg (by omega : ¬ (0 : Nat) > 1),
      if_neg (by omega : ¬ (0 : Nat) = 1)]
    rw [if_neg (by omega : ¬ (pySplit ':' s).length > 9)]
    rw [if_pos (by omega : (pySplit ':' s).length ≠ 8)]

theorem pyIPv6Val_none (s : List Char)
    (hper : ¬ '%' ∈ s) (hsl : ¬ '/' ∈ s)
    (hcore : ipv6Core s = none) : pyIPv6Val s = none := by
  unfold pyIPv6Val
  simp only [charList_contains_eq_false hsl, charList_contains_eq_false hper,
    Bool.false_eq_true, if_false]
  exact hcore


theorem macShape_not_ip (s t : List Char) (hshape : macShapeAux 5 s = true)
    (ht : ∀ c ∈ t, c = '\n') :
    pyIPv4Val (s ++ t) = none ∧ pyIPv6Val (s ++ t) = none := by
  have hchars : ∀ c ∈ s ++ t,
      pyIsHexDigit c = true ∨ c = ':' ∨ c = '-' ∨ c = '\n' := by
    intro c hc
    rcases List.mem_append.mp hc with hc | hc
    · rcases macShapeAux_chars 5 s hshape c hc with h | h | h
      · exact Or.inl h
      · exact Or.inr (Or.inl h)
      · exact Or.inr (Or.inr (Or.inl h))
    · exact Or.inr (Or.inr (Or.inr (ht c hc)))
  have hdot : ¬ '.' ∈ (s ++ t) := by
    intro hc
    rcases hchars '.' hc with h | h | h | h
    · exact (pyIsHexDigit_ne _ h).2.2.1 rfl
    · exact absurd h (by decide)
    · exact absurd h (by decide)
    · exact absurd h (by decide)
  have hper : ¬ '%' ∈ (s ++ t) := by
    intro hc
    rcases hchars '%' hc with h | h | h | h
    · exact (pyIsHexDigit_ne _ h).2.2.2.1 rfl
    · exact absurd h (by decide)
    · exact absurd h (by decide)
    · exact absurd h (by decide)
  have hsl : ¬ '/' ∈ (s ++ t) := by
    intro hc
    rcases hchars '/' hc with h | h | h | h
    · exact (pyIsHexDigit_ne _ h).2.2.2.2.1 rfl
    · exact absurd h (by decide)
    · exact absurd h (by decide)
    · exact absurd h (by decide)
  have hs_ne : s ≠ [] := by
    intro he
    rw [he] at hshape
    simp [macShapeAux] at hshape
  have hne : ¬ (s ++ t).isEmpty = true := by
    rcases s with _ | ⟨x, s'⟩
    · exact absurd rfl hs_ne
    · simp
  have hfacts := macShapeAux_split 5 s t hshape
    (fun c hc => by rw [ht c hc]; decide)
  refine ⟨pyIPv4Val_none_nodot _ hdot, pyIPv6Val_none _ hper hsl ?_⟩
  exact ipv6Core_short _ hne (by omega) hfacts.2 hdot

theorem mac_pattern_not_ip (a : String)
    (h : matchesMacPattern (pyLower a.data) = true) :
    is_ip_address a = false := by
  unfold matchesMacPattern at h
  unfold is_ip_address
  by_cases hlast : (pyLower a.data).getLastD ' ' = '\n'
  · rw [if_pos hlast] at h
    have hs_ne : a.data ≠ [] := by
      intro he
      rw [he] at hlast
      revert hlast
      decide
    have hmap : (pyLower a.data).dropLast = pyLower a.data.dropLast := by
      simp [pyLower, List.map_dropLast]
    rw [hmap] at h
    have hshape := macCoreAux_shape 5 a.data.dropLast h
    have hlow : (pyLower a.data).getLastD ' '
        = pyLowerChar (a.data.getLast hs_ne) := by
      conv_lhs => rw [← List.dropLast_append_getLast hs_ne]
      simp [pyLower, List.getLastD_eq_getLast?, List.getLast?_concat]
    rw [hlow] at hlast
    have hlast2 : a.data.getLast hs_ne = '\n' :=
      (pyLowerChar_eq_low (by decide) _).mp hlast
    have hsplit : a.data = a.data.dropLast ++ ['\n'] := by
      conv_lhs => rw [← List.dropLast_append_getLast hs_ne]
      rw [hlast2]
    rw [hsplit]
    have hfacts := macShape_not_ip a.data.dropLast ['\n'] hshape
      (by intro c hc; simpa using hc)
    rw [hfacts.1, hfacts.2]
    rfl
  · rw [if_neg hlast] at h
    have hshape := macCoreAux_shape 5 a.data h
    have hfacts := macShape_not_ip a.data [] hshape (by intro c hc; simp at hc)
    simp only [List.append_nil] at hfacts
    rw [hfacts.1, hfacts.2]
    rfl


/-- C4: network-map address classification.  (1) An address string whose
lowercased form matches the colon/hyphen six-byte hex MAC pattern is never
an IP address, so it is never classified as one; together with the
`if`/`elif` structure of netbox_init.py:762-778 (mirrored by `deviceStep`)
this makes the IP and MAC classifications mutually exclusive.  (2) A host
admitted to the device loop whose address is neither a valid IP nor a
valid MAC pattern gets its device created and no interface. -/
theorem netmap_address_classification :
    (∀ a : String, matchesMacPattern (pyLower a.data) = true →
      is_ip_address a = false) ∧
    (∀ (sitesD : List (String × SiteRec))
        (dtypesD : List (String × DeviceTypeRec))
        (rolesD : List (String × RoleRec)) (st : Store) (h : HostEntry),
      is_ip_address h.address = false →
      matchesMacPattern (pyLower h.address.data) = false →
      hasDevice st h.name = false →
      (deviceStep (fun _ => false) sitesD dtypesD rolesD st h).interfaces
          = st.interfaces ∧
        ∃ d, (deviceStep (fun _ => false) sitesD dtypesD rolesD st h).devices
            = st.devices ++ [d] ∧ d.name = h.name) := by
  constructor
  · exact mac_pattern_not_ip
  · intro sitesD dtypesD rolesD st h hip hmac hdev
    unfold deviceStep createDevice
    simp only [hdev, hip, hmac, Bool.false_eq_true, if_false]
    exact ⟨trivial, _, rfl, rfl⟩

/-- Witness for C4: a MAC-shaped address is not an IP, and a host with the
unclassifiable address "xyz" gets a device and no interface. -/
theorem netmap_address_classification_witness :
    is_ip_address "aa:bb:cc:dd:ee:ff" = false ∧
    (deviceStep (fun _ => false) [] [] []
        ⟨[], [], [], [], [], [], [], [], [], [], [], 0⟩
        ⟨"h", "xyz"⟩).interfaces = [] :=
  ⟨netmap_address_classification.1 "aa:bb:cc:dd:ee:ff" (by decide),
   (netmap_address_classification.2 [] [] []
      ⟨[], [], [], [], [], [], [], [], [], [], [], 0⟩
      ⟨"h", "xyz"⟩ (by decide) (by decide) (by decide)).1⟩


/-!
## Lemmas: partial-failure isolation
-/

theorem hasManufacturer_createManufacturer (s : Store) (n m : String)
    (h : hasManufacturer s n = true) :
    hasManufacturer (createManufacturer s m) n = true := by
  unfold createManufacturer
  split
  · exact h
  · unfold hasManufacturer at h ⊢
    simp only [List.any_append, h, Bool.true_or]

theorem hasManufacturer_createManufacturer_self (s : Store) (n : String) :
    hasManufacturer (createManufacturer s n) n = true := by
  unfold createManufacturer
  split
  · assumption
  · unfold hasManufacturer
    simp

theorem manufacturersFold_preserves (reject : String → Bool) :
    ∀ (l : List String) (s : Store) (n : String),
      hasManufacturer s n = true →
      hasManufacturer (l.foldl
        (fun s n => if reject n then s else createManufacturer s n) s) n
        = true := by
  intro l
  induction l with
  | nil => intro s n h2; exact h2
  | cons m2 l2 ih2 =>
    intro s n h2
    simp only [List.foldl_cons]
    apply ih2
    by_cases hr2 : reject m2
    · simpa [hr2] using h2
    · simp only [hr2, Bool.false_eq_true, if_false]
      exact hasManufacturer_createManufacturer s n m2 h2

theorem manufacturersFold_mem (reject : String → Bool) :
    ∀ (l : List String) (s : Store) (n : String), n ∈ l → reject n = false →
      hasManufacturer (l.foldl
        (fun s n => if reject n then s else createManufacturer s n) s) n
        = true := by
  intro l
  induction l with
  | nil => intro s n hn; simp at hn
  | cons m l ih =>
    intro s n hn hr
    rcases List.mem_cons.mp hn with hn | hn
    · subst hn
      simp only [List.foldl_cons, hr, Bool.false_eq_true, if_false]
      exact manufacturersFold_preserves reject l _ n
        (hasManufacturer_createManufacturer_self s n)
    · simp only [List.foldl_cons]
      exact ih _ n hn hr

theorem deviceStep_devices_eq (reject : String → Bool)
    (sitesD : List (String × SiteRec)) (dtypesD : List (String × DeviceTypeRec))
    (rolesD : List (String × RoleRec)) (st : Store) (h : HostEntry) :
    (deviceStep reject sitesD dtypesD rolesD st h).devices =
      if reject h.name ∨ hasDevice st h.name then st.devices
      else st.devices ++ [⟨st.nextId, h.name,
        (min_hash_value_by_sort SiteRec.id sitesD).map SiteRec.id,
        (min_hash_value_by_sort DeviceTypeRec.id dtypesD).map DeviceTypeRec.id,
        (min_hash_value_by_sort RoleRec.id rolesD).map RoleRec.id,
        none, none⟩] := by
  unfold deviceStep
  by_cases hrj : reject h.name = true
  · simp [hrj]
  simp only [hrj, Bool.false_eq_true, if_false]
  unfold createDevice
  by_cases hdup : hasDevice st h.name = true
  · simp [hdup]
  simp only [hdup, Bool.false_eq_true, if_false]
  by_cases hip : is_ip_address h.address = true
  · simp only [hip, if_true]
    unfold createInterface
    split <;> simp [hrj, hdup]
  simp only [hip, Bool.false_eq_true, if_false]
  by_cases hmac : matchesMacPattern (pyLower h.address.data) = true
  · simp only [hmac, if_true]
    unfold createInterface
    split <;> simp [hrj, hdup]
  · simp only [hmac, Bool.false_eq_true, if_false]
    simp [hrj, hdup]

theorem deviceStep_devices_interfaces (reject : String → Bool)
    (sitesD : List (String × SiteRec)) (dtypesD : List (String × DeviceTypeRec))
    (rolesD : List (String × RoleRec)) (st : Store) (h : HostEntry) (n : String)
    (hn : hasDevice st n = true) :
    hasDevice (deviceStep reject sitesD dtypesD rolesD st h) n = true := by
  unfold hasDevice at hn ⊢
  rw [deviceStep_devices_eq]
  split
  · exact hn
  · simp only [List.any_append, hn, Bool.true_or]

theorem deviceStep_creates (reject : String → Bool)
    (sitesD : List (String × SiteRec)) (dtypesD : List (String × DeviceTypeRec))
    (rolesD : List (String × RoleRec)) (st : Store) (h : HostEntry)
    (hr : reject h.name = false) :
    hasDevice (deviceStep reject sitesD dtypesD rolesD st h) h.name = true := by
  unfold hasDevice
  rw [deviceStep_devices_eq]
  by_cases hdup : hasDevice st h.name = true
  · simp only [hr, hdup]
    simpa [hasDevice] using hdup
  · have hor : (reject h.name = true ∨ hasDevice st h.name = true) = False := by
      simp [hr, hdup]
    simp only [hor]
    simp

theorem deviceLoopF_preserves (reject : String → Bool)
    (sitesD : List (String × SiteRec)) (dtypesD : List (String × DeviceTypeRec))
    (rolesD : List (String × RoleRec)) :
    ∀ (hosts : List HostEntry) (st : Store) (n : String),
      hasDevice st n = true →
      hasDevice (deviceLoopF reject sitesD dtypesD rolesD hosts st) n
        = true := by
  intro hosts
  induction hosts with
  | nil => intro st n h2; exact h2
  | cons g2 hosts2 ih2 =>
    intro st n h2
    exact ih2 _ n (deviceStep_devices_interfaces reject sitesD dtypesD
      rolesD st g2 n h2)

theorem deviceLoopF_mem (reject : String → Bool)
    (sitesD : List (String × SiteRec)) (dtypesD : List (String × DeviceTypeRec))
    (rolesD : List (String × RoleRec)) :
    ∀ (hosts : List HostEntry) (st : Store) (h : HostEntry), h ∈ hosts →
      reject h.name = false →
      hasDevice (deviceLoopF reject sitesD dtypesD rolesD hosts st) h.name
        = true := by
  intro hosts
  induction hosts with
  | nil => intro st h hm; simp at hm
  | cons g hosts ih =>
    intro st h hm hr
    rcases List.mem_cons.mp hm with hm | hm
    · subst hm
      exact deviceLoopF_preserves reject sitesD dtypesD rolesD hosts _ h.name
        (deviceStep_creates reject sitesD dtypesD rolesD st h hr)
    · exact ih _ h hm hr

/-- C5: partial-failure isolation, for the manufacturers stage and the
device-creation loop (the cited batch loops).  `reject` is the
request-rejection oracle: whatever items the store rejects (including any
earlier item of the batch), every item of the batch that is not itself
rejected ends up present after the stage — one item's failure never stops
the following items from being attempted and created. -/
theorem partial_failure_isolation :
    (∀ (reject : String → Bool) (cfg : Config) (st : Store) (n : String),
      n ∈ missingManufacturers cfg st → reject n = false →
      hasManufacturer (manufacturersStageF reject cfg st) n = true) ∧
    (∀ (reject : String → Bool) (sitesD : List (String × SiteRec))
        (dtypesD : List (String × DeviceTypeRec))
        (rolesD : List (String × RoleRec)) (hosts : List HostEntry)
        (st : Store) (h : HostEntry),
      h ∈ hosts → reject h.name = false →
      hasDevice (deviceLoopF reject sitesD dtypesD rolesD hosts st) h.name
        = true) := by
  constructor
  · intro reject cfg st n hn hr
    exact manufacturersFold_mem reject (missingManufacturers cfg st) st n hn hr
  · intro reject sitesD dtypesD rolesD hosts st h hm hr
    exact deviceLoopF_mem reject sitesD dtypesD rolesD hosts st h hm hr

/-- Witness for C5: the store rejects the first manufacturer and the first
host of each batch; the later items are still created. -/
theorem partial_failure_isolation_witness :
    hasManufacturer (manufacturersStageF (fun n => n == "bad")
      ⟨"s", "d", ["bad", "good"], [], [], [], fun _ => 0⟩
      ⟨[], [], [], [], [], [], [], [], [], [], [], 0⟩) "good" = true ∧
    hasDevice (deviceLoopF (fun n => n == "h1") [] [] []
      [⟨"h1", "10.0.0.5"⟩, ⟨"h2", "10.0.0.6"⟩]
      ⟨[], [], [], [], [], [], [], [], [], [], [], 0⟩) "h2" = true :=
  ⟨partial_failure_isolation.1 (fun n => n == "bad")
      ⟨"s", "d", ["bad", "good"], [], [], [], fun _ => 0⟩
      ⟨[], [], [], [], [], [], [], [], [], [], [], 0⟩ "good"
      (by decide) (by decide),
   partial_failure_isolation.2 (fun n => n == "h1") [] [] []
      [⟨"h1", "10.0.0.5"⟩, ⟨"h2", "10.0.0.6"⟩]
      ⟨[], [], [], [], [], [], [], [], [], [], [], 0⟩ ⟨"h2", "10.0.0.6"⟩
      (by decide) (by decide)⟩

/-- C2 evaluation at the failing input: the segment comprehension of the
prefix stage (netbox_init.py:710-717) admits every well-formed segment —
it never consults the `prefixesPreExisting` index fetched at line 707 — so
with the CIDR `10.0.0.0/24` already present in the store, a creation for
that same CIDR is still attempted. -/
theorem prefix_creation_attempted_when_present :
    (admittedSegments
        [.obj (some "segment") (some "lan") (some "10.0.0.0/24")]).map
      Segment.address = ["10.0.0.0/24"] ∧
    hasPrefixKey
      ⟨[], [], [], [], [], [⟨1, "s", "s"⟩],
        [⟨2, "10.0.0.0/24", some 1, "lan", none⟩], [], [], [], [], 3⟩
      "10.0.0.0/24" = true := by
  constructor
  · decide
  · decide


/-!
## Lemmas: the IP-address loop and dependency ordering
-/

theorem ipLoop_nil (devD : List (String × DeviceRec))
    (ifD : List (Nat × InterfaceRec)) (ipPre : List (String × IPRec))
    (st : Store) : ipLoop devD ifD ipPre [] st = st := rfl

theorem ipLoop_cons (devD : List (String × DeviceRec))
    (ifD : List (Nat × InterfaceRec)) (ipPre : List (String × IPRec))
    (h : HostEntry) (rest : List HostEntry) (st : Store) :
    ipLoop devD ifD ipPre (h :: rest) st =
      if hasKey ipPre (hostKeyOf h) then ipLoop devD ifD ipPre rest st
      else
        match pyGet devD h.name with
        | none => st
        | some dev =>
          match pyGet ifD dev.id with
          | none => st
          | some iface =>
            match createIPAddress st h.address iface.id with
            | none => ipLoop devD ifD ipPre rest st
            | some (st1, ipId) =>
              match st1.devices.find? (fun d => d.id = dev.id) with
              | none => ipLoop devD ifD ipPre rest st1
              | some _ =>
                ipLoop devD ifD ipPre rest
                  (if is_ip_v4_address h.address then
                    setDevicePrimary st1 dev.id ipId true
                  else if is_ip_v6_address h.address then
                    setDevicePrimary st1 dev.id ipId false
                  else st1) := rfl

theorem createPrefixRec_devices (st : Store) (cidr : String)
    (site : Option Nat) (desc : String) :
    (createPrefixRec st cidr site desc).devices = st.devices := by
  unfold createPrefixRec
  split <;> rfl

theorem prefixLoop_devices (sitesD : List (String × SiteRec)) :
    ∀ (segs : List Segment) (st : Store),
      (prefixLoop sitesD segs st).devices = st.devices := by
  intro segs
  induction segs with
  | nil => intro st; rfl
  | cons seg segs ih =>
    intro st
    unfold prefixLoop at ih ⊢
    simp only [List.foldl_cons]
    rw [ih, createPrefixRec_devices]

theorem pyDictInsert_values {α β : Type} [DecidableEq α] (d : List (α × β))
    (k : α) (v : β) (S : β → Prop) (hd : ∀ p ∈ d, S p.2) (hv : S v) :
    ∀ p ∈ pyDictInsert d k v, S p.2 := by
  intro p hp
  unfold pyDictInsert at hp
  split at hp
  · rcases List.mem_map.mp hp with ⟨q, hq, hqe⟩
    by_cases hk : q.1 = k
    · rw [if_pos hk] at hqe
      rw [← hqe]
      exact hv
    · rw [if_neg hk] at hqe
      rw [← hqe]
      exact hd q hq
  · rcases List.mem_append.mp hp with hp | hp
    · exact hd p hp
    · simp only [List.mem_singleton] at hp
      rw [hp]
      exact hv

theorem pyDictOf_values {α β : Type} [DecidableEq α] (key : β → α) :
    ∀ (l : List β) (acc : List (α × β)) (S : β → Prop),
      (∀ p ∈ acc, S p.2) → (∀ r ∈ l, S r) →
      ∀ p ∈ l.foldl (fun d r => pyDictInsert d (key r) r) acc, S p.2 := by
  intro l
  induction l with
  | nil => intro acc S hacc _ p hp; exact hacc p hp
  | cons r l ih =>
    intro acc S hacc hl p hp
    simp only [List.foldl_cons] at hp
    exact ih (pyDictInsert acc (key r) r) S
      (pyDictInsert_values acc (key r) r S hacc (hl r (by simp)))
      (fun q hq => hl q (by simp [hq])) p hp

theorem pyDictOf_values_mem {α β : Type} [DecidableEq α] (key : β → α)
    (l : List β) : ∀ p ∈ pyDictOf key l, p.2 ∈ l := by
  intro p hp
  exact pyDictOf_values key l [] (fun b => b ∈ l) (by simp)
    (fun r hr => hr) p hp

theorem minHash_pyDictOf_mem {α β : Type} [DecidableEq α] (key : β → α)
    (val : β → Nat) (l : List β) (v : β)
    (h : min_hash_value_by_sort val (pyDictOf key l) = some v) : v ∈ l := by
  obtain ⟨⟨p, hp, hpe⟩, _⟩ := min_hash_value_by_sort_mem val (pyDictOf key l) v h
  rw [← hpe]
  exact pyDictOf_values_mem key l p hp

/-- Through the IP-address loop, every device record keeps its identity
and its site/type/role references (only the primary-address fields are
rewritten). -/
theorem ipLoop_devices_rel (devD : List (String × DeviceRec))
    (ifD : List (Nat × InterfaceRec)) (ipPre : List (String × IPRec)) :
    ∀ (hosts : List HostEntry) (st : Store),
      ∀ d ∈ (ipLoop devD ifD ipPre hosts st).devices,
        ∃ d0 ∈ st.devices, d.site = d0.site ∧ d.deviceType = d0.deviceType ∧
          d.role = d0.role ∧ d.name = d0.name ∧ d.id = d0.id := by
  intro hosts st
  induction hosts, st using ipLoop.induct devD ifD ipPre with
  | case1 st =>
    intro d hd
    exact ⟨d, hd, rfl, rfl, rfl, rfl, rfl⟩
  | case2 h rest st hk ih =>
    intro d hd
    rw [ipLoop_cons, if_pos hk] at hd
    exact ih d hd
  | case3 h rest st hk hdev =>
    intro d hd
    rw [ipLoop_cons, if_neg hk] at hd
    simp only [hdev] at hd
    exact ⟨d, hd, rfl, rfl, rfl, rfl, rfl⟩
  | case4 h rest st hk dev hdev hif =>
    intro d hd
    rw [ipLoop_cons, if_neg hk] at hd
    simp only [hdev, hif] at hd
    exact ⟨d, hd, rfl, rfl, rfl, rfl, rfl⟩
  | case5 h rest st hk dev hdev iface hif hcr ih =>
    intro d hd
    rw [ipLoop_cons, if_neg hk] at hd
    simp only [hdev, hif, hcr] at hd
    exact ih d hd
  | case6 h rest st hk dev hdev iface hif st1 ipId hcr hfind ih =>
    intro d hd
    rw [ipLoop_cons, if_neg hk] at hd
    simp only [hdev, hif, hcr, hfind] at hd
    obtain ⟨d0, hd0, he⟩ := ih d hd
    have hdev1 : st1.devices = st.devices := by
      unfold createIPAddress at hcr
      by_cases hkey : hasIPKey st (normalizeIPKey h.address) = true
      · simp [hkey] at hcr
      · simp only [hkey, Bool.false_eq_true, if_false, Option.some.injEq,
          Prod.mk.injEq] at hcr
        rw [← hcr.1]
    rw [hdev1] at hd0
    exact ⟨d0, hd0, he⟩
  | case7 h rest st hk dev hdev iface hif st1 ipId hcr dfound hfind st2v ih =>
    intro d hd
    rw [ipLoop_cons, if_neg hk] at hd
    simp only [hdev, hif, hcr, hfind] at hd
    obtain ⟨d0, hd0, he1, he2, he3, he4, he5⟩ := ih d hd
    have hdev1 : st1.devices = st.devices := by
      unfold createIPAddress at hcr
      by_cases hkey : hasIPKey st (normalizeIPKey h.address) = true
      · simp [hkey] at hcr
      · simp only [hkey, Bool.false_eq_true, if_false, Option.some.injEq,
          Prod.mk.injEq] at hcr
        rw [← hcr.1]
    have hprim : ∀ (v4 : Bool), ∀ d0 ∈ (setDevicePrimary st1 dev.id ipId v4).devices,
        ∃ d1 ∈ st.devices, d0.site = d1.site ∧ d0.deviceType = d1.deviceType ∧
          d0.role = d1.role ∧ d0.name = d1.name ∧ d0.id = d1.id := by
      intro v4 d0 hd0
      unfold setDevicePrimary at hd0
      simp only at hd0
      rcases List.mem_map.mp hd0 with ⟨d1, hd1, hde⟩
      rw [hdev1] at hd1
      refine ⟨d1, hd1, ?_⟩
      rw [← hde]
      by_cases hid : d1.id = dev.id <;> cases v4 <;> simp [hid]
    have hd0v : d0 ∈ (if is_ip_v4_address h.address = true then
        setDevicePrimary st1 dev.id ipId true
      else if is_ip_v6_address h.address = true then
        setDevicePrimary st1 dev.id ipId false
      else st1).devices := hd0
    split at hd0v
    · obtain ⟨d1, hd1, f1, f2, f3, f4, f5⟩ := hprim true d0 hd0v
      exact ⟨d1, hd1, he1.trans f1, he2.trans f2, he3.trans f3,
        he4.trans f4, he5.trans f5⟩
    split at hd0v
    · obtain ⟨d1, hd1, f1, f2, f3, f4, f5⟩ := hprim false d0 hd0v
      exact ⟨d1, hd1, he1.trans f1, he2.trans f2, he3.trans f3,
        he4.trans f4, he5.trans f5⟩
    · rw [hdev1] at hd0v
      exact ⟨d0, hd0v, he1, he2, he3, he4, he5⟩

theorem deviceLoopF_devices_rel (reject : String → Bool)
    (sitesD : List (String × SiteRec)) (dtypesD : List (String × DeviceTypeRec))
    (rolesD : List (String × RoleRec)) :
    ∀ (hosts : List HostEntry) (st : Store),
      ∀ d ∈ (deviceLoopF reject sitesD dtypesD rolesD hosts st).devices,
        d ∈ st.devices ∨
        (d.site = (min_hash_value_by_sort SiteRec.id sitesD).map SiteRec.id ∧
         d.deviceType
           = (min_hash_value_by_sort DeviceTypeRec.id dtypesD).map DeviceTypeRec.id ∧
         d.role = (min_hash_value_by_sort RoleRec.id rolesD).map RoleRec.id) := by
  intro hosts
  induction hosts with
  | nil => intro st d hd; exact Or.inl hd
  | cons h hosts ih =>
    intro st d hd
    unfold deviceLoopF at hd ih
    simp only [List.foldl_cons] at hd
    rcases ih (deviceStep reject sitesD dtypesD rolesD st h) d hd with hold | hnew
    · rw [deviceStep_devices_eq] at hold
      split at hold
      · exact Or.inl hold
      · rcases List.mem_append.mp hold with hold | hold
        · exact Or.inl hold
        · simp only [List.mem_singleton] at hold
          subst hold
          exact Or.inr ⟨rfl, rfl, rfl⟩
    · exact Or.inr hnew

/-- C7: a device is never created with a site, device-type, or role
reference to an entity that was not already in the store before the
device-creation stage began: after the net-map stage, every device either
carries the site/type/role references of a device that pre-existed the
stage, or carries filler references that are identifiers of
sites/device-types/roles of the pre-stage store (the collections fetched
by the earlier stages), or no reference at all. -/
theorem device_dependency_ordering (nm : List NetMapItem) (st : Store) :
    ∀ d ∈ (netMapStage (pyDictOf SiteRec.name st.sites)
        (pyDictOf DeviceTypeRec.model st.deviceTypes)
        (pyDictOf RoleRec.name st.roles) nm st).devices,
      (∃ d0 ∈ st.devices, d.site = d0.site ∧ d.deviceType = d0.deviceType ∧
        d.role = d0.role) ∨
      ((∀ sid, d.site = some sid → ∃ s0 ∈ st.sites, s0.id = sid) ∧
       (∀ tid, d.deviceType = some tid → ∃ t0 ∈ st.deviceTypes, t0.id = tid) ∧
       (∀ rid, d.role = some rid → ∃ r0 ∈ st.roles, r0.id = rid)) := by
  intro d hd
  unfold netMapStage at hd
  obtain ⟨d2, hd2, he1, he2, he3, _, _⟩ := ipLoop_devices_rel _ _ _ _ _ d hd
  rcases deviceLoopF_devices_rel (fun _ => false) _ _ _ _ _ d2 hd2
    with hold | ⟨f1, f2, f3⟩
  · rw [prefixLoop_devices] at hold
    exact Or.inl ⟨d2, hold, he1, he2, he3⟩
  · refine Or.inr ⟨?_, ?_, ?_⟩
    · intro sid hsid
      rw [he1, f1] at hsid
      rcases hm : min_hash_value_by_sort SiteRec.id
          (pyDictOf SiteRec.name st.sites) with _ | v
      · rw [hm] at hsid; simp at hsid
      · rw [hm] at hsid
        have hv : SiteRec.id v = sid := by simpa using hsid
        exact ⟨v, minHash_pyDictOf_mem _ _ _ _ hm, hv⟩
    · intro tid htid
      rw [he2, f2] at htid
      rcases hm : min_hash_value_by_sort DeviceTypeRec.id
          (pyDictOf DeviceTypeRec.model st.deviceTypes) with _ | v
      · rw [hm] at htid; simp at htid
      · rw [hm] at htid
        have hv : DeviceTypeRec.id v = tid := by simpa using htid
        exact ⟨v, minHash_pyDictOf_mem _ _ _ _ hm, hv⟩
    · intro rid hrid
      rw [he3, f3] at hrid
      rcases hm : min_hash_value_by_sort RoleRec.id
          (pyDictOf RoleRec.name st.roles) with _ | v
      · rw [hm] at hrid; simp at hrid
      · rw [hm] at hrid
        have hv : RoleRec.id v = rid := by simpa using hrid
        exact ⟨v, minHash_pyDictOf_mem _ _ _ _ hm, hv⟩

/-- Witness for C7 at a concrete store and net map: the device created for
host `h1` references the pre-existing site, device type and role. -/
theorem device_dependency_ordering_witness :
    (⟨5, "h1", some 1, some 2, some 3, some 7, none⟩ : DeviceRec)
      ∈ (netMapStage
        (pyDictOf SiteRec.name [⟨1, "s", "s"⟩])
        (pyDictOf DeviceTypeRec.model [⟨2, "dt", "dt", none⟩])
        (pyDictOf RoleRec.name [⟨3, "r", "r", true, 0⟩])
        [.obj (some "host") (some "h1") (some "10.0.0.5")]
        ⟨[], [], [], [⟨3, "r", "r", true, 0⟩], [⟨2, "dt", "dt", none⟩],
          [⟨1, "s", "s"⟩], [], [], [], [], [], 5⟩).devices ∧
    ((∃ d0 ∈ ([] : List DeviceRec),
        (⟨5, "h1", some 1, some 2, some 3, some 7, none⟩ : DeviceRec).site
          = d0.site ∧
        (⟨5, "h1", some 1, some 2, some 3, some 7,
          none⟩ : DeviceRec).deviceType = d0.deviceType ∧
        (⟨5, "h1", some 1, some 2, some 3, some 7, none⟩ : DeviceRec).role
          = d0.role) ∨
      ((∀ sid, (⟨5, "h1", some 1, some 2, some 3, some 7,
            none⟩ : DeviceRec).site = some sid →
          ∃ s0 ∈ [(⟨1, "s", "s"⟩ : SiteRec)], s0.id = sid) ∧
       (∀ tid, (⟨5, "h1", some 1, some 2, some 3, some 7,
            none⟩ : DeviceRec).deviceType = some tid →
          ∃ t0 ∈ [(⟨2, "dt", "dt", none⟩ : DeviceTypeRec)], t0.id = tid) ∧
       (∀ rid, (⟨5, "h1", some 1, some 2, some 3, some 7,
            none⟩ : DeviceRec).role = some rid →
          ∃ r0 ∈ [(⟨3, "r", "r", true, 0⟩ : RoleRec)], r0.id = rid))) :=
  ⟨by decide,
   device_dependency_ordering
    [.obj (some "host") (some "h1") (some "10.0.0.5")]
    ⟨[], [], [], [⟨3, "r", "r", true, 0⟩], [⟨2, "dt", "dt", none⟩],
      [⟨1, "s", "s"⟩], [], [], [], [], [], 5⟩
    ⟨5, "h1", some 1, some 2, some 3, some 7, none⟩ (by decide)⟩


/-- C6: end-to-end host import.  With a store holding exactly one site,
one device type and one role (and no devices, interfaces or addresses),
importing the net map `[{"type":"host","name":"h1","address":"10.0.0.5"}]`
leaves exactly one device "h1" whose primary IPv4 reference is the created
address record, exactly one interface attached to that device, and exactly
one IP-address record "10.0.0.5/32" assigned to that interface. -/
theorem netmap_host_import (s : SiteRec) (dt : DeviceTypeRec) (r : RoleRec)
    (st : Store) (hs : st.sites = [s]) (hdt : st.deviceTypes = [dt])
    (hr : st.roles = [r]) (hdev : st.devices = []) (hif : st.interfaces = [])
    (hip : st.ipAddresses = []) :
    (netMapStage (pyDictOf SiteRec.name st.sites)
        (pyDictOf DeviceTypeRec.model st.deviceTypes)
        (pyDictOf RoleRec.name st.roles)
        [.obj (some "host") (some "h1") (some "10.0.0.5")] st).devices
      = [⟨st.nextId, "h1", some s.id, some dt.id, some r.id,
          some (st.nextId + 2), none⟩] ∧
    (netMapStage (pyDictOf SiteRec.name st.sites)
        (pyDictOf DeviceTypeRec.model st.deviceTypes)
        (pyDictOf RoleRec.name st.roles)
        [.obj (some "host") (some "h1") (some "10.0.0.5")] st).interfaces
      = [⟨st.nextId + 1, st.nextId, "default", "other", none⟩] ∧
    (netMapStage (pyDictOf SiteRec.name st.sites)
        (pyDictOf DeviceTypeRec.model st.deviceTypes)
        (pyDictOf RoleRec.name st.roles)
        [.obj (some "host") (some "h1") (some "10.0.0.5")] st).ipAddresses
      = [⟨st.nextId + 2, "10.0.0.5/32", st.nextId + 1⟩] := by
  obtain ⟨g, pm, mf, rl, dts, sts, pfx, dvs, ifs, ips, cts, nid⟩ := st
  simp only at hs hdt hr hdev hif hip
  subst hs
  subst hdt
  subst hr
  subst hdev
  subst hif
  subst hip
  have hseg : admittedSegments
      [.obj (some "host") (some "h1") (some "10.0.0.5")] = [] := by decide
  have hhost : admittedHosts
      [.obj (some "host") (some "h1") (some "10.0.0.5")]
      = [⟨"h1", "10.0.0.5"⟩] := by decide
  have hiph : ipAdmittedHosts
      [.obj (some "host") (some "h1") (some "10.0.0.5")]
      = [⟨"h1", "10.0.0.5"⟩] := by decide
  have hip4 : is_ip_address "10.0.0.5" = true := by decide
  have hv4 : is_ip_v4_address "10.0.0.5" = true := by decide
  have happ : ("10.0.0.5" ++ "/32" : String) = "10.0.0.5/32" := by decide
  simp only [netMapStage, hseg, hhost, hiph, prefixLoop, List.foldl_nil]
  simp [deviceLoopF, deviceStep, createDevice, createInterface, hasDevice,
    ipLoop, createIPAddress, setDevicePrimary, hasIPKey, hostKeyOf,
    pyDictOf, pyDictInsert, pyGet, hasKey, min_hash_value_by_sort, pySorted,
    pyInsort, hip4, hv4, happ]
  simp [normalizeIPKey, hv4, happ]


/-- Witness for C6 at a concrete store. -/
theorem netmap_host_import_witness :
    (netMapStage (pyDictOf SiteRec.name [⟨1, "s", "s"⟩])
        (pyDictOf DeviceTypeRec.model [⟨2, "dt", "dt", none⟩])
        (pyDictOf RoleRec.name [⟨3, "r", "r", true, 0⟩])
        [.obj (some "host") (some "h1") (some "10.0.0.5")]
        ⟨[], [], [], [⟨3, "r", "r", true, 0⟩], [⟨2, "dt", "dt", none⟩],
          [⟨1, "s", "s"⟩], [], [], [], [], [], 5⟩).devices
      = [⟨5, "h1", some 1, some 2, some 3, some 7, none⟩] ∧
    (netMapStage (pyDictOf SiteRec.name [⟨1, "s", "s"⟩])
        (pyDictOf DeviceTypeRec.model [⟨2, "dt", "dt", none⟩])
        (pyDictOf RoleRec.name [⟨3, "r", "r", true, 0⟩])
        [.obj (some "host") (some "h1") (some "10.0.0.5")]
        ⟨[], [], [], [⟨3, "r", "r", true, 0⟩], [⟨2, "dt", "dt", none⟩],
          [⟨1, "s", "s"⟩], [], [], [], [], [], 5⟩).interfaces
      = [⟨6, 5, "default", "other", none⟩] ∧
    (netMapStage (pyDictOf SiteRec.name [⟨1, "s", "s"⟩])
        (pyDictOf DeviceTypeRec.model [⟨2, "dt", "dt", none⟩])
        (pyDictOf RoleRec.name [⟨3, "r", "r", true, 0⟩])
        [.obj (some "host") (some "h1") (some "10.0.0.5")]
        ⟨[], [], [], [⟨3, "r", "r", true, 0⟩], [⟨2, "dt", "dt", none⟩],
          [⟨1, "s", "s"⟩], [], [], [], [], [], 5⟩).ipAddresses
      = [⟨7, "10.0.0.5/32", 6⟩] :=
  netmap_host_import ⟨1, "s", "s"⟩ ⟨2, "dt", "dt", none⟩ ⟨3, "r", "r", true, 0⟩
    ⟨[], [], [], [⟨3, "r", "r", true, 0⟩], [⟨2, "dt", "dt", none⟩],
      [⟨1, "s", "s"⟩], [], [], [], [], [], 5⟩ rfl rfl rfl rfl rfl rfl


/-!
## Lemmas: Python dicts
-/

theorem list_any_congr {α : Type} {p q : α → Bool} (l : List α)
    (h : ∀ a ∈ l, p a = q a) : l.any p = l.any q := by
  induction l with
  | nil => rfl
  | cons a l ih =>
    simp only [List.any_cons]
    rw [h a (by simp), ih (fun b hb => h b (by simp [hb]))]

theorem hasKey_pyDictInsert {α β : Type} [DecidableEq α] (d : List (α × β))
    (kk : α) (v : β) (k : α) :
    hasKey (pyDictInsert d kk v) k = (hasKey d k || kk = k) := by
  unfold pyDictInsert hasKey
  by_cases hdup : d.any (fun p => p.1 = kk) = true
  · rw [if_pos hdup]
    have hmap : (d.map (fun p => if p.1 = kk then (kk, v) else p)).any
        (fun p => p.1 = k) = d.any (fun p => p.1 = k) := by
      rw [List.any_map]
      refine list_any_congr d ?_
      intro p _
      by_cases hp : p.1 = kk <;> simp [Function.comp, hp]
    rw [hmap]
    by_cases hk : kk = k
    · subst hk
      simp [hdup]
    · simp [hk]
  · rw [if_neg hdup]
    simp [List.any_append]

theorem hasKey_pyDictOf {α β : Type} [DecidableEq α] (key : β → α)
    (l : List β) (k : α) :
    hasKey (pyDictOf key l) k = l.any (fun b => key b = k) := by
  unfold pyDictOf
  suffices h : ∀ acc : List (α × β),
      hasKey (l.foldl (fun d r => pyDictInsert d (key r) r) acc) k
        = (hasKey acc k || l.any (fun b => key b = k)) by
    rw [h []]
    simp [hasKey]
  induction l with
  | nil => intro acc; simp
  | cons b l ih =>
    intro acc
    simp only [List.foldl_cons, List.any_cons]
    rw [ih, hasKey_pyDictInsert]
    by_cases hb : key b = k <;> simp [hb, Bool.or_comm, Bool.or_assoc]

theorem pyGet_isSome {α β : Type} [DecidableEq α] (d : List (α × β)) (k : α) :
    (pyGet d k).isSome = hasKey d k := by
  unfold pyGet hasKey
  induction d with
  | nil => simp
  | cons p d ih =>
    by_cases hp : p.1 = k
    · simp [List.find?_cons, hp]
    · simpa [List.find?_cons, hp] using ih

theorem pyGet_eq_none {α β : Type} [DecidableEq α] (d : List (α × β)) (k : α)
    (h : hasKey d k = false) : pyGet d k = none := by
  have := pyGet_isSome d k
  rw [h] at this
  exact Option.not_isSome_iff_eq_none.mp (by simp [this])

theorem pyGet_isSome_of_hasKey {α β : Type} [DecidableEq α]
    (d : List (α × β)) (k : α) (h : hasKey d k = true) :
    ∃ v, pyGet d k = some v := by
  have := pyGet_isSome d k
  rw [h] at this
  exact Option.isSome_iff_exists.mp this

theorem find?_map_snd {α β : Type} [DecidableEq α] (f : β → β)
    (d : List (α × β)) (k : α) :
    (d.map (fun p => (p.1, f p.2))).find? (fun p => p.1 = k)
      = (d.find? (fun p => p.1 = k)).map (fun p => (p.1, f p.2)) := by
  induction d with
  | nil => simp
  | cons p d ih =>
    by_cases hp : p.1 = k
    · simp [List.find?_cons, hp]
    · simp only [List.map_cons, List.find?_cons, decide_eq_false hp]
      exact ih

theorem pyDictInsert_map_snd {α β : Type} [DecidableEq α] (f : β → β)
    (d : List (α × β)) (kk : α) (v : β) :
    pyDictInsert (d.map (fun p => (p.1, f p.2))) kk (f v)
      = (pyDictInsert d kk v).map (fun p => (p.1, f p.2)) := by
  unfold pyDictInsert
  have hany : (d.map (fun p => (p.1, f p.2))).any (fun p => p.1 = kk)
      = d.any (fun p => p.1 = kk) := by
    rw [List.any_map]
    refine list_any_congr d ?_
    intro p _
    rfl
  rw [hany]
  by_cases hdup : d.any (fun p => p.1 = kk) = true
  · rw [if_pos hdup, if_pos hdup]
    rw [List.map_map, List.map_map]
    apply List.map_congr_left
    intro p _
    by_cases hp : p.1 = kk <;> simp [hp]
  · rw [if_neg hdup, if_neg hdup]
    simp

theorem pyDictOf_map {α β : Type} [DecidableEq α] (key : β → α) (f : β → β)
    (hf : ∀ b, key (f b) = key b) (l : List β) :
    pyDictOf key (l.map f) = (pyDictOf key l).map (fun p => (p.1, f p.2)) := by
  unfold pyDictOf
  suffices h : ∀ acc : List (α × β),
      (l.map f).foldl (fun d r => pyDictInsert d (key r) r)
          (acc.map (fun p => (p.1, f p.2)))
        = (l.foldl (fun d r => pyDictInsert d (key r) r) acc).map
            (fun p => (p.1, f p.2)) by
    have := h []
    simpa using this
  induction l with
  | nil => intro acc; simp
  | cons b l ih =>
    intro acc
    simp only [List.map_cons, List.foldl_cons]
    rw [hf b, pyDictInsert_map_snd f acc (key b) b]
    exact ih (pyDictInsert acc (key b) b)

theorem pyGet_map_snd {α β : Type} [DecidableEq α] (f : β → β)
    (d : List (α × β)) (k : α) :
    pyGet (d.map (fun p => (p.1, f p.2))) k = (pyGet d k).map f := by
  unfold pyGet
  rw [find?_map_snd]
  cases d.find? (fun p => p.1 = k) <;> rfl


/-!
## Lemmas: generic stage folds
-/

theorem foldl_proj {α β : Type} (proj : Store → β) (f : Store → α → Store)
    (hf : ∀ s a, proj (f s a) = proj s) :
    ∀ (l : List α) (s : Store), proj (l.foldl f s) = proj s := by
  intro l
  induction l with
  | nil => intro s; rfl
  | cons a l ih =>
    intro s
    simp only [List.foldl_cons]
    rw [ih, hf]

theorem foldl_pres {α : Type} (P : Store → Bool) (f : Store → α → Store)
    (hf : ∀ s a, P s = true → P (f s a) = true) :
    ∀ (l : List α) (s : Store), P s = true → P (l.foldl f s) = true := by
  intro l
  induction l with
  | nil => intro s h; exact h
  | cons a l ih =>
    intro s h
    simp only [List.foldl_cons]
    exact ih _ (hf s a h)

theorem foldl_establish {α : Type} (P : α → Store → Bool) (f : Store → α → Store)
    (hself : ∀ s a, P a (f s a) = true)
    (hpres : ∀ s a b, P b s = true → P b (f s a) = true) :
    ∀ (l : List α) (s : Store) (a : α), a ∈ l → P a (l.foldl f s) = true := by
  intro l
  induction l with
  | nil => intro s a ha; simp at ha
  | cons b l ih =>
    intro s a ha
    simp only [List.foldl_cons]
    rcases List.mem_cons.mp ha with ha | ha
    · subst ha
      exact foldl_pres (P a) f (fun s c => hpres s c a) l _ (hself s a)
    · exact ih _ a ha

theorem filter_nil_of_false {α : Type} (p : α → Bool) (l : List α)
    (h : ∀ a ∈ l, p a = false) : l.filter p = [] := by
  induction l with
  | nil => rfl
  | cons a l ih =>
    rw [List.filter_cons, if_neg (by simp [h a (by simp)])]
    exact ih (fun b hb => h b (by simp [hb]))

/-! ## Lemmas: the simple create-if-missing stages -/

theorem hasGroup_createGroup_self (s : Store) (n : String) :
    hasGroup (createGroup s n) n = true := by
  unfold createGroup
  split
  · assumption
  · unfold hasGroup; simp

theorem hasGroup_createGroup (s : Store) (n m : String)
    (h : hasGroup s n = true) : hasGroup (createGroup s m) n = true := by
  unfold createGroup
  split
  · exact h
  · unfold hasGroup at h ⊢
    simp only [List.any_append, h, Bool.true_or]

theorem groupsStage_post (cfg : Config) (st : Store) :
    ∀ n ∈ [cfg.staffGroupName, cfg.defaultGroupName],
      hasGroup (groupsStage cfg st) n = true := by
  intro n hn
  unfold groupsStage
  by_cases hmem : n ∈ [cfg.staffGroupName, cfg.defaultGroupName].filter
      (fun m => ¬ hasKey (pyDictOf GroupRec.name st.groups) m)
  · exact foldl_establish (fun m s => hasGroup s m) createGroup
      hasGroup_createGroup_self (fun s a b => hasGroup_createGroup s b a)
      _ st n hmem
  · have hkey : hasKey (pyDictOf GroupRec.name st.groups) n = true := by
      by_cases hk : hasKey (pyDictOf GroupRec.name st.groups) n = true
      · exact hk
      · exact absurd (List.mem_filter.mpr ⟨hn, by simp [hk]⟩) hmem
    rw [hasKey_pyDictOf] at hkey
    exact foldl_pres (fun s => hasGroup s n) createGroup
      (fun s a => hasGroup_createGroup s n a) _ st hkey

theorem groupsStage_noop (cfg : Config) (st : Store)
    (h : ∀ n ∈ [cfg.staffGroupName, cfg.defaultGroupName],
      hasGroup st n = true) : groupsStage cfg st = st := by
  have hfil : List.filter
      (fun n => decide (¬ hasKey (pyDictOf GroupRec.name st.groups) n = true))
      [cfg.staffGroupName, cfg.defaultGroupName] = [] := by
    apply filter_nil_of_false
    intro n hn
    have h2 := h n hn
    unfold hasGroup at h2
    simp [hasKey_pyDictOf, h2]
  simp only [groupsStage, hfil, List.foldl_nil]

theorem groupsStage_proj (cfg : Config) (st : Store) :
    (groupsStage cfg st).permissions = st.permissions ∧
    (groupsStage cfg st).manufacturers = st.manufacturers ∧
    (groupsStage cfg st).roles = st.roles ∧
    (groupsStage cfg st).deviceTypes = st.deviceTypes ∧
    (groupsStage cfg st).sites = st.sites ∧
    (groupsStage cfg st).prefixes = st.prefixes ∧
    (groupsStage cfg st).devices = st.devices ∧
    (groupsStage cfg st).interfaces = st.interfaces ∧
    (groupsStage cfg st).ipAddresses = st.ipAddresses ∧
    (groupsStage cfg st).contentTypes = st.contentTypes := by
  unfold groupsStage
  refine ⟨?_, ?_, ?_, ?_, ?_, ?_, ?_, ?_, ?_, ?_⟩ <;>
    exact foldl_proj _ createGroup
      (fun s a => by unfold createGroup; split <;> rfl) _ st


/-! ## Lemmas: the permissions stage -/

theorem hasPerm_createPermission_self (s : Store) (n : String) (e : Bool)
    (g : List Nat) (a o : List String) :
    hasPerm (createPermission s n e g a o) n = true := by
  unfold createPermission
  split
  · assumption
  · unfold hasPerm; simp

theorem hasPerm_createPermission (s : Store) (n m : String) (e : Bool)
    (g : List Nat) (a o : List String) (h : hasPerm s n = true) :
    hasPerm (createPermission s m e g a o) n = true := by
  unfold createPermission
  split
  · exact h
  · unfold hasPerm at h ⊢
    simp only [List.any_append, h, Bool.true_or]

theorem permLoop_pres (groupsD : List (String × GroupRec)) (cts : List String) :
    ∀ (pcs : List PermCfg) (st : Store) (n : String), hasPerm st n = true →
      hasPerm (permLoop groupsD cts pcs st) n = true := by
  intro pcs
  induction pcs with
  | nil => intro st n h; exact h
  | cons pc rest ih =>
    intro st n h
    simp only [permLoop]
    cases hm : pc.groups.mapM (fun g => (pyGet groupsD g).map GroupRec.id) with
    | none => exact h
    | some gids => exact ih _ n (hasPerm_createPermission _ _ _ _ _ _ _ h)

theorem permLoop_mem (groupsD : List (String × GroupRec)) (cts : List String) :
    ∀ (pcs : List PermCfg) (st : Store) (pc : PermCfg), pc ∈ pcs →
      (∀ pc2 ∈ pcs, (pc2.groups.mapM
        (fun g => (pyGet groupsD g).map GroupRec.id)).isSome = true) →
      hasPerm (permLoop groupsD cts pcs st) pc.name = true := by
  intro pcs
  induction pcs with
  | nil => intro st pc hm; simp at hm
  | cons pc0 rest ih =>
    intro st pc hm hall
    obtain ⟨gids, hg⟩ := Option.isSome_iff_exists.mp (hall pc0 (by simp))
    simp only [permLoop, hg]
    rcases List.mem_cons.mp hm with hm | hm
    · subst hm
      exact permLoop_pres groupsD cts rest _ pc.name
        (hasPerm_createPermission_self _ _ _ _ _ _)
    · exact ih _ pc hm (fun pc2 h2 => hall pc2 (by simp [h2]))

theorem permLoop_proj {β : Type} (proj : Store → β)
    (hcp : ∀ s n e g a o, proj (createPermission s n e g a o) = proj s)
    (groupsD : List (String × GroupRec)) (cts : List String) :
    ∀ (pcs : List PermCfg) (st : Store),
      proj (permLoop groupsD cts pcs st) = proj st := by
  intro pcs
  induction pcs with
  | nil => intro st; rfl
  | cons pc rest ih =>
    intro st
    simp only [permLoop]
    cases hm : pc.groups.mapM (fun g => (pyGet groupsD g).map GroupRec.id) with
    | none => rfl
    | some gids => rw [ih, hcp]

theorem mapM_isSome_of {α β : Type} (f : α → Option β) :
    ∀ (l : List α), (∀ a ∈ l, (f a).isSome = true) →
      (l.mapM f).isSome = true := by
  intro l
  induction l with
  | nil => intro h; rfl
  | cons a l ih =>
    intro h
    obtain ⟨b, hb⟩ := Option.isSome_iff_exists.mp (h a (by simp))
    obtain ⟨bs, hbs⟩ := Option.isSome_iff_exists.mp
      (ih (fun a2 h2 => h a2 (by simp [h2])))
    rw [List.mapM_cons, hb, hbs]
    rfl

theorem defaultPermissionsDict_vals (cfg : Config) :
    ∀ p ∈ defaultPermissionsDict cfg,
      p.2 = staffPermCfg cfg ∨ p.2 = defaultPermCfg cfg := by
  intro p hp
  unfold defaultPermissionsDict at hp
  by_cases hnn : (staffPermCfg cfg).name = (defaultPermCfg cfg).name <;>
    simp [pyDictInsert, hnn] at hp
  · rw [hp]
    exact Or.inr rfl
  · rcases hp with hp | hp <;> rw [hp]
    · exact Or.inl rfl
    · exact Or.inr rfl

theorem permissionsStage_post (cfg : Config)
    (groupsD : List (String × GroupRec)) (st : Store)
    (hg : ∀ p ∈ defaultPermissionsDict cfg, ∀ g ∈ p.2.groups,
      hasKey groupsD g = true) :
    ∀ p ∈ defaultPermissionsDict cfg, p.2.name ≠ "" →
      hasPerm (permissionsStage cfg groupsD st) p.2.name = true := by
  intro p hp hne
  unfold permissionsStage
  by_cases hmem : p ∈ (defaultPermissionsDict cfg).filter
      (fun q => q.2.name ≠ "" ∧
        ¬ hasKey (pyDictOf PermRec.name st.permissions) q.2.name)
  · apply permLoop_mem groupsD st.contentTypes _ st p.2
      (List.mem_map.mpr ⟨p, hmem, rfl⟩)
    intro pc2 h2
    rcases List.mem_map.mp h2 with ⟨q, hq, rfl⟩
    apply mapM_isSome_of
    intro g hgm
    have hk := hg q (List.mem_filter.mp hq).1 g hgm
    obtain ⟨v, hv⟩ := pyGet_isSome_of_hasKey groupsD g hk
    rw [hv]
    rfl
  · have hkey : hasKey (pyDictOf PermRec.name st.permissions) p.2.name = true := by
      by_cases hk : hasKey (pyDictOf PermRec.name st.permissions) p.2.name = true
      · exact hk
      · exact absurd (List.mem_filter.mpr ⟨hp, by simp [hne, hk]⟩) hmem
    rw [hasKey_pyDictOf] at hkey
    exact permLoop_pres groupsD st.contentTypes _ st p.2.name hkey

theorem permissionsStage_noop (cfg : Config)
    (groupsD : List (String × GroupRec)) (st : Store)
    (h : ∀ p ∈ defaultPermissionsDict cfg, p.2.name ≠ "" →
      hasPerm st p.2.name = true) :
    permissionsStage cfg groupsD st = st := by
  have hfil : (defaultPermissionsDict cfg).filter
      (fun q => decide (q.2.name ≠ "" ∧
        ¬ hasKey (pyDictOf PermRec.name st.permissions) q.2.name = true)) = [] := by
    apply filter_nil_of_false
    intro p hp
    by_cases hne : p.2.name = ""
    · simp [hne]
    · have h2 : st.permissions.any (fun r => r.name = p.2.name) = true :=
        h p hp hne
      simp [hasKey_pyDictOf, h2]
  simp only [permissionsStage, hfil, List.map_nil]
  rfl

theorem permissionsStage_proj (cfg : Config)
    (groupsD : List (String × GroupRec)) (st : Store) :
    (permissionsStage cfg groupsD st).groups = st.groups ∧
    (permissionsStage cfg groupsD st).manufacturers = st.manufacturers ∧
    (permissionsStage cfg groupsD st).roles = st.roles ∧
    (permissionsStage cfg groupsD st).deviceTypes = st.deviceTypes ∧
    (permissionsStage cfg groupsD st).sites = st.sites ∧
    (permissionsStage cfg groupsD st).prefixes = st.prefixes ∧
    (permissionsStage cfg groupsD st).devices = st.devices ∧
    (permissionsStage cfg groupsD st).interfaces = st.interfaces ∧
    (permissionsStage cfg groupsD st).ipAddresses = st.ipAddresses ∧
    (permissionsStage cfg groupsD st).contentTypes = st.contentTypes := by
  unfold permissionsStage
  refine ⟨?_, ?_, ?_, ?_, ?_, ?_, ?_, ?_, ?_, ?_⟩ <;>
    exact permLoop_proj _
      (fun s n e g a o => by unfold createPermission; split <;> rfl)
      groupsD st.contentTypes _ st


/-! ## Lemmas: manufacturers, roles, device-types and sites stages -/

theorem manufacturersStage_post (cfg : Config) (st : Store) :
    ∀ n ∈ cfg.manufacturers,
      hasManufacturer (manufacturersStage cfg st) n = true := by
  intro n hn
  unfold manufacturersStage manufacturersStageF
  by_cases hmem : n ∈ missingManufacturers cfg st
  · exact manufacturersFold_mem _ _ st n hmem rfl
  · have hman : hasManufacturer st n = true := by
      by_cases hk : hasManufacturer st n = true
      · exact hk
      · exfalso
        apply hmem
        unfold missingManufacturers
        apply List.mem_filter.mpr
        refine ⟨hn, ?_⟩
        simp only [hasKey_pyDictOf, decide_eq_true_eq]
        exact fun hc => hk hc
    exact manufacturersFold_preserves _ _ st n hman

theorem manufacturersStage_noop (cfg : Config) (st : Store)
    (h : ∀ n ∈ cfg.manufacturers, hasManufacturer st n = true) :
    manufacturersStage cfg st = st := by
  have hfil : missingManufacturers cfg st = [] := by
    unfold missingManufacturers
    apply filter_nil_of_false
    intro n hn
    have h2 : st.manufacturers.any (fun r => r.name = n) = true := h n hn
    simp [hasKey_pyDictOf, h2]
  unfold manufacturersStage manufacturersStageF
  rw [hfil]
  rfl

theorem manufacturersStageF_proj (reject : String → Bool) (cfg : Config)
    (st : Store) :
    (manufacturersStageF reject cfg st).groups = st.groups ∧
    (manufacturersStageF reject cfg st).permissions = st.permissions ∧
    (manufacturersStageF reject cfg st).roles = st.roles ∧
    (manufacturersStageF reject cfg st).deviceTypes = st.deviceTypes ∧
    (manufacturersStageF reject cfg st).sites = st.sites ∧
    (manufacturersStageF reject cfg st).prefixes = st.prefixes ∧
    (manufacturersStageF reject cfg st).devices = st.devices ∧
    (manufacturersStageF reject cfg st).interfaces = st.interfaces ∧
    (manufacturersStageF reject cfg st).ipAddresses = st.ipAddresses ∧
    (manufacturersStageF reject cfg st).contentTypes = st.contentTypes := by
  unfold manufacturersStageF
  refine ⟨?_, ?_, ?_, ?_, ?_, ?_, ?_, ?_, ?_, ?_⟩ <;>
    exact foldl_proj _ _
      (fun s a => by
        by_cases hr : reject a = true
        · simp only [hr, if_true]
        · simp only [hr, Bool.false_eq_true, if_false]
          unfold createManufacturer; split <;> rfl) _ st

theorem hasRole_createRole_self (s : Store) (cfg : Config) (n : String) :
    hasRole (createRole s cfg n) n = true := by
  unfold createRole
  split
  · assumption
  · unfold hasRole; simp

theorem hasRole_createRole (s : Store) (cfg : Config) (n m : String)
    (h : hasRole s n = true) : hasRole (createRole s cfg m) n = true := by
  unfold createRole
  split
  · exact h
  · unfold hasRole at h ⊢
    simp only [List.any_append, h, Bool.true_or]

theorem rolesStage_post (cfg : Config) (st : Store) :
    ∀ n ∈ cfg.roles, hasRole (rolesStage cfg st) n = true := by
  intro n hn
  unfold rolesStage
  by_cases hmem : n ∈ cfg.roles.filter
      (fun m => ¬ hasKey (pyDictOf RoleRec.name st.roles) m)
  · exact foldl_establish (fun m s => hasRole s m)
      (fun s n => createRole s cfg n)
      (fun s a => hasRole_createRole_self s cfg a)
      (fun s a b => hasRole_createRole s cfg b a)
      _ st n hmem
  · have hkey : hasKey (pyDictOf RoleRec.name st.roles) n = true := by
      by_cases hk : hasKey (pyDictOf RoleRec.name st.roles) n = true
      · exact hk
      · exact absurd (List.mem_filter.mpr ⟨hn, by simp [hk]⟩) hmem
    rw [hasKey_pyDictOf] at hkey
    exact foldl_pres (fun s => hasRole s n) (fun s n => createRole s cfg n)
      (fun s a => hasRole_createRole s cfg n a) _ st hkey

theorem rolesStage_noop (cfg : Config) (st : Store)
    (h : ∀ n ∈ cfg.roles, hasRole st n = true) : rolesStage cfg st = st := by
  have hfil : List.filter
      (fun n => decide (¬ hasKey (pyDictOf RoleRec.name st.roles) n = true))
      cfg.roles = [] := by
    apply filter_nil_of_false
    intro n hn
    have h2 : st.roles.any (fun r => r.name = n) = true := h n hn
    simp [hasKey_pyDictOf, h2]
  simp only [rolesStage, hfil, List.foldl_nil]

theorem rolesStage_proj (cfg : Config) (st : Store) :
    (rolesStage cfg st).groups = st.groups ∧
    (rolesStage cfg st).permissions = st.permissions ∧
    (rolesStage cfg st).manufacturers = st.manufacturers ∧
    (rolesStage cfg st).deviceTypes = st.deviceTypes ∧
    (rolesStage cfg st).sites = st.sites ∧
    (rolesStage cfg st).prefixes = st.prefixes ∧
    (rolesStage cfg st).devices = st.devices ∧
    (rolesStage cfg st).interfaces = st.interfaces ∧
    (rolesStage cfg st).ipAddresses = st.ipAddresses ∧
    (rolesStage cfg st).contentTypes = st.contentTypes := by
  unfold rolesStage
  refine ⟨?_, ?_, ?_, ?_, ?_, ?_, ?_, ?_, ?_, ?_⟩ <;>
    exact foldl_proj _ _
      (fun s a => by unfold createRole; split <;> rfl) _ st

theorem hasDeviceType_createDeviceType_self (s : Store) (m : String)
    (mf : Option Nat) : hasDeviceType (createDeviceType s m mf) m = true := by
  unfold createDeviceType
  split
  · assumption
  · unfold hasDeviceType; simp

theorem hasDeviceType_createDeviceType (s : Store) (n m : String)
    (mf : Option Nat) (h : hasDeviceType s n = true) :
    hasDeviceType (createDeviceType s m mf) n = true := by
  unfold createDeviceType
  split
  · exact h
  · unfold hasDeviceType at h ⊢
    simp only [List.any_append, h, Bool.true_or]

theorem deviceTypesStage_post (cfg : Config)
    (manufacturersD : List (String × ManufacturerRec)) (st : Store) :
    ∀ m ∈ cfg.deviceTypes,
      hasDeviceType (deviceTypesStage cfg manufacturersD st) m = true := by
  intro n hn
  unfold deviceTypesStage
  by_cases hmem : n ∈ cfg.deviceTypes.filter
      (fun m => ¬ hasKey (pyDictOf DeviceTypeRec.model st.deviceTypes) m)
  · exact foldl_establish (fun m s => hasDeviceType s m)
      (fun s m => createDeviceType s m
        ((min_hash_value_by_sort ManufacturerRec.id manufacturersD).map
          ManufacturerRec.id))
      (fun s a => hasDeviceType_createDeviceType_self s a _)
      (fun s a b => hasDeviceType_createDeviceType s b a _)
      _ st n hmem
  · have hkey : hasKey (pyDictOf DeviceTypeRec.model st.deviceTypes) n = true := by
      by_cases hk : hasKey (pyDictOf DeviceTypeRec.model st.deviceTypes) n = true
      · exact hk
      · exact absurd (List.mem_filter.mpr ⟨hn, by simp [hk]⟩) hmem
    rw [hasKey_pyDictOf] at hkey
    exact foldl_pres (fun s => hasDeviceType s n)
      (fun s m => createDeviceType s m
        ((min_hash_value_by_sort ManufacturerRec.id manufacturersD).map
          ManufacturerRec.id))
      (fun s a => hasDeviceType_createDeviceType s n a _) _ st hkey

theorem deviceTypesStage_noop (cfg : Config)
    (manufacturersD : List (String × ManufacturerRec)) (st : Store)
    (h : ∀ m ∈ cfg.deviceTypes, hasDeviceType st m = true) :
    deviceTypesStage cfg manufacturersD st = st := by
  have hfil : List.filter
      (fun m => decide
        (¬ hasKey (pyDictOf DeviceTypeRec.model st.deviceTypes) m = true))
      cfg.deviceTypes = [] := by
    apply filter_nil_of_false
    intro m hm
    have h2 : st.deviceTypes.any (fun r => r.model = m) = true := h m hm
    simp [hasKey_pyDictOf, h2]
  simp only [deviceTypesStage, hfil, List.foldl_nil]

theorem deviceTypesStage_proj (cfg : Config)
    (manufacturersD : List (String × ManufacturerRec)) (st : Store) :
    (deviceTypesStage cfg manufacturersD st).groups = st.groups ∧
    (deviceTypesStage cfg manufacturersD st).permissions = st.permissions ∧
    (deviceTypesStage cfg manufacturersD st).manufacturers = st.manufacturers ∧
    (deviceTypesStage cfg manufacturersD st).roles = st.roles ∧
    (deviceTypesStage cfg manufacturersD st).sites = st.sites ∧
    (deviceTypesStage cfg manufacturersD st).prefixes = st.prefixes ∧
    (deviceTypesStage cfg manufacturersD st).devices = st.devices ∧
    (deviceTypesStage cfg manufacturersD st).interfaces = st.interfaces ∧
    (deviceTypesStage cfg manufacturersD st).ipAddresses = st.ipAddresses ∧
    (deviceTypesStage cfg manufacturersD st).contentTypes = st.contentTypes := by
  unfold deviceTypesStage
  refine ⟨?_, ?_, ?_, ?_, ?_, ?_, ?_, ?_, ?_, ?_⟩ <;>
    exact foldl_proj _ _
      (fun s a => by unfold createDeviceType; split <;> rfl) _ st

theorem hasSite_createSite_self (s : Store) (n : String) :
    hasSite (createSite s n) n = true := by
  unfold createSite
  split
  · assumption
  · unfold hasSite; simp

theorem hasSite_createSite (s : Store) (n m : String)
    (h : hasSite s n = true) : hasSite (createSite s m) n = true := by
  unfold createSite
  split
  · exact h
  · unfold hasSite at h ⊢
    simp only [List.any_append, h, Bool.true_or]

theorem sitesStage_post (cfg : Config) (st : Store) :
    ∀ n ∈ cfg.netboxSites, hasSite (sitesStage cfg st) n = true := by
  intro n hn
  unfold sitesStage
  by_cases hmem : n ∈ cfg.netboxSites.filter
      (fun m => ¬ hasKey (pyDictOf SiteRec.name st.sites) m)
  · exact foldl_establish (fun m s => hasSite s m) createSite
      hasSite_createSite_self (fun s a b => hasSite_createSite s b a)
      _ st n hmem
  · have hkey : hasKey (pyDictOf SiteRec.name st.sites) n = true := by
      by_cases hk : hasKey (pyDictOf SiteRec.name st.sites) n = true
      · exact hk
      · exact absurd (List.mem_filter.mpr ⟨hn, by simp [hk]⟩) hmem
    rw [hasKey_pyDictOf] at hkey
    exact foldl_pres (fun s => hasSite s n) createSite
      (fun s a => hasSite_createSite s n a) _ st hkey

theorem sitesStage_noop (cfg : Config) (st : Store)
    (h : ∀ n ∈ cfg.netboxSites, hasSite st n = true) :
    sitesStage cfg st = st := by
  have hfil : List.filter
      (fun n => decide (¬ hasKey (pyDictOf SiteRec.name st.sites) n = true))
      cfg.netboxSites = [] := by
    apply filter_nil_of_false
    intro n hn
    have h2 : st.sites.any (fun r => r.name = n) = true := h n hn
    simp [hasKey_pyDictOf, h2]
  simp only [sitesStage, hfil, List.foldl_nil]

theorem sitesStage_proj (cfg : Config) (st : Store) :
    (sitesStage cfg st).groups = st.groups ∧
    (sitesStage cfg st).permissions = st.permissions ∧
    (sitesStage cfg st).manufacturers = st.manufacturers ∧
    (sitesStage cfg st).roles = st.roles ∧
    (sitesStage cfg st).deviceTypes = st.deviceTypes ∧
    (sitesStage cfg st).prefixes = st.prefixes ∧
    (sitesStage cfg st).devices = st.devices ∧
    (sitesStage cfg st).interfaces = st.interfaces ∧
    (sitesStage cfg st).ipAddresses = st.ipAddresses ∧
    (sitesStage cfg st).contentTypes = st.contentTypes := by
  unfold sitesStage
  refine ⟨?_, ?_, ?_, ?_, ?_, ?_, ?_, ?_, ?_, ?_⟩ <;>
    exact foldl_proj _ createSite
      (fun s a => by unfold createSite; split <;> rfl) _ st


/-! ## Lemmas: the prefix loop and the VRF-description migration -/

theorem createPrefixRec_noop (s : Store) (cidr : String) (site : Option Nat)
    (desc : String) (h : hasPrefixKey s cidr = true) :
    createPrefixRec s cidr site desc = s := by
  unfold createPrefixRec
  rw [if_pos h]

theorem hasPrefixKey_createPrefixRec_self (s : Store) (cidr : String)
    (site : Option Nat) (desc : String) :
    hasPrefixKey (createPrefixRec s cidr site desc) cidr = true := by
  unfold createPrefixRec
  split
  · assumption
  · unfold hasPrefixKey; simp

theorem hasPrefixKey_createPrefixRec (s : Store) (c c2 : String)
    (site : Option Nat) (desc : String) (h : hasPrefixKey s c = true) :
    hasPrefixKey (createPrefixRec s c2 site desc) c = true := by
  unfold createPrefixRec
  split
  · exact h
  · unfold hasPrefixKey at h ⊢
    simp only [List.any_append, h, Bool.true_or]

theorem prefixLoop_post (sitesD : List (String × SiteRec))
    (segs : List Segment) (st : Store) :
    ∀ seg ∈ segs, hasPrefixKey (prefixLoop sitesD segs st) seg.address = true := by
  intro seg hseg
  unfold prefixLoop
  exact foldl_establish (fun sg s => hasPrefixKey s sg.address)
    (fun s sg => createPrefixRec s sg.address
      ((min_hash_value_by_sort SiteRec.id sitesD).map SiteRec.id) sg.name)
    (fun s a => hasPrefixKey_createPrefixRec_self s a.address _ _)
    (fun s a b => hasPrefixKey_createPrefixRec s b.address a.address _ _)
    segs st seg hseg

theorem prefixLoop_noop (sitesD : List (String × SiteRec)) :
    ∀ (segs : List Segment) (st : Store),
      (∀ seg ∈ segs, hasPrefixKey st seg.address = true) →
      prefixLoop sitesD segs st = st := by
  intro segs
  induction segs with
  | nil => intro st _; rfl
  | cons seg segs ih =>
    intro st h
    unfold prefixLoop at ih ⊢
    simp only [List.foldl_cons]
    rw [createPrefixRec_noop st seg.address _ _ (h seg (by simp))]
    exact ih st (fun sg hsg => h sg (by simp [hsg]))

theorem prefixLoop_proj (sitesD : List (String × SiteRec))
    (segs : List Segment) (st : Store) :
    (prefixLoop sitesD segs st).groups = st.groups ∧
    (prefixLoop sitesD segs st).permissions = st.permissions ∧
    (prefixLoop sitesD segs st).manufacturers = st.manufacturers ∧
    (prefixLoop sitesD segs st).roles = st.roles ∧
    (prefixLoop sitesD segs st).deviceTypes = st.deviceTypes ∧
    (prefixLoop sitesD segs st).sites = st.sites ∧
    (prefixLoop sitesD segs st).devices = st.devices ∧
    (prefixLoop sitesD segs st).interfaces = st.interfaces ∧
    (prefixLoop sitesD segs st).ipAddresses = st.ipAddresses ∧
    (prefixLoop sitesD segs st).contentTypes = st.contentTypes := by
  unfold prefixLoop
  refine ⟨?_, ?_, ?_, ?_, ?_, ?_, ?_, ?_, ?_, ?_⟩ <;>
    exact foldl_proj _ _
      (fun s a => by unfold createPrefixRec; split <;> rfl) _ st

theorem vrfMigrationStage_proj (st : Store) :
    (vrfMigrationStage st).groups = st.groups ∧
    (vrfMigrationStage st).permissions = st.permissions ∧
    (vrfMigrationStage st).manufacturers = st.manufacturers ∧
    (vrfMigrationStage st).roles = st.roles ∧
    (vrfMigrationStage st).deviceTypes = st.deviceTypes ∧
    (vrfMigrationStage st).sites = st.sites ∧
    (vrfMigrationStage st).devices = st.devices ∧
    (vrfMigrationStage st).interfaces = st.interfaces ∧
    (vrfMigrationStage st).ipAddresses = st.ipAddresses ∧
    (vrfMigrationStage st).contentTypes = st.contentTypes := by
  unfold vrfMigrationStage
  exact ⟨rfl, rfl, rfl, rfl, rfl, rfl, rfl, rfl, rfl, rfl⟩

theorem hasPrefixKey_vrfMigrationStage (st : Store) (c : String) :
    hasPrefixKey (vrfMigrationStage st) c = hasPrefixKey st c := by
  unfold hasPrefixKey vrfMigrationStage
  simp only [List.any_map]
  apply list_any_congr
  intro p _
  simp only [Function.comp]
  split <;> rfl

theorem vrfMigrationStage_idem (st : Store) :
    vrfMigrationStage (vrfMigrationStage st) = vrfMigrationStage st := by
  obtain ⟨g, pm, mf, rl, dts, sts, pfx, dvs, ifs, ips, cts, nid⟩ := st
  simp only [vrfMigrationStage, List.map_map, Store.mk.injEq, true_and,
    and_true]
  apply List.map_congr_left
  intro p _
  simp only [Function.comp]
  by_cases hc : p.description = "" ∧ p.vrf.isSome = true
  · rw [if_pos hc]
    by_cases hc2 : p.vrf.getD "" = ""
    · rw [if_pos ⟨hc2, hc.2⟩]
    · rw [if_neg (fun hcon => hc2 hcon.1)]
  · rw [if_neg hc, if_neg hc]


/-! ## Lemmas: store-component tracking through the net-map stage -/

theorem createIPAddress_eq (st : Store) (a : String) (i : Nat)
    (st1 : Store) (ipId : Nat)
    (h : createIPAddress st a i = some (st1, ipId)) :
    st1 = { st with
      ipAddresses := st.ipAddresses ++ [⟨st.nextId, normalizeIPKey a, i⟩],
      nextId := st.nextId + 1 } ∧ ipId = st.nextId ∧
    hasIPKey st (normalizeIPKey a) = false := by
  unfold createIPAddress at h
  by_cases hk : hasIPKey st (normalizeIPKey a) = true
  · simp [hk] at h
  · simp only [hk, Bool.false_eq_true, if_false, Option.some.injEq,
      Prod.mk.injEq] at h
    exact ⟨h.1.symm, h.2.symm, by simp [hk]⟩

theorem createIPAddress_none (st : Store) (a : String) (i : Nat)
    (h : createIPAddress st a i = none) :
    hasIPKey st (normalizeIPKey a) = true := by
  unfold createIPAddress at h
  by_cases hk : hasIPKey st (normalizeIPKey a) = true
  · exact hk
  · simp [hk] at h

theorem createDevice_eq (st : Store) (n : String) (site dtype role : Option Nat)
    (st1 : Store) (d : DeviceRec)
    (h : createDevice st n site dtype role = some (st1, d)) :
    st1 = { st with
      devices := st.devices ++ [⟨st.nextId, n, site, dtype, role, none, none⟩],
      nextId := st.nextId + 1 } ∧
    d = ⟨st.nextId, n, site, dtype, role, none, none⟩ := by
  unfold createDevice at h
  by_cases hd : hasDevice st n = true
  · simp [hd] at h
  · simp only [hd, Bool.false_eq_true, if_false, Option.some.injEq,
      Prod.mk.injEq] at h
    exact ⟨h.1.symm, h.2.symm⟩

theorem hasIPKey_eq_of_ips (s t : Store)
    (h : s.ipAddresses = t.ipAddresses) (k : String) :
    hasIPKey s k = hasIPKey t k := by
  unfold hasIPKey
  rw [h]

theorem setDevicePrimary_devices_map (st : Store) (devId ipId : Nat)
    (v4 : Bool) :
    ∃ G : DeviceRec → DeviceRec,
      (∀ d, (G d).name = d.name ∧ (G d).id = d.id) ∧
      (setDevicePrimary st devId ipId v4).devices = st.devices.map G := by
  refine ⟨fun d => if d.id = devId then
      (if v4 then { d with primaryIp4 := some ipId }
       else { d with primaryIp := some ipId }) else d, ?_, rfl⟩
  intro d
  by_cases hd : d.id = devId <;> cases v4 <;> simp [hd]

theorem hasKey_map_snd {α β : Type} [DecidableEq α] (f : β → β)
    (d : List (α × β)) (k : α) :
    hasKey (d.map (fun p => (p.1, f p.2))) k = hasKey d k := by
  unfold hasKey
  rw [List.any_map]
  apply list_any_congr
  intro p _
  rfl

theorem ipLoop_proj {β : Type} (proj : Store → β)
    (hcr : ∀ (st : Store) (a : String) (i : Nat) (st1 : Store) (ipId : Nat),
      createIPAddress st a i = some (st1, ipId) → proj st1 = proj st)
    (hsp : ∀ (st : Store) (d i : Nat) (v : Bool),
      proj (setDevicePrimary st d i v) = proj st)
    (devD : List (String × DeviceRec)) (ifD : List (Nat × InterfaceRec))
    (ipPre : List (String × IPRec)) :
    ∀ (hosts : List HostEntry) (st : Store),
      proj (ipLoop devD ifD ipPre hosts st) = proj st := by
  intro hosts st
  induction hosts, st using ipLoop.induct devD ifD ipPre with
  | case1 st => rfl
  | case2 h rest st hk ih =>
    rw [ipLoop_cons, if_pos hk]
    exact ih
  | case3 h rest st hk hdev =>
    rw [ipLoop_cons, if_neg hk]
    simp only [hdev]
  | case4 h rest st hk dev hdev hif =>
    rw [ipLoop_cons, if_neg hk]
    simp only [hdev, hif]
  | case5 h rest st hk dev hdev iface hif hcr5 ih =>
    rw [ipLoop_cons, if_neg hk]
    simp only [hdev, hif, hcr5]
    exact ih
  | case6 h rest st hk dev hdev iface hif st1 ipId hcr6 hfind ih =>
    rw [ipLoop_cons, if_neg hk]
    simp only [hdev, hif, hcr6, hfind]
    rw [ih, hcr _ _ _ _ _ hcr6]
  | case7 h rest st hk dev hdev iface hif st1 ipId hcr7 dfound hfind st2v ih =>
    rw [ipLoop_cons, if_neg hk]
    simp only [hdev, hif, hcr7, hfind]
    rw [ih]
    have hv : proj (if is_ip_v4_address h.address = true then
        setDevicePrimary st1 dev.id ipId true
      else if is_ip_v6_address h.address = true then
        setDevicePrimary st1 dev.id ipId false
      else st1) = proj st1 := by
      split
      · exact hsp _ _ _ _
      split
      · exact hsp _ _ _ _
      · rfl
    have hv2 : proj st2v = proj st1 := hv
    rw [hv2, hcr _ _ _ _ _ hcr7]

theorem ipLoop_proj_all (devD : List (String × DeviceRec))
    (ifD : List (Nat × InterfaceRec)) (ipPre : List (String × IPRec))
    (hosts : List HostEntry) (st : Store) :
    (ipLoop devD ifD ipPre hosts st).groups = st.groups ∧
    (ipLoop devD ifD ipPre hosts st).permissions = st.permissions ∧
    (ipLoop devD ifD ipPre hosts st).manufacturers = st.manufacturers ∧
    (ipLoop devD ifD ipPre hosts st).roles = st.roles ∧
    (ipLoop devD ifD ipPre hosts st).deviceTypes = st.deviceTypes ∧
    (ipLoop devD ifD ipPre hosts st).sites = st.sites ∧
    (ipLoop devD ifD ipPre hosts st).prefixes = st.prefixes ∧
    (ipLoop devD ifD ipPre hosts st).interfaces = st.interfaces ∧
    (ipLoop devD ifD ipPre hosts st).contentTypes = st.contentTypes := by
  refine ⟨?_, ?_, ?_, ?_, ?_, ?_, ?_, ?_, ?_⟩
  · exact ipLoop_proj Store.groups
      (fun st a i st1 ipId hc => by rw [(createIPAddress_eq _ _ _ _ _ hc).1])
      (fun st d i v => rfl) devD ifD ipPre hosts st
  · exact ipLoop_proj Store.permissions
      (fun st a i st1 ipId hc => by rw [(createIPAddress_eq _ _ _ _ _ hc).1])
      (fun st d i v => rfl) devD ifD ipPre hosts st
  · exact ipLoop_proj Store.manufacturers
      (fun st a i st1 ipId hc => by rw [(createIPAddress_eq _ _ _ _ _ hc).1])
      (fun st d i v => rfl) devD ifD ipPre hosts st
  · exact ipLoop_proj Store.roles
      (fun st a i st1 ipId hc => by rw [(createIPAddress_eq _ _ _ _ _ hc).1])
      (fun st d i v => rfl) devD ifD ipPre hosts st
  · exact ipLoop_proj Store.deviceTypes
      (fun st a i st1 ipId hc => by rw [(createIPAddress_eq _ _ _ _ _ hc).1])
      (fun st d i v => rfl) devD ifD ipPre hosts st
  · exact ipLoop_proj Store.sites
      (fun st a i st1 ipId hc => by rw [(createIPAddress_eq _ _ _ _ _ hc).1])
      (fun st d i v => rfl) devD ifD ipPre hosts st
  · exact ipLoop_proj Store.prefixes
      (fun st a i st1 ipId hc => by rw [(createIPAddress_eq _ _ _ _ _ hc).1])
      (fun st d i v => rfl) devD ifD ipPre hosts st
  · exact ipLoop_proj Store.interfaces
      (fun st a i st1 ipId hc => by rw [(createIPAddress_eq _ _ _ _ _ hc).1])
      (fun st d i v => rfl) devD ifD ipPre hosts st
  · exact ipLoop_proj Store.contentTypes
      (fun st a i st1 ipId hc => by rw [(createIPAddress_eq _ _ _ _ _ hc).1])
      (fun st d i v => rfl) devD ifD ipPre hosts st

theorem ipLoop_hasIPKey_mono (devD : List (String × DeviceRec))
    (ifD : List (Nat × InterfaceRec)) (ipPre : List (String × IPRec)) :
    ∀ (hosts : List HostEntry) (st : Store) (k : String),
      hasIPKey st k = true →
      hasIPKey (ipLoop devD ifD ipPre hosts st) k = true := by
  intro hosts st
  induction hosts, st using ipLoop.induct devD ifD ipPre with
  | case1 st => intro k h; exact h
  | case2 h rest st hk ih =>
    intro k hh
    rw [ipLoop_cons, if_pos hk]
    exact ih k hh
  | case3 h rest st hk hdev =>
    intro k hh
    rw [ipLoop_cons, if_neg hk]
    simp only [hdev]
    exact hh
  | case4 h rest st hk dev hdev hif =>
    intro k hh
    rw [ipLoop_cons, if_neg hk]
    simp only [hdev, hif]
    exact hh
  | case5 h rest st hk dev hdev iface hif hcr5 ih =>
    intro k hh
    rw [ipLoop_cons, if_neg hk]
    simp only [hdev, hif, hcr5]
    exact ih k hh
  | case6 h rest st hk dev hdev iface hif st1 ipId hcr6 hfind ih =>
    intro k hh
    rw [ipLoop_cons, if_neg hk]
    simp only [hdev, hif, hcr6, hfind]
    apply ih
    rw [(createIPAddress_eq _ _ _ _ _ hcr6).1]
    unfold hasIPKey at hh ⊢
    simp only [List.any_append, hh, Bool.true_or]
  | case7 h rest st hk dev hdev iface hif st1 ipId hcr7 dfound hfind st2v ih =>
    intro k hh
    rw [ipLoop_cons, if_neg hk]
    simp only [hdev, hif, hcr7, hfind]
    apply ih
    have hips : st2v.ipAddresses = st1.ipAddresses := by
      show (if is_ip_v4_address h.address = true then
          setDevicePrimary st1 dev.id ipId true
        else if is_ip_v6_address h.address = true then
          setDevicePrimary st1 dev.id ipId false
        else st1).ipAddresses = st1.ipAddresses
      split
      · rfl
      split
      · rfl
      · rfl
    rw [hasIPKey_eq_of_ips _ _ hips, (createIPAddress_eq _ _ _ _ _ hcr7).1]
    unfold hasIPKey at hh ⊢
    simp only [List.any_append, hh, Bool.true_or]

theorem ipLoop_devices_map (devD : List (String × DeviceRec))
    (ifD : List (Nat × InterfaceRec)) (ipPre : List (String × IPRec)) :
    ∀ (hosts : List HostEntry) (st : Store),
      ∃ F : DeviceRec → DeviceRec,
        (∀ d, (F d).name = d.name ∧ (F d).id = d.id) ∧
        (ipLoop devD ifD ipPre hosts st).devices = st.devices.map F := by
  intro hosts st
  induction hosts, st using ipLoop.induct devD ifD ipPre with
  | case1 st =>
    exact ⟨fun d => d, fun d => ⟨rfl, rfl⟩, by rw [ipLoop_nil]; simp⟩
  | case2 h rest st hk ih =>
    rw [ipLoop_cons, if_pos hk]
    exact ih
  | case3 h rest st hk hdev =>
    rw [ipLoop_cons, if_neg hk]
    simp only [hdev]
    exact ⟨fun d => d, fun d => ⟨rfl, rfl⟩, by simp⟩
  | case4 h rest st hk dev hdev hif =>
    rw [ipLoop_cons, if_neg hk]
    simp only [hdev, hif]
    exact ⟨fun d => d, fun d => ⟨rfl, rfl⟩, by simp⟩
  | case5 h rest st hk dev hdev iface hif hcr5 ih =>
    rw [ipLoop_cons, if_neg hk]
    simp only [hdev, hif, hcr5]
    exact ih
  | case6 h rest st hk dev hdev iface hif st1 ipId hcr6 hfind ih =>
    rw [ipLoop_cons, if_neg hk]
    simp only [hdev, hif, hcr6, hfind]
    obtain ⟨F, hF, hmap⟩ := ih
    have hdev1 : st1.devices = st.devices := by
      rw [(createIPAddress_eq _ _ _ _ _ hcr6).1]
    exact ⟨F, hF, by rw [hmap, hdev1]⟩
  | case7 h rest st hk dev hdev iface hif st1 ipId hcr7 dfound hfind st2v ih =>
    rw [ipLoop_cons, if_neg hk]
    simp only [hdev, hif, hcr7, hfind]
    obtain ⟨F, hF, hmap⟩ := ih
    have hdev1 : st1.devices = st.devices := by
      rw [(createIPAddress_eq _ _ _ _ _ hcr7).1]
    have hsplit : ∃ G : DeviceRec → DeviceRec,
        (∀ d, (G d).name = d.name ∧ (G d).id = d.id) ∧
        st2v.devices = st.devices.map G := by
      have he : st2v.devices = (if is_ip_v4_address h.address = true then
          setDevicePrimary st1 dev.id ipId true
        else if is_ip_v6_address h.address = true then
          setDevicePrimary st1 dev.id ipId false
        else st1).devices := rfl
      rw [he]
      split
      · obtain ⟨G, hG, hm⟩ := setDevicePrimary_devices_map st1 dev.id ipId true
        exact ⟨G, hG, by rw [hm, hdev1]⟩
      split
      · obtain ⟨G, hG, hm⟩ := setDevicePrimary_devices_map st1 dev.id ipId false
        exact ⟨G, hG, by rw [hm, hdev1]⟩
      · exact ⟨fun d => d, fun d => ⟨rfl, rfl⟩, by rw [hdev1]; simp⟩
    obtain ⟨G, hG, hm2⟩ := hsplit
    refine ⟨F ∘ G, ?_, ?_⟩
    · intro d
      exact ⟨((hF (G d)).1).trans (hG d).1, ((hF (G d)).2).trans (hG d).2⟩
    · rw [hmap, hm2, List.map_map]

theorem createInterface_proj {β : Type} (proj : Store → β)
    (hp : ∀ (st : Store) (ifs : List InterfaceRec) (n : Nat),
      proj { st with interfaces := ifs, nextId := n } = proj st)
    (st : Store) (dev : Nat) (mac : Option String) :
    proj (createInterface st dev mac) = proj st := by
  unfold createInterface
  split
  · rfl
  · exact hp st _ _

theorem deviceStep_proj {β : Type} (proj : Store → β)
    (hcd : ∀ (st : Store) (n : String) (s d r : Option Nat) (st1 : Store)
      (drec : DeviceRec), createDevice st n s d r = some (st1, drec) →
      proj st1 = proj st)
    (hci : ∀ (st : Store) (dev : Nat) (mac : Option String),
      proj (createInterface st dev mac) = proj st)
    (reject : String → Bool) (sitesD : List (String × SiteRec))
    (dtypesD : List (String × DeviceTypeRec)) (rolesD : List (String × RoleRec))
    (st : Store) (h : HostEntry) :
    proj (deviceStep reject sitesD dtypesD rolesD st h) = proj st := by
  simp only [deviceStep]
  split
  · rfl
  · split
    · rfl
    · rename_i st1 dev heq
      split
      · rw [hci, hcd _ _ _ _ _ _ _ heq]
      split
      · rw [hci, hcd _ _ _ _ _ _ _ heq]
      · exact hcd _ _ _ _ _ _ _ heq

theorem deviceLoopF_proj_all (reject : String → Bool)
    (sitesD : List (String × SiteRec)) (dtypesD : List (String × DeviceTypeRec))
    (rolesD : List (String × RoleRec)) (hosts : List HostEntry) (st : Store) :
    (deviceLoopF reject sitesD dtypesD rolesD hosts st).groups = st.groups ∧
    (deviceLoopF reject sitesD dtypesD rolesD hosts st).permissions
      = st.permissions ∧
    (deviceLoopF reject sitesD dtypesD rolesD hosts st).manufacturers
      = st.manufacturers ∧
    (deviceLoopF reject sitesD dtypesD rolesD hosts st).roles = st.roles ∧
    (deviceLoopF reject sitesD dtypesD rolesD hosts st).deviceTypes
      = st.deviceTypes ∧
    (deviceLoopF reject sitesD dtypesD rolesD hosts st).sites = st.sites ∧
    (deviceLoopF reject sitesD dtypesD rolesD hosts st).prefixes
      = st.prefixes ∧
    (deviceLoopF reject sitesD dtypesD rolesD hosts st).ipAddresses
      = st.ipAddresses ∧
    (deviceLoopF reject sitesD dtypesD rolesD hosts st).contentTypes
      = st.contentTypes := by
  unfold deviceLoopF
  refine ⟨?_, ?_, ?_, ?_, ?_, ?_, ?_, ?_, ?_⟩
  · exact foldl_proj Store.groups _
      (fun s a => deviceStep_proj Store.groups
        (fun st n si d r st1 drec hm => by
          rw [(createDevice_eq _ _ _ _ _ _ _ hm).1])
        (fun st dev mac => createInterface_proj Store.groups
          (fun st ifs n => rfl) st dev mac)
        reject sitesD dtypesD rolesD s a) _ st
  · exact foldl_proj Store.permissions _
      (fun s a => deviceStep_proj Store.permissions
        (fun st n si d r st1 drec hm => by
          rw [(createDevice_eq _ _ _ _ _ _ _ hm).1])
        (fun st dev mac => createInterface_proj Store.permissions
          (fun st ifs n => rfl) st dev mac)
        reject sitesD dtypesD rolesD s a) _ st
  · exact foldl_proj Store.manufacturers _
      (fun s a => deviceStep_proj Store.manufacturers
        (fun st n si d r st1 drec hm => by
          rw [(createDevice_eq _ _ _ _ _ _ _ hm).1])
        (fun st dev mac => createInterface_proj Store.manufacturers
          (fun st ifs n => rfl) st dev mac)
        reject sitesD dtypesD rolesD s a) _ st
  · exact foldl_proj Store.roles _
      (fun s a => deviceStep_proj Store.roles
        (fun st n si d r st1 drec hm => by
          rw [(createDevice_eq _ _ _ _ _ _ _ hm).1])
        (fun st dev mac => createInterface_proj Store.roles
          (fun st ifs n => rfl) st dev mac)
        reject sitesD dtypesD rolesD s a) _ st
  · exact foldl_proj Store.deviceTypes _
      (fun s a => deviceStep_proj Store.deviceTypes
        (fun st n si d r st1 drec hm => by
          rw [(createDevice_eq _ _ _ _ _ _ _ hm).1])
        (fun st dev mac => createInterface_proj Store.deviceTypes
          (fun st ifs n => rfl) st dev mac)
        reject sitesD dtypesD rolesD s a) _ st
  · exact foldl_proj Store.sites _
      (fun s a => deviceStep_proj Store.sites
        (fun st n si d r st1 drec hm => by
          rw [(createDevice_eq _ _ _ _ _ _ _ hm).1])
        (fun st dev mac => createInterface_proj Store.sites
          (fun st ifs n => rfl) st dev mac)
        reject sitesD dtypesD rolesD s a) _ st
  · exact foldl_proj Store.prefixes _
      (fun s a => deviceStep_proj Store.prefixes
        (fun st n si d r st1 drec hm => by
          rw [(createDevice_eq _ _ _ _ _ _ _ hm).1])
        (fun st dev mac => createInterface_proj Store.prefixes
          (fun st ifs n => rfl) st dev mac)
        reject sitesD dtypesD rolesD s a) _ st
  · exact foldl_proj Store.ipAddresses _
      (fun s a => deviceStep_proj Store.ipAddresses
        (fun st n si d r st1 drec hm => by
          rw [(createDevice_eq _ _ _ _ _ _ _ hm).1])
        (fun st dev mac => createInterface_proj Store.ipAddresses
          (fun st ifs n => rfl) st dev mac)
        reject sitesD dtypesD rolesD s a) _ st
  · exact foldl_proj Store.contentTypes _
      (fun s a => deviceStep_proj Store.contentTypes
        (fun st n si d r st1 drec hm => by
          rw [(createDevice_eq _ _ _ _ _ _ _ hm).1])
        (fun st dev mac => createInterface_proj Store.contentTypes
          (fun st ifs n => rfl) st dev mac)
        reject sitesD dtypesD rolesD s a) _ st

theorem netMapStage_proj (sitesD : List (String × SiteRec))
    (dtypesD : List (String × DeviceTypeRec)) (rolesD : List (String × RoleRec))
    (nm : List NetMapItem) (st : Store) :
    (netMapStage sitesD dtypesD rolesD nm st).groups = st.groups ∧
    (netMapStage sitesD dtypesD rolesD nm st).permissions = st.permissions ∧
    (netMapStage sitesD dtypesD rolesD nm st).manufacturers
      = st.manufacturers ∧
    (netMapStage sitesD dtypesD rolesD nm st).roles = st.roles ∧
    (netMapStage sitesD dtypesD rolesD nm st).deviceTypes = st.deviceTypes ∧
    (netMapStage sitesD dtypesD rolesD nm st).sites = st.sites ∧
    (netMapStage sitesD dtypesD rolesD nm st).contentTypes
      = st.contentTypes := by
  simp only [netMapStage]
  refine ⟨?_, ?_, ?_, ?_, ?_, ?_, ?_⟩
  · rw [(ipLoop_proj_all _ _ _ _ _).1, (deviceLoopF_proj_all _ _ _ _ _ _).1,
      (prefixLoop_proj _ _ _).1]
  · rw [(ipLoop_proj_all _ _ _ _ _).2.1,
      (deviceLoopF_proj_all _ _ _ _ _ _).2.1, (prefixLoop_proj _ _ _).2.1]
  · rw [(ipLoop_proj_all _ _ _ _ _).2.2.1,
      (deviceLoopF_proj_all _ _ _ _ _ _).2.2.1,
      (prefixLoop_proj _ _ _).2.2.1]
  · rw [(ipLoop_proj_all _ _ _ _ _).2.2.2.1,
      (deviceLoopF_proj_all _ _ _ _ _ _).2.2.2.1,
      (prefixLoop_proj _ _ _).2.2.2.1]
  · rw [(ipLoop_proj_all _ _ _ _ _).2.2.2.2.1,
      (deviceLoopF_proj_all _ _ _ _ _ _).2.2.2.2.1,
      (prefixLoop_proj _ _ _).2.2.2.2.1]
  · rw [(ipLoop_proj_all _ _ _ _ _).2.2.2.2.2.1,
      (deviceLoopF_proj_all _ _ _ _ _ _).2.2.2.2.2.1,
      (prefixLoop_proj _ _ _).2.2.2.2.2.1]
  · rw [(ipLoop_proj_all _ _ _ _ _).2.2.2.2.2.2.2.2,
      (deviceLoopF_proj_all _ _ _ _ _ _).2.2.2.2.2.2.2.2,
      (prefixLoop_proj _ _ _).2.2.2.2.2.2.2.2.2]


/-- Replaying the IP-address loop over the same hosts, with the address
index re-fetched from the final store, changes nothing, as long as the
hosts carry pairwise-distinct keys: every host the first pass settled is
now skipped by the pre-existence test, and a host at which the first pass
stopped with the `KeyError` stops the second pass at the same point. -/
theorem ipLoop_replay (devD devD2 : List (String × DeviceRec))
    (ifD : List (Nat × InterfaceRec)) (ipPre ipPre2 : List (String × IPRec))
    (F : DeviceRec → DeviceRec) (hFid : ∀ d, (F d).id = d.id)
    (hdevD2 : devD2 = devD.map (fun p => (p.1, F p.2))) :
    ∀ (hosts : List HostEntry) (st : Store),
      List.Pairwise (fun a b => hostKeyOf a ≠ hostKeyOf b) hosts →
      ∀ t : Store,
        (∀ k, hasKey ipPre2 k = hasIPKey t k) →
        t.ipAddresses = (ipLoop devD ifD ipPre hosts st).ipAddresses →
        (∀ h ∈ hosts, hasIPKey st (hostKeyOf h) = hasKey ipPre (hostKeyOf h)) →
        ipLoop devD2 ifD ipPre2 hosts t = t := by
  intro hosts st
  induction hosts, st using ipLoop.induct devD ifD ipPre with
  | case1 st =>
    intro _ t _ _ _
    rfl
  | case2 h rest st hk ih =>
    intro hpair t hpre2 hrel hstale
    rw [ipLoop_cons, if_pos hk] at hrel
    have hkey : hasIPKey t (hostKeyOf h) = true := by
      rw [hasIPKey_eq_of_ips t _ hrel]
      apply ipLoop_hasIPKey_mono
      rw [hstale h (by simp)]
      exact hk
    rw [ipLoop_cons, if_pos (by rw [hpre2]; exact hkey)]
    exact ih (List.pairwise_cons.mp hpair).2 t hpre2 hrel
      (fun h2 hh2 => hstale h2 (by simp [hh2]))
  | case3 h rest st hk hdev =>
    intro hpair t hpre2 hrel hstale
    rw [ipLoop_cons, if_neg hk] at hrel
    simp only [hdev] at hrel
    have hcond : ¬ hasKey ipPre2 (hostKeyOf h) = true := by
      rw [hpre2, hasIPKey_eq_of_ips t st hrel, hstale h (by simp)]
      exact hk
    rw [ipLoop_cons, if_neg hcond, hdevD2, pyGet_map_snd]
    simp only [hdev, Option.map_none']
  | case4 h rest st hk dev hdev hif =>
    intro hpair t hpre2 hrel hstale
    rw [ipLoop_cons, if_neg hk] at hrel
    simp only [hdev, hif] at hrel
    have hcond : ¬ hasKey ipPre2 (hostKeyOf h) = true := by
      rw [hpre2, hasIPKey_eq_of_ips t st hrel, hstale h (by simp)]
      exact hk
    rw [ipLoop_cons, if_neg hcond, hdevD2, pyGet_map_snd]
    simp only [hdev, Option.map_some']
    rw [hFid dev]
    simp only [hif]
  | case5 h rest st hk dev hdev iface hif hcr5 ih =>
    intro hpair t hpre2 hrel hstale
    have h1 : hasIPKey st (hostKeyOf h) = true :=
      createIPAddress_none st h.address iface.id hcr5
    rw [hstale h (by simp)] at h1
    exact absurd h1 hk
  | case6 h rest st hk dev hdev iface hif st1 ipId hcr6 hfind ih =>
    intro hpair t hpre2 hrel hstale
    rw [ipLoop_cons, if_neg hk] at hrel
    simp only [hdev, hif, hcr6, hfind] at hrel
    obtain ⟨hst1, hip, hnew⟩ := createIPAddress_eq st h.address iface.id
      st1 ipId hcr6
    have h1 : hasIPKey st1 (hostKeyOf h) = true := by
      rw [hst1]
      simp [hasIPKey, List.any_append,
        show normalizeIPKey h.address = hostKeyOf h from rfl]
    have hkey : hasIPKey t (hostKeyOf h) = true := by
      rw [hasIPKey_eq_of_ips t _ hrel]
      exact ipLoop_hasIPKey_mono devD ifD ipPre rest st1 _ h1
    rw [ipLoop_cons, if_pos (by rw [hpre2]; exact hkey)]
    rcases List.pairwise_cons.mp hpair with ⟨hhd, htl⟩
    apply ih htl t hpre2 hrel
    intro h2 hh2
    rw [← hstale h2 (by simp [hh2])]
    rw [hst1]
    simp [hasIPKey, List.any_append,
      show normalizeIPKey h.address = hostKeyOf h from rfl, hhd h2 hh2]
  | case7 h rest st hk dev hdev iface hif st1 ipId hcr7 dfound hfind st2v ih =>
    intro hpair t hpre2 hrel hstale
    rw [ipLoop_cons, if_neg hk] at hrel
    simp only [hdev, hif, hcr7, hfind] at hrel
    obtain ⟨hst1, hip, hnew⟩ := createIPAddress_eq st h.address iface.id
      st1 ipId hcr7
    have hips2v : st2v.ipAddresses = st1.ipAddresses := by
      show (if is_ip_v4_address h.address = true then
          setDevicePrimary st1 dev.id ipId true
        else if is_ip_v6_address h.address = true then
          setDevicePrimary st1 dev.id ipId false
        else st1).ipAddresses = st1.ipAddresses
      split
      · rfl
      split
      · rfl
      · rfl
    have h1 : hasIPKey st1 (hostKeyOf h) = true := by
      rw [hst1]
      simp [hasIPKey, List.any_append,
        show normalizeIPKey h.address = hostKeyOf h from rfl]
    have hkey : hasIPKey t (hostKeyOf h) = true := by
      rw [hasIPKey_eq_of_ips t _ hrel]
      apply ipLoop_hasIPKey_mono devD ifD ipPre rest st2v
      rw [hasIPKey_eq_of_ips _ _ hips2v]
      exact h1
    rw [ipLoop_cons, if_pos (by rw [hpre2]; exact hkey)]
    rcases List.pairwise_cons.mp hpair with ⟨hhd, htl⟩
    apply ih htl t hpre2 hrel
    intro h2 hh2
    rw [← hstale h2 (by simp [hh2])]
    rw [hasIPKey_eq_of_ips _ _ hips2v, hst1]
    simp [hasIPKey, List.any_append,
      show normalizeIPKey h.address = hostKeyOf h from rfl, hhd h2 hh2]


/-! ## Lemmas: assembling the idempotence of reconciliation -/

theorem hasGroup_congr (s t : Store) (h : s.groups = t.groups) (n : String) :
    hasGroup s n = hasGroup t n := by
  unfold hasGroup; rw [h]

theorem hasPerm_congr (s t : Store) (h : s.permissions = t.permissions)
    (n : String) : hasPerm s n = hasPerm t n := by
  unfold hasPerm; rw [h]

theorem hasManufacturer_congr (s t : Store)
    (h : s.manufacturers = t.manufacturers) (n : String) :
    hasManufacturer s n = hasManufacturer t n := by
  unfold hasManufacturer; rw [h]

theorem hasRole_congr (s t : Store) (h : s.roles = t.roles) (n : String) :
    hasRole s n = hasRole t n := by
  unfold hasRole; rw [h]

theorem hasDeviceType_congr (s t : Store) (h : s.deviceTypes = t.deviceTypes)
    (m : String) : hasDeviceType s m = hasDeviceType t m := by
  unfold hasDeviceType; rw [h]

theorem hasSite_congr (s t : Store) (h : s.sites = t.sites) (n : String) :
    hasSite s n = hasSite t n := by
  unfold hasSite; rw [h]

theorem hasPrefixKey_congr (s t : Store) (h : s.prefixes = t.prefixes)
    (c : String) : hasPrefixKey s c = hasPrefixKey t c := by
  unfold hasPrefixKey; rw [h]

theorem hasDevice_congr (s t : Store) (h : s.devices = t.devices)
    (n : String) : hasDevice s n = hasDevice t n := by
  unfold hasDevice; rw [h]

theorem hasDevice_devices_map (s t : Store) (F : DeviceRec → DeviceRec)
    (hFn : ∀ d, (F d).name = d.name) (h : s.devices = t.devices.map F)
    (n : String) : hasDevice s n = hasDevice t n := by
  unfold hasDevice
  rw [h, List.any_map]
  apply list_any_congr
  intro d _
  simp [Function.comp, hFn d]

theorem netMapStage_noop (sitesD : List (String × SiteRec))
    (dtypesD : List (String × DeviceTypeRec)) (rolesD : List (String × RoleRec))
    (nm : List NetMapItem) (t : Store)
    (hpfx : ∀ seg ∈ admittedSegments nm, hasPrefixKey t seg.address = true)
    (hdev : ∀ h ∈ admittedHosts nm, hasDevice t h.name = true)
    (hiploop : ipLoop (pyDictOf DeviceRec.name t.devices)
        (pyDictOf InterfaceRec.device t.interfaces)
        (pyDictOf IPRec.address t.ipAddresses)
        ((ipAdmittedHosts nm).filter
          (fun h => hasKey (pyDictOf DeviceRec.name t.devices) h.name)) t
        = t) :
    netMapStage sitesD dtypesD rolesD nm t = t := by
  have h1 : prefixLoop sitesD (admittedSegments nm) t = t :=
    prefixLoop_noop sitesD (admittedSegments nm) t hpfx
  have h2 : (admittedHosts nm).filter
      (fun h => decide
        (¬ hasKey (pyDictOf DeviceRec.name t.devices) h.name = true)) = [] := by
    apply filter_nil_of_false
    intro h hh
    have h3 : t.devices.any (fun r => r.name = h.name) = true := hdev h hh
    simp [hasKey_pyDictOf, h3]
  simp only [netMapStage, h1, h2]
  simp only [deviceLoopF, List.foldl_nil]
  exact hiploop

theorem allDistinctStr_pairwise :
    ∀ (l : List String), allDistinctStr l = true →
      l.Pairwise (fun a b => a ≠ b) := by
  intro l
  induction l with
  | nil => intro _; exact List.Pairwise.nil
  | cons a r ih =>
    intro h
    simp only [allDistinctStr, Bool.and_eq_true] at h
    apply List.pairwise_cons.mpr
    refine ⟨?_, ih h.2⟩
    intro b hb
    have := List.all_eq_true.mp h.1 b hb
    simpa using this

theorem strData_inj (a b : String) (h : a.data = b.data) : a = b := by
  cases a
  cases b
  exact congrArg String.mk h

theorem hostKeyOf_inj (h1 h2 : HostEntry)
    (he : hostKeyOf h1 = hostKeyOf h2) : h1.address = h2.address := by
  unfold hostKeyOf at he
  have hd := congrArg String.data he
  by_cases v1 : is_ip_v4_address h1.address = true <;>
    by_cases v2 : is_ip_v4_address h2.address = true <;>
      simp only [v1, v2, if_true, Bool.false_eq_true, if_false] at hd <;>
      rw [String.data_append, String.data_append] at hd
  · exact strData_inj _ _ (List.append_cancel_right hd)
  · exfalso
    have hr := congrArg List.reverse hd
    rw [List.reverse_append, List.reverse_append] at hr
    have e1 : ("/32".data).reverse = ['2', '3', '/'] := rfl
    have e2 : ("/128".data).reverse = ['8', '2', '1', '/'] := rfl
    rw [e1, e2] at hr
    simp at hr
  · exfalso
    have hr := congrArg List.reverse hd
    rw [List.reverse_append, List.reverse_append] at hr
    have e1 : ("/32".data).reverse = ['2', '3', '/'] := rfl
    have e2 : ("/128".data).reverse = ['8', '2', '1', '/'] := rfl
    rw [e1, e2] at hr
    simp at hr
  · exact strData_inj _ _ (List.append_cancel_right hd)

theorem pairwise_hostKeys (l : List HostEntry)
    (h : (l.map HostEntry.address).Pairwise (fun a b => a ≠ b)) :
    l.Pairwise (fun a b => hostKeyOf a ≠ hostKeyOf b) := by
  rw [List.pairwise_map] at h
  exact h.imp (fun hne he => hne (hostKeyOf_inj _ _ he))

theorem reconcile_eq (cfg : Config) (nm : Option (List NetMapItem))
    (t : Store) :
    reconcile cfg nm t =
      (let st1 := groupsStage cfg t
       let st2 := permissionsStage cfg (pyDictOf GroupRec.name st1.groups) st1
       let st3 := manufacturersStage cfg st2
       let st4 := rolesStage cfg st3
       let st5 := deviceTypesStage cfg
         (pyDictOf ManufacturerRec.name st3.manufacturers) st4
       let st6 := sitesStage cfg st5
       vrfMigrationStage (match nm with
         | none => st6
         | some items => netMapStage (pyDictOf SiteRec.name st6.sites)
             (pyDictOf DeviceTypeRec.model st5.deviceTypes)
             (pyDictOf RoleRec.name st4.roles) items st6)) := rfl

theorem reconcile_second_run (cfg : Config) (nm : Option (List NetMapItem))
    (t : Store)
    (h1 : groupsStage cfg t = t)
    (h2 : permissionsStage cfg (pyDictOf GroupRec.name t.groups) t = t)
    (h3 : manufacturersStage cfg t = t)
    (h4 : rolesStage cfg t = t)
    (h5 : deviceTypesStage cfg (pyDictOf ManufacturerRec.name t.manufacturers)
      t = t)
    (h6 : sitesStage cfg t = t)
    (h7 : ∀ items, nm = some items →
      netMapStage (pyDictOf SiteRec.name t.sites)
        (pyDictOf DeviceTypeRec.model t.deviceTypes)
        (pyDictOf RoleRec.name t.roles) items t = t) :
    reconcile cfg nm t = vrfMigrationStage t := by
  rw [reconcile_eq]
  simp only [h1, h2, h3, h4, h5, h6]
  cases nm with
  | none => rfl
  | some items => simp only [h7 items rfl]


/-- C1 (amended): idempotence of reconciliation holds whenever the network
map's IP-valid host records carry pairwise-distinct address strings: the
second run of the reconcile procedure against the store produced by the
first run returns that store unchanged, so the entity-key sets equal those
produced after the first invocation and the second run creates no entities
of any kind.  Without the distinctness hypothesis the property fails (see
the counterexample): with duplicate host addresses and an IP-association
pass aborted by the interface `KeyError`, the second run can create an IP
address the first run never reached. -/
theorem reconcile_idempotent (cfg : Config) (nm : Option (List NetMapItem))
    (st0 : Store) (hdist : allDistinctStr (ipHostAddresses nm) = true) :
    reconcile cfg nm (reconcile cfg nm st0) = reconcile cfg nm st0 := by
  obtain ⟨st1, hst1⟩ : ∃ s, groupsStage cfg st0 = s := ⟨_, rfl⟩
  obtain ⟨st2, hst2⟩ : ∃ s,
    permissionsStage cfg (pyDictOf GroupRec.name st1.groups) st1 = s := ⟨_, rfl⟩
  obtain ⟨st3, hst3⟩ : ∃ s, manufacturersStage cfg st2 = s := ⟨_, rfl⟩
  obtain ⟨st4, hst4⟩ : ∃ s, rolesStage cfg st3 = s := ⟨_, rfl⟩
  obtain ⟨st5, hst5⟩ : ∃ s, deviceTypesStage cfg
    (pyDictOf ManufacturerRec.name st3.manufacturers) st4 = s := ⟨_, rfl⟩
  obtain ⟨st6, hst6⟩ : ∃ s, sitesStage cfg st5 = s := ⟨_, rfl⟩
  have hg1 : ∀ n ∈ [cfg.staffGroupName, cfg.defaultGroupName],
      hasGroup st1 n = true := by
    rw [← hst1]
    exact groupsStage_post cfg st0
  have hgD : ∀ p ∈ defaultPermissionsDict cfg, ∀ g ∈ p.2.groups,
      hasKey (pyDictOf GroupRec.name st1.groups) g = true := by
    intro p hp g hgm
    rcases defaultPermissionsDict_vals cfg p hp with hv | hv <;> rw [hv] at hgm
    · simp only [staffPermCfg, List.mem_singleton] at hgm
      rw [hgm, hasKey_pyDictOf]
      exact hg1 cfg.staffGroupName (by simp)
    · simp only [defaultPermCfg, List.mem_singleton] at hgm
      rw [hgm, hasKey_pyDictOf]
      exact hg1 cfg.defaultGroupName (by simp)
  have hperm2 : ∀ p ∈ defaultPermissionsDict cfg, p.2.name ≠ "" →
      hasPerm st2 p.2.name = true := by
    rw [← hst2]
    exact permissionsStage_post cfg _ st1 hgD
  have hman3 : ∀ n ∈ cfg.manufacturers, hasManufacturer st3 n = true := by
    rw [← hst3]
    exact manufacturersStage_post cfg st2
  have hrole4 : ∀ n ∈ cfg.roles, hasRole st4 n = true := by
    rw [← hst4]
    exact rolesStage_post cfg st3
  have hdt5 : ∀ m ∈ cfg.deviceTypes, hasDeviceType st5 m = true := by
    rw [← hst5]
    exact deviceTypesStage_post cfg _ st4
  have hsite6 : ∀ n ∈ cfg.netboxSites, hasSite st6 n = true := by
    rw [← hst6]
    exact sitesStage_post cfg st5
  obtain ⟨g2, m2, r2, d2, s2, pfx2, dev2, if2, ip2, ct2⟩ :=
    permissionsStage_proj cfg (pyDictOf GroupRec.name st1.groups) st1
  rw [hst2] at g2 m2 r2 d2 s2 pfx2 dev2 if2 ip2 ct2
  have hst3f : manufacturersStageF (fun _ => false) cfg st2 = st3 := hst3
  obtain ⟨g3, p3, r3, d3, s3, pfx3, dev3, if3, ip3, ct3⟩ :=
    manufacturersStageF_proj (fun _ => false) cfg st2
  rw [hst3f] at g3 p3 r3 d3 s3 pfx3 dev3 if3 ip3 ct3
  obtain ⟨g4, p4, m4, d4, s4, pfx4, dev4, if4, ip4, ct4⟩ :=
    rolesStage_proj cfg st3
  rw [hst4] at g4 p4 m4 d4 s4 pfx4 dev4 if4 ip4 ct4
  obtain ⟨g5, p5, m5, r5, s5, pfx5, dev5, if5, ip5, ct5⟩ :=
    deviceTypesStage_proj cfg (pyDictOf ManufacturerRec.name st3.manufacturers)
      st4
  rw [hst5] at g5 p5 m5 r5 s5 pfx5 dev5 if5 ip5 ct5
  obtain ⟨g6, p6, m6, r6, d6, pfx6, dev6, if6, ip6, ct6⟩ :=
    sitesStage_proj cfg st5
  rw [hst6] at g6 p6 m6 r6 d6 pfx6 dev6 if6 ip6 ct6
  cases nm with
  | none =>
    obtain ⟨tfin, htfin⟩ : ∃ s, vrfMigrationStage st6 = s := ⟨_, rfl⟩
    obtain ⟨vg, vp, vm, vr, vd, vs, vdev, vif, vip, vct⟩ :=
      vrfMigrationStage_proj st6
    rw [htfin] at vg vp vm vr vd vs vdev vif vip vct
    have hout : reconcile cfg none st0 = tfin := by
      rw [reconcile_eq]
      simp only [hst1, hst2, hst3, hst4, hst5, hst6, htfin]
    have cg : tfin.groups = st1.groups := by rw [vg, g6, g5, g4, g3, g2]
    have cp : tfin.permissions = st2.permissions := by
      rw [vp, p6, p5, p4, p3]
    have cm : tfin.manufacturers = st3.manufacturers := by rw [vm, m6, m5, m4]
    have cr : tfin.roles = st4.roles := by rw [vr, r6, r5]
    have cd : tfin.deviceTypes = st5.deviceTypes := by rw [vd, d6]
    have cs : tfin.sites = st6.sites := vs
    have e1 : groupsStage cfg tfin = tfin :=
      groupsStage_noop cfg tfin (fun n hn => by
        rw [hasGroup_congr tfin st1 cg n]; exact hg1 n hn)
    have e2 : permissionsStage cfg (pyDictOf GroupRec.name tfin.groups) tfin
        = tfin :=
      permissionsStage_noop cfg _ tfin (fun p hp hne => by
        rw [hasPerm_congr tfin st2 cp p.2.name]; exact hperm2 p hp hne)
    have e3 : manufacturersStage cfg tfin = tfin :=
      manufacturersStage_noop cfg tfin (fun n hn => by
        rw [hasManufacturer_congr tfin st3 cm n]; exact hman3 n hn)
    have e4 : rolesStage cfg tfin = tfin :=
      rolesStage_noop cfg tfin (fun n hn => by
        rw [hasRole_congr tfin st4 cr n]; exact hrole4 n hn)
    have e5 : deviceTypesStage cfg
        (pyDictOf ManufacturerRec.name tfin.manufacturers) tfin = tfin :=
      deviceTypesStage_noop cfg _ tfin (fun m hm => by
        rw [hasDeviceType_congr tfin st5 cd m]; exact hdt5 m hm)
    have e6 : sitesStage cfg tfin = tfin :=
      sitesStage_noop cfg tfin (fun n hn => by
        rw [hasSite_congr tfin st6 cs n]; exact hsite6 n hn)
    rw [hout]
    rw [reconcile_second_run cfg none tfin e1 e2 e3 e4 e5 e6
      (fun its h => nomatch h)]
    rw [← htfin, vrfMigrationStage_idem]
  | some items =>
    obtain ⟨stA, hA⟩ : ∃ s, prefixLoop (pyDictOf SiteRec.name st6.sites)
      (admittedSegments items) st6 = s := ⟨_, rfl⟩
    obtain ⟨hostsC, hH⟩ : ∃ l, (admittedHosts items).filter
      (fun h => ¬ hasKey (pyDictOf DeviceRec.name stA.devices) h.name) = l :=
      ⟨_, rfl⟩
    obtain ⟨stB, hB⟩ : ∃ s, deviceLoopF (fun _ => false)
      (pyDictOf SiteRec.name st6.sites)
      (pyDictOf DeviceTypeRec.model st5.deviceTypes)
      (pyDictOf RoleRec.name st4.roles) hostsC stA = s := ⟨_, rfl⟩
    obtain ⟨ipHosts1, hIH⟩ : ∃ l, (ipAdmittedHosts items).filter
      (fun h => hasKey (pyDictOf DeviceRec.name stB.devices) h.name) = l :=
      ⟨_, rfl⟩
    obtain ⟨st7, hst7⟩ : ∃ s, ipLoop (pyDictOf DeviceRec.name stB.devices)
      (pyDictOf InterfaceRec.device stB.interfaces)
      (pyDictOf IPRec.address stB.ipAddresses) ipHosts1 stB = s := ⟨_, rfl⟩
    have hnm : netMapStage (pyDictOf SiteRec.name st6.sites)
        (pyDictOf DeviceTypeRec.model st5.deviceTypes)
        (pyDictOf RoleRec.name st4.roles) items st6 = st7 := by
      simp only [netMapStage, hA, hH, hB, hIH, hst7]
    obtain ⟨tfin, htfin⟩ : ∃ s, vrfMigrationStage st7 = s := ⟨_, rfl⟩
    have hout : reconcile cfg (some items) st0 = tfin := by
      rw [reconcile_eq]
      simp only [hst1, hst2, hst3, hst4, hst5, hst6, hnm, htfin]
    obtain ⟨vg, vp, vm, vr, vd, vs, vdev, vif, vip, vct⟩ :=
      vrfMigrationStage_proj st7
    rw [htfin] at vg vp vm vr vd vs vdev vif vip vct
    obtain ⟨i7g, i7p, i7m, i7r, i7d, i7s, i7pfx, i7if, i7ct⟩ :=
      ipLoop_proj_all (pyDictOf DeviceRec.name stB.devices)
        (pyDictOf InterfaceRec.device stB.interfaces)
        (pyDictOf IPRec.address stB.ipAddresses) ipHosts1 stB
    rw [hst7] at i7g i7p i7m i7r i7d i7s i7pfx i7if i7ct
    obtain ⟨bg, bp, bm, br, bd, bs, bpfx, bip, bct⟩ :=
      deviceLoopF_proj_all (fun _ => false) (pyDictOf SiteRec.name st6.sites)
        (pyDictOf DeviceTypeRec.model st5.deviceTypes)
        (pyDictOf RoleRec.name st4.roles) hostsC stA
    rw [hB] at bg bp bm br bd bs bpfx bip bct
    obtain ⟨ag, ap2, am, ar, ad, as2, adev, aif, aip, act⟩ :=
      prefixLoop_proj (pyDictOf SiteRec.name st6.sites)
        (admittedSegments items) st6
    rw [hA] at ag ap2 am ar ad as2 adev aif aip act
    obtain ⟨F, hF, hFmap⟩ := ipLoop_devices_map
      (pyDictOf DeviceRec.name stB.devices)
      (pyDictOf InterfaceRec.device stB.interfaces)
      (pyDictOf IPRec.address stB.ipAddresses) ipHosts1 stB
    rw [hst7] at hFmap
    have cg : tfin.groups = st1.groups := by
      rw [vg, i7g, bg, ag, g6, g5, g4, g3, g2]
    have cp : tfin.permissions = st2.permissions := by
      rw [vp, i7p, bp, ap2, p6, p5, p4, p3]
    have cm : tfin.manufacturers = st3.manufacturers := by
      rw [vm, i7m, bm, am, m6, m5, m4]
    have cr : tfin.roles = st4.roles := by rw [vr, i7r, br, ar, r6, r5]
    have cd : tfin.deviceTypes = st5.deviceTypes := by rw [vd, i7d, bd, ad, d6]
    have cs : tfin.sites = st6.sites := by rw [vs, i7s, bs, as2]
    have cif : tfin.interfaces = stB.interfaces := by rw [vif, i7if]
    have cip : tfin.ipAddresses = st7.ipAddresses := vip
    have cdev7 : tfin.devices = st7.devices := vdev
    have e1 : groupsStage cfg tfin = tfin :=
      groupsStage_noop cfg tfin (fun n hn => by
        rw [hasGroup_congr tfin st1 cg n]; exact hg1 n hn)
    have e2 : permissionsStage cfg (pyDictOf GroupRec.name tfin.groups) tfin
        = tfin :=
      permissionsStage_noop cfg _ tfin (fun p hp hne => by
        rw [hasPerm_congr tfin st2 cp p.2.name]; exact hperm2 p hp hne)
    have e3 : manufacturersStage cfg tfin = tfin :=
      manufacturersStage_noop cfg tfin (fun n hn => by
        rw [hasManufacturer_congr tfin st3 cm n]; exact hman3 n hn)
    have e4 : rolesStage cfg tfin = tfin :=
      rolesStage_noop cfg tfin (fun n hn => by
        rw [hasRole_congr tfin st4 cr n]; exact hrole4 n hn)
    have e5 : deviceTypesStage cfg
        (pyDictOf ManufacturerRec.name tfin.manufacturers) tfin = tfin :=
      deviceTypesStage_noop cfg _ tfin (fun m hm => by
        rw [hasDeviceType_congr tfin st5 cd m]; exact hdt5 m hm)
    have e6 : sitesStage cfg tfin = tfin :=
      sitesStage_noop cfg tfin (fun n hn => by
        rw [hasSite_congr tfin st6 cs n]; exact hsite6 n hn)
    have hpfxA : ∀ seg ∈ admittedSegments items,
        hasPrefixKey stA seg.address = true := by
      rw [← hA]
      exact prefixLoop_post (pyDictOf SiteRec.name st6.sites)
        (admittedSegments items) st6
    have hpfxT : ∀ seg ∈ admittedSegments items,
        hasPrefixKey tfin seg.address = true := by
      intro seg hs
      rw [← htfin, hasPrefixKey_vrfMigrationStage,
        hasPrefixKey_congr st7 stA (by rw [i7pfx, bpfx])]
      exact hpfxA seg hs
    have hdevB : ∀ h ∈ admittedHosts items, hasDevice stB h.name = true := by
      intro h hh
      by_cases hk : hasKey (pyDictOf DeviceRec.name stA.devices) h.name = true
      · rw [hasKey_pyDictOf] at hk
        rw [← hB]
        exact deviceLoopF_preserves _ _ _ _ hostsC stA h.name hk
      · have hmem : h ∈ hostsC := by
          rw [← hH]
          exact List.mem_filter.mpr ⟨hh, by simp [hk]⟩
        rw [← hB]
        exact deviceLoopF_mem _ _ _ _ hostsC stA h hmem rfl
    have hdevT : ∀ h ∈ admittedHosts items, hasDevice tfin h.name = true := by
      intro h hh
      rw [hasDevice_congr tfin st7 cdev7,
        hasDevice_devices_map st7 stB F (fun d => (hF d).1) hFmap]
      exact hdevB h hh
    have htdev : tfin.devices = stB.devices.map F := by rw [cdev7, hFmap]
    have hdevD2eq : pyDictOf DeviceRec.name tfin.devices
        = (pyDictOf DeviceRec.name stB.devices).map
            (fun p => (p.1, F p.2)) := by
      rw [htdev, pyDictOf_map DeviceRec.name F (fun d => (hF d).1)]
    have hhosts2 : (ipAdmittedHosts items).filter
        (fun h => hasKey (pyDictOf DeviceRec.name tfin.devices) h.name)
        = ipHosts1 := by
      rw [← hIH]
      apply List.filter_congr
      intro h _
      rw [hdevD2eq, hasKey_map_snd]
    have hpre2 : ∀ k, hasKey (pyDictOf IPRec.address tfin.ipAddresses) k
        = hasIPKey tfin k := by
      intro k
      rw [hasKey_pyDictOf]
      rfl
    have hrel : tfin.ipAddresses
        = (ipLoop (pyDictOf DeviceRec.name stB.devices)
            (pyDictOf InterfaceRec.device stB.interfaces)
            (pyDictOf IPRec.address stB.ipAddresses) ipHosts1
            stB).ipAddresses := by
      rw [hst7]
      exact cip
    have hstale : ∀ h ∈ ipHosts1,
        hasIPKey stB (hostKeyOf h)
          = hasKey (pyDictOf IPRec.address stB.ipAddresses) (hostKeyOf h) := by
      intro h _
      rw [hasKey_pyDictOf]
      rfl
    have hpair : ipHosts1.Pairwise (fun a b => hostKeyOf a ≠ hostKeyOf b) := by
      rw [← hIH]
      apply List.Pairwise.filter
      apply pairwise_hostKeys
      exact allDistinctStr_pairwise _ hdist
    have hre := ipLoop_replay (pyDictOf DeviceRec.name stB.devices)
      (pyDictOf DeviceRec.name tfin.devices)
      (pyDictOf InterfaceRec.device stB.interfaces)
      (pyDictOf IPRec.address stB.ipAddresses)
      (pyDictOf IPRec.address tfin.ipAddresses)
      F (fun d => (hF d).2) hdevD2eq ipHosts1 stB hpair tfin hpre2 hrel hstale
    have hiploop : ipLoop (pyDictOf DeviceRec.name tfin.devices)
        (pyDictOf InterfaceRec.device tfin.interfaces)
        (pyDictOf IPRec.address tfin.ipAddresses)
        ((ipAdmittedHosts items).filter
          (fun h => hasKey (pyDictOf DeviceRec.name tfin.devices) h.name))
        tfin = tfin := by
      rw [hhosts2, cif]
      exact hre
    have e7 : netMapStage (pyDictOf SiteRec.name tfin.sites)
        (pyDictOf DeviceTypeRec.model tfin.deviceTypes)
        (pyDictOf RoleRec.name tfin.roles) items tfin = tfin :=
      netMapStage_noop _ _ _ items tfin hpfxT hdevT hiploop
    rw [hout]
    rw [reconcile_second_run cfg (some items) tfin e1 e2 e3 e4 e5 e6
      (fun its h => by injection h with h2; rw [← h2]; exact e7)]
    rw [← htfin, vrfMigrationStage_idem]


/-- C1 counterexample: reconciliation is not idempotent in general.  The
store holds one site/device-type/role and a pre-existing, interface-less
device `B`; the net map's hosts `A` and `B` share the address `10.0.0.5`
and `C` has `10.0.0.6`.  The first run creates the single IP record
`10.0.0.5/32` (for `A`) and then aborts the IP-association pass at `B`
with the interface `KeyError` of netbox_init.py:808, never reaching `C`;
in the second run `B` is skipped — its key now pre-exists thanks to `A` —
so the pass continues past it and creates `10.0.0.6/32`: the second run
creates a new entity, and the entity-key sets of the two runs differ. -/
theorem reconcile_not_idempotent :
    (let cfg : Config := ⟨"g", "g", [], [], [], [], fun _ => 0⟩
     let nm : List NetMapItem :=
       [.obj (some "host") (some "A") (some "10.0.0.5"),
        .obj (some "host") (some "B") (some "10.0.0.5"),
        .obj (some "host") (some "C") (some "10.0.0.6")]
     let st0 : Store := ⟨[], [], [], [⟨3, "r", "r", true, 0⟩],
       [⟨2, "dt", "dt", none⟩], [⟨1, "s", "s"⟩], [],
       [⟨4, "B", none, none, none, none, none⟩], [], [], [], 5⟩
     (reconcile cfg (some nm) st0).ipAddresses.map IPRec.address
       = ["10.0.0.5/32"] ∧
     (reconcile cfg (some nm)
         (reconcile cfg (some nm) st0)).ipAddresses.map IPRec.address
       = ["10.0.0.5/32", "10.0.0.6/32"] ∧
     (reconcile cfg (some nm)
         (reconcile cfg (some nm) st0)).ipAddresses.length
       ≠ (reconcile cfg (some nm) st0).ipAddresses.length) := by
  refine ⟨?_, ?_, ?_⟩ <;> decide

/-- Witness for the amended C1 idempotence theorem: a concrete
configuration, net map with pairwise-distinct IP-host addresses, and
store at which the hypothesis holds and the theorem applies. -/
theorem reconcile_idempotent_witness :
    allDistinctStr (ipHostAddresses (some
      [NetMapItem.obj (some "host") (some "h1") (some "10.0.0.5")])) = true ∧
    reconcile ⟨"g", "g", [], [], [], [], fun _ => 0⟩
        (some [NetMapItem.obj (some "host") (some "h1") (some "10.0.0.5")])
        (reconcile ⟨"g", "g", [], [], [], [], fun _ => 0⟩
          (some [NetMapItem.obj (some "host") (some "h1") (some "10.0.0.5")])
          ⟨[], [], [], [], [], [], [], [], [], [], [], 0⟩)
      = reconcile ⟨"g", "g", [], [], [], [], fun _ => 0⟩
        (some [NetMapItem.obj (some "host") (some "h1") (some "10.0.0.5")])
        ⟨[], [], [], [], [], [], [], [], [], [], [], 0⟩ :=
  ⟨by decide,
   reconcile_idempotent ⟨"g", "g", [], [], [], [], fun _ => 0⟩
     (some [NetMapItem.obj (some "host") (some "h1") (some "10.0.0.5")])
     ⟨[], [], [], [], [], [], [], [], [], [], [], 0⟩ (by decide)⟩

end MalcolmX
